import Mathlib

/-!
Verification development for the `goer` task/job runner
(`src/goer/{rules,shell,job,goer,depman,dep}.py`).

The Python sources are shallowly embedded as pure Lean functions:

* file-system state is a finite map from path to mtime (`Nat`),
  `none` meaning the path does not exist;
* a shell step is represented by the exit code its process returns;
* the cooperative asyncio execution of the schedulers is modelled by its
  deterministic sequential semantics (tasks created by `asyncio.gather`
  over pure collaborators run to completion in creation order, exactly as
  the event loop schedules them when the task bodies never suspend, which
  is the situation exercised by the repository's own test doubles);
* mutable run-state tables (`deps_running`, `jobs_done`) are threaded
  explicitly as association lists;
* observable behaviour (step executions, run invocations, skip decisions,
  log events) is recorded in an explicit event trace;
* Python exceptions are modelled with `Except` where they can occur.
-/

/-- Association-list lookup, modelling Python `dict.get`. -/
def lookupK {α : Type} (id : String) : List (String × α) → Option α
  | [] => none
  | (k, v) :: rest => if k = id then some v else lookupK id rest

/-- Association-list update, modelling Python `dict[k] = v`
(overwrites an existing binding, otherwise appends). -/
def setK {α : Type} (id : String) (v : α) : List (String × α) → List (String × α)
  | [] => [(id, v)]
  | (k, w) :: rest => if k = id then (id, v) :: rest else (k, w) :: setK id v rest

namespace RulesM

/-!
## `src/goer/rules.py`

`os.stat` raises `FileNotFoundError` for a missing path; `Path.exists`
is a boolean test.  The file system is a pure map `String → Option Nat`
(mtime of each existing path).  `glob.glob` is a collaborator producing
the list of matched (existing) paths; it is passed in as a function from
pattern to matches.
-/

/-- Model of `os.stat(path).st_mtime`: errors (like `FileNotFoundError`)
when the path does not exist. -/
def stat (fs : String → Option Nat) (path : String) : Except String Nat :=
  match fs path with
  | some t => .ok t
  | none => .error "FileNotFoundError"

/-- `FileRule.can_skip` (rules.py lines 17-23):

    if not self.target.exists(): return False
    source_mtime = os.stat(self.source).st_mtime
    target_mtime = os.stat(self.target).st_mtime
    return source_mtime <= target_mtime
-/
def fileRuleCanSkip (fs : String → Option Nat) (source target : String) :
    Except String Bool :=
  if (fs target).isNone then .ok false
  else do
    let sourceMtime ← stat fs source
    let targetMtime ← stat fs target
    .ok (decide (sourceMtime ≤ targetMtime))

/-- Model of `max(os.stat(s).st_mtime for s in glob.glob(self.source))`:
Python's `max` raises `ValueError` on an empty sequence; each `os.stat`
may raise for a missing path. -/
def maxMtime (fs : String → Option Nat) : List String → Except String Nat
  | [] => .error "ValueError: max() arg is an empty sequence"
  | [p] => stat fs p
  | p :: q :: rest => do
    let t ← stat fs p
    let m ← maxMtime fs (q :: rest)
    .ok (max t m)

/-- `SourceGlobRule.can_skip` (rules.py lines 34-40):

    if not self.target.exists(): return False
    source_mtime = max(os.stat(s).st_mtime for s in glob.glob(self.source))
    target_mtime = os.stat(self.target).st_mtime
    return source_mtime <= target_mtime

`glob` is the collaborator `glob.glob`, mapping the stored pattern to its
matches. -/
def sourceGlobRuleCanSkip (fs : String → Option Nat) (glob : String → List String)
    (sourcePattern target : String) : Except String Bool :=
  if (fs target).isNone then .ok false
  else do
    let sourceMtime ← maxMtime fs (glob sourcePattern)
    let targetMtime ← stat fs target
    .ok (decide (sourceMtime ≤ targetMtime))

end RulesM

namespace ShellM

/-!
## `src/goer/shell.py`

A step is represented by the exit code of its `bash -c` process; the
model records which steps ran.  `ShellScript._run_steps` (lines 82-94)
contains

    if exit_code := await proc.wait() != 0:
        return exit_code

where the walrus operator has the lowest precedence, so `exit_code` is
bound to the *boolean* `await proc.wait() != 0`, and the value returned
for a failing step is Python's `True` (which is the integer 1), not the
process's exit code.
-/

/-- `ShellScript._run_steps`: the returned `Option Int` is the Python
`int | None` result; the returned list is the exit codes of the steps
whose processes were actually spawned, in order. -/
def runSteps : List Int → List Int × Option Int
  | [] => ([], none)
  | code :: rest =>
    -- `if exit_code := await proc.wait() != 0: return exit_code`
    -- binds exit_code to the bool (code ≠ 0); returning `True` yields int 1.
    if code ≠ 0 then ([code], some 1)
    else
      let (ran, r) := runSteps rest
      (code :: ran, r)

/-- `ShellScript._run` (lines 72-80): `None` means success; a non-zero
returned code raises `RuntimeError`, which `Dependency.run` (dep.py
lines 40-47) catches, returning `False`.  The composition
`Dependency.run ∘ ShellScript._run` is this function. -/
def run (steps : List Int) : List Int × Bool :=
  match runSteps steps with
  | (ran, none) => (ran, true)
  | (ran, some exitCode) => (ran, ¬ (exitCode ≠ 0))

end ShellM

namespace JobM

/-!
## `src/goer/job.py`

`Job` (dataclass, lines 41-107) with its scheduler `DependencyManager`
(lines 134-193).  `steps` are modelled by their processes' exit codes and
`rules` by the booleans their `can_skip()` calls return (the skip rules
are pure collaborators from the scheduler's viewpoint, spec section 2).
`depends_on` is a list of job identifiers resolved through the manager's
registry.  The asyncio execution is modelled sequentially (see the file
header); recursion through the registry is bounded by explicit fuel,
exhaustion standing for Python's `RecursionError`, which `run_job`
catches and converts to `False`.
-/

structure Job where
  jobId : String
  steps : List Int
  dependsOn : List String
  rules : List Bool
  deriving DecidableEq, Repr

/-- Observable events of the job.py scheduler. -/
inductive JEv where
  /-- a step's process was spawned and waited for (with its exit code) -/
  | stepExec (id : String) (code : Int)
  /-- a `run_job` invocation returned this result to its awaiter -/
  | jobReturn (id : String) (r : Bool)
  /-- the skip-rule conjunction `all(rule.can_skip() for rule in job.rules)`
      was evaluated for this job (recording its resolved dependency ids) -/
  | rulesChecked (id : String) (resolvedDeps : List String)
  /-- "skipping '<id>' since all rules passed" -/
  | skipped (id : String)
  /-- "dependency '<dep>' for '<id>' not found!" -/
  | depMissing (id : String) (dep : String)
  /-- "dependency failed for '<id>'" -/
  | depFailed (id : String)
  deriving DecidableEq, Repr

/-- `Job.run_steps` (lines 73-86): run each step in order, stop at the
first non-zero exit code and return it; `none` if all succeed. -/
def runSteps (id : String) : List Int → List JEv × Option Int
  | [] => ([], none)
  | code :: rest =>
    if code ≠ 0 then ([.stepExec id code], some code)
    else
      let (evs, r) := runSteps id rest
      (.stepExec id code :: evs, r)

/-- `Job._run` (lines 62-71): if there are steps, run them; a non-`None`
(hence non-zero, truthy) exit code means failure. -/
def jobRunOwn (j : Job) : List JEv × Bool :=
  if j.steps.isEmpty then ([], true)
  else
    match runSteps j.jobId j.steps with
    | (evs, some _) => (evs, false)
    | (evs, none) => (evs, true)

abbrev Reg := List (String × Job)

/-- `jobs_done`: identifier → completion flag. -/
abbrev St := List (String × Bool)

/-- `DependencyManager._resolve_job_deps` (lines 176-186): look up each
dependency identifier; a missing one is reported and dropped. -/
def resolveJobDeps (reg : Reg) (id : String) : List String → List JEv × List Job
  | [] => ([], [])
  | d :: rest =>
    let (evs, deps) := resolveJobDeps reg id rest
    match lookupK d reg with
    | none => (.depMissing id d :: evs, deps)
    | some dj => (evs, dj :: deps)

mutual

/-- `DependencyManager.run_job`/`_run_job` (lines 140-159).  The guard

    if (check_job_result := await self._check_dependencies_and_rules(job)
        is not None):
        return check_job_result

binds `check_job_result` to the *boolean* `... is not None` (the walrus
operator has the lowest precedence), so whenever the helper returns a
non-`None` value — `False` for a failed dependency as much as `True`
for a skip — this returns `True`. -/
def runJob (reg : Reg) : Nat → St → Job → St × List JEv × Bool
  | 0, σ, j => (σ, [.jobReturn j.jobId false], false)
  | fuel + 1, σ, j =>
    if (lookupK j.jobId σ).getD false then
      (σ, [.jobReturn j.jobId true], true)
    else
      let (σ1, evs, chk) := checkDepsRules reg fuel σ j
      match chk with
      | some _ => (σ1, evs ++ [.jobReturn j.jobId true], true)
      | none =>
        let (evs2, r) := jobRunOwn j
        (setK j.jobId true σ1, evs ++ evs2 ++ [.jobReturn j.jobId r], r)
termination_by fuel _ _ => (fuel, 0, 0)

/-- `DependencyManager._check_dependencies_and_rules` (lines 161-174). -/
def checkDepsRules (reg : Reg) : Nat → St → Job → St × List JEv × Option Bool
  | fuel, σ, j =>
    let resolved := resolveJobDeps reg j.jobId j.dependsOn
    let (σ1, evs1, depsOk) :=
      if j.dependsOn.isEmpty then (σ, [], true)
      else
        let (σ2, runEvs, results) := runJobs reg fuel σ resolved.2
        if results.all (· = true) then (σ2, resolved.1 ++ runEvs, true)
        else (σ2, resolved.1 ++ runEvs ++ [.depFailed j.jobId], false)
    if depsOk = false then (σ1, evs1, some false)
    else if j.rules ≠ [] ∧ j.rules.all (· = true) then
      (σ1, evs1 ++ [.rulesChecked j.jobId (resolved.2.map (·.jobId)),
        .skipped j.jobId], some true)
    else
      (σ1,
        evs1 ++
          (if j.rules ≠ [] then [.rulesChecked j.jobId (resolved.2.map (·.jobId))]
           else []),
        none)
termination_by fuel _ _ => (fuel, 2, 0)

/-- `asyncio.gather(*[self.run_job(dep) for dep in deps])`, under the
run-to-completion schedule (tasks run to completion in creation order
-- one particular asyncio schedule, used only for schedule-invariant
properties; scheduler-dependent behaviour of this handle-free scheduler
is exhibited over the nondeterministic event-loop machine `JobI`
below). -/
def runJobs (reg : Reg) : Nat → St → List Job → St × List JEv × List Bool
  | _, σ, [] => (σ, [], [])
  | fuel, σ, d :: rest =>
    let (σ1, evs1, r) := runJob reg fuel σ d
    let (σ2, evs2, rs) := runJobs reg fuel σ1 rest
    (σ2, evs1 ++ evs2, r :: rs)
termination_by fuel _ ds => (fuel, 1, ds.length)

end

end JobM

namespace GoerM

/-!
## `src/goer/goer.py`

The self-resolving variant: `Job` (lines 69-161) holds dependency
identifiers and resolves them at run time through its
`DependencyManager` (lines 164-195); `Gør` (lines 239-302) is the run
coordinator.  Modelling conventions are as for `JobM`.
-/

structure Job where
  jobId : String
  steps : List Int
  dependsOn : List String
  rules : List Bool
  deriving DecidableEq, Repr

/-- Observable events of the goer.py variant. -/
inductive GEv where
  /-- a step's process was spawned and waited for (with its exit code) -/
  | stepExec (id : String) (code : Int)
  /-- "job '<id>' not found!" -/
  | jobNotFound (id : String)
  /-- an `await_job` invocation returned this result to its awaiter -/
  | awaitReturn (id : String) (r : Bool)
  /-- the skip-rule conjunction was evaluated for this job -/
  | rulesChecked (id : String)
  /-- "skipping '<id>' since all rules passed" -/
  | skipped (id : String)
  /-- "dependency failed for '<id>'" -/
  | depFailed (id : String)
  /-- "jobs failed" (printed by `Gør.run`) -/
  | jobsFailed
  deriving DecidableEq, Repr

/-- `Job.run_steps` (lines 124-137): run each step in order, stop at the
first non-zero exit code and return it; `None` if all succeed. -/
def runSteps (id : String) : List Int → List GEv × Option Int
  | [] => ([], none)
  | code :: rest =>
    if code ≠ 0 then ([.stepExec id code], some code)
    else
      let (evs, r) := runSteps id rest
      (.stepExec id code :: evs, r)

abbrev Reg := List (String × Job)

/-- `jobs_done`: identifier → completion flag. -/
abbrev St := List (String × Bool)

mutual

/-- `Job._run` (lines 100-122): await all dependencies through the
manager; on any `False`, report and return `False`; otherwise evaluate
the skip rules, then run the own steps. -/
def jobRun (reg : Reg) : Nat → St → Job → St × List GEv × Bool
  | fuel, σ, j =>
    let (σ1, evs1, depsOk) :=
      if j.dependsOn.isEmpty then (σ, [], true)
      else
        let (σ2, evs2, results) := awaitJobs reg fuel σ j.dependsOn
        if results.all (· = true) then (σ2, evs2, true)
        else (σ2, evs2 ++ [.depFailed j.jobId], false)
    if depsOk = false then (σ1, evs1, false)
    else
      let evs2 := evs1 ++ (if j.rules ≠ [] then [.rulesChecked j.jobId] else [])
      if j.rules ≠ [] ∧ j.rules.all (· = true) then
        (σ1, evs2 ++ [.skipped j.jobId], true)
      else if j.steps.isEmpty then (σ1, evs2, true)
      else
        match runSteps j.jobId j.steps with
        | (sevs, some _) => (σ1, evs2 ++ sevs, false)
        | (sevs, none) => (σ1, evs2 ++ sevs, true)
termination_by fuel _ _ => (fuel, 2, 0)

/-- `DependencyManager.await_job`/`_await_job` (lines 170-188): an
already-done identifier yields `True`; a missing identifier is reported
and yields `False`; otherwise the job is run and then marked done —
`self.jobs_done[job_id] = True` unconditionally, whatever `job._run()`
returned. -/
def awaitJob (reg : Reg) : Nat → St → String → St × List GEv × Bool
  | 0, σ, id => (σ, [.awaitReturn id false], false)
  | fuel + 1, σ, id =>
    if (lookupK id σ).getD false then
      (σ, [.awaitReturn id true], true)
    else
      match lookupK id reg with
      | none => (σ, [.jobNotFound id, .awaitReturn id false], false)
      | some j =>
        let (σ1, evs, r) := jobRun reg fuel σ j
        (setK id true σ1, evs ++ [.awaitReturn id r], r)
termination_by fuel _ _ => (fuel, 0, 0)

/-- `asyncio.gather(*[self.depman.await_job(job_id) for job_id in
self.depends_on])`, sequential semantics. -/
def awaitJobs (reg : Reg) : Nat → St → List String → St × List GEv × List Bool
  | _, σ, [] => (σ, [], [])
  | fuel, σ, id :: rest =>
    let (σ1, evs1, r) := awaitJob reg fuel σ id
    let (σ2, evs2, rs) := awaitJobs reg fuel σ1 rest
    (σ2, evs1 ++ evs2, r :: rs)
termination_by fuel _ ids => (fuel, 1, ids.length)

end

/-- `DependencyManager.find_jobs` (lines 194-195):
`[job for job in self.jobs.values() if job.job_id in job_ids]` —
identifiers absent from the registry simply match no job. -/
def findJobs (reg : Reg) (jobIds : List String) : List Job :=
  (reg.map Prod.snd).filter (fun j => jobIds.contains j.jobId)

/-- `asyncio.gather(*[job._run() for job in jobs])` in `Gør.run`,
sequential semantics (note: `Gør.run` invokes `job._run()` directly). -/
def gorRunJobs (reg : Reg) (fuel : Nat) : St → List Job → St × List GEv × List Bool
  | σ, [] => (σ, [], [])
  | σ, j :: rest =>
    let (σ1, evs1, r) := jobRun reg fuel σ j
    let (σ2, evs2, rs) := gorRunJobs reg fuel σ1 rest
    (σ2, evs1 ++ evs2, r :: rs)

/-- `Gør.run` (lines 247-258):

    jobs = self.depman.find_jobs(job_ids)
    results = await asyncio.gather(*[job._run() for job in jobs])
    failed_jobs = not all(results)
    if failed_jobs:
        print_error("jobs failed")
    ...
    return failed_jobs

The returned boolean is the `failed_jobs` flag itself. -/
def gorRun (reg : Reg) (fuel : Nat) (σ : St) (jobIds : List String) :
    St × List GEv × Bool :=
  let jobs := findJobs reg jobIds
  let (σ1, evs, results) := gorRunJobs reg fuel σ jobs
  let failedJobs := ! results.all (· = true)
  (σ1, evs ++ (if failedJobs then [.jobsFailed] else []), failedJobs)

end GoerM

namespace DepmanM

/-!
## `src/goer/depman.py` (with `src/goer/dep.py`)

The scheduler-owns-resolution variant: `DependencyManager` holds
resolved `Dependency` objects, whose `depends_on` lists hold the
dependency objects themselves.  A dependency is modelled by its
identifier, its `last_modified` value (an integer timestamp), the
boolean its `run()` coroutine returns (`Dependency.run` catches all
exceptions and returns a boolean, dep.py lines 40-47), and its resolved
sub-dependencies.  `deps_running` maps an identifier to its shared
handle; in the sequential semantics every handle observed is already
completed, so the table maps identifiers to booleans.
-/

inductive Dep where
  | mk (depId : String) (lastModified : Int) (runResult : Bool) (dependsOn : List Dep)

def Dep.depId : Dep → String
  | .mk id _ _ _ => id

def Dep.lastModified : Dep → Int
  | .mk _ lm _ _ => lm

def Dep.runResult : Dep → Bool
  | .mk _ _ r _ => r

def Dep.dependsOn : Dep → List Dep
  | .mk _ _ _ ds => ds

/-- Observable events of the depman.py scheduler. -/
inductive DEv where
  /-- the comparison `all(last_modified > dep_dep.last_modified for ...)`
      was evaluated for this dependency (`run_dep` lines 30-32) -/
  | lmEval (id : String)
  /-- "skipping '<id>'" -/
  | skipHeader (id : String)
  /-- "starting '<id>'" -/
  | startHeader (id : String)
  /-- `dep.run()` was invoked for this dependency (its own execution),
      returning this result -/
  | runInvoke (id : String) (r : Bool)
  /-- a caller of the scheduler obtained this completion result for this
      direct dependency (by awaiting its shared handle or its fresh
      `run_dep` task) -/
  | obsDep (id : String) (r : Bool)
  /-- "dependency failed for '<id>'" -/
  | depFailed (id : String)
  deriving DecidableEq, Repr

/-- `deps_running`, sequential semantics: every registered shared handle
carries its (completed) result. -/
abbrev Tbl := List (String × Bool)

mutual

/-- Weighted size of a dependency tree, the termination measure for the
scheduler recursion. -/
def Dep.wsize : Dep → Nat
  | .mk _ _ _ ds => 1 + wsizeL ds

/-- Weighted size of a list of dependency trees. -/
def wsizeL : List Dep → Nat
  | [] => 0
  | d :: ds => d.wsize + 2 + wsizeL ds

end

/-- A pending gather entry of `_run_recursive_deps`: either an already
registered shared handle (with its identifier and completed value), or a
fresh `run_dep` task for the dependency.  `thunkW` weighs one entry for
the termination measure. -/
def thunkW : (String × Bool) ⊕ Dep → Nat
  | .inl _ => 1
  | .inr d => 3 * d.wsize + 4

/-- Total weight of a list of gather entries. -/
def thunksW : List ((String × Bool) ⊕ Dep) → Nat
  | [] => 0
  | t :: ts => thunkW t + thunksW ts

/-- Support lemma for the termination measure of the scheduler
recursion below. -/
theorem thunksW_map_le (f : Dep → (String × Bool) ⊕ Dep)
    (hf : ∀ d, thunkW (f d) ≤ 3 * d.wsize + 4) :
    ∀ ds : List Dep, thunksW (ds.map f) ≤ 3 * wsizeL ds := by
  intro ds
  induction ds with
  | nil => simp [thunksW, wsizeL]
  | cons d ds ih =>
    simp only [List.map_cons, thunksW, wsizeL]
    have := hf d
    omega

mutual

/-- `DependencyManager.run_dep` (lines 26-41): first the last-modified
comparison against the direct dependencies (only evaluated when
`dep.depends_on` is non-empty, by `and` short-circuit); if the
dependency's own `last_modified` is strictly greater than every direct
dependency's, skip entirely; otherwise delegate to `_run_dep`
(exceptions there are caught and turned into `False`; in this pure
model no exception can occur). -/
def runDep (σ : Tbl) (d : Dep) : Tbl × List DEv × Bool :=
  let checkEvs : List DEv := if d.dependsOn.isEmpty then [] else [.lmEval d.depId]
  if ¬ d.dependsOn.isEmpty ∧
      d.dependsOn.all (fun dd => decide (dd.lastModified < d.lastModified)) then
    (σ, checkEvs ++ [.skipHeader d.depId], true)
  else
    let (σ1, evs, res) := runDepAux σ d
    (σ1, checkEvs ++ [.startHeader d.depId] ++ evs, res)
termination_by (3 * d.wsize + 2, 0)
decreasing_by
  simp only [Prod.lex_iff]
  omega

/-- `DependencyManager._run_dep` (lines 43-52).  The guard

    if check_job_result := await self._run_recursive_deps(dep) is not None:
        return check_job_result

binds `check_job_result` to the *boolean* `... is not None` (the walrus
operator has the lowest precedence), so when a dependency fails
(`_run_recursive_deps` returns `False`, which is not `None`) this
returns `True`.  Otherwise: an existing shared handle is awaited, or a
fresh `dep.run()` task is created, registered in `deps_running`, and
awaited. -/
def runDepAux (σ : Tbl) (d : Dep) : Tbl × List DEv × Bool :=
  let (σ1, evs, recRes) := runRecursiveDeps σ d
  if recRes.isSome then (σ1, evs, true)
  else
    match lookupK d.depId σ1 with
    | some b => (σ1, evs, b)
    | none =>
      (setK d.depId d.runResult σ1,
        evs ++ [.runInvoke d.depId d.runResult], d.runResult)
termination_by (3 * d.wsize + 1, 0)
decreasing_by
  simp only [Prod.lex_iff]
  omega

/-- `DependencyManager._run_recursive_deps` (lines 54-71): if there are
direct dependencies, create one gather entry per dependency — the
registered shared handle if `deps_running` already has one, otherwise a
fresh `run_dep` task (all entries are created before any new task runs)
— await them all, and return `False` if any result is falsy, `None`
otherwise. -/
def runRecursiveDeps (σ : Tbl) (d : Dep) : Tbl × List DEv × Option Bool :=
  if d.dependsOn.isEmpty then (σ, [], none)
  else
    let thunks := d.dependsOn.map (fun dd =>
      match lookupK dd.depId σ with
      | some b => Sum.inl (dd.depId, b)
      | none => Sum.inr dd)
    let (σ1, evs, results) := gatherThunks σ thunks
    if results.all (· = true) then (σ1, evs, none)
    else (σ1, evs ++ [.depFailed d.depId], some false)
termination_by (3 * d.wsize, 0)
decreasing_by
  simp only [Prod.lex_iff]
  left
  calc thunksW (d.dependsOn.map _) ≤ 3 * wsizeL d.dependsOn := by
        apply thunksW_map_le
        intro dd
        cases lookupK dd.depId σ <;> simp [thunkW]
    _ < 3 * d.wsize := by
        cases d with
        | mk id lm r ds => simp only [Dep.wsize, Dep.dependsOn]; omega

/-- `await asyncio.gather(*tasks)` in `_run_recursive_deps`, under the
run-to-completion schedule (one particular asyncio schedule: entries
are awaited in creation order, a registered handle yields its completed
value, a fresh task runs `run_dep` to completion).  This fixed schedule
is used only for schedule-invariant, per-coroutine properties (C1, C6);
properties that quantify over interleavings (C2) are settled over the
nondeterministic event-loop machine `DepmanI` below. -/
def gatherThunks (σ : Tbl) (ts : List ((String × Bool) ⊕ Dep)) :
    Tbl × List DEv × List Bool :=
  match ts with
  | [] => (σ, [], [])
  | .inl (id, b) :: rest =>
    let (σ1, evs, rs) := gatherThunks σ rest
    (σ1, .obsDep id b :: evs, b :: rs)
  | .inr dd :: rest =>
    let (σ1, evs1, r) := runDep σ dd
    let (σ2, evs2, rs) := gatherThunks σ1 rest
    (σ2, evs1 ++ [.obsDep dd.depId r] ++ evs2, r :: rs)
termination_by (thunksW ts, 1)
decreasing_by
  all_goals simp only [Prod.lex_iff, thunksW, thunkW]
  all_goals omega

end

end DepmanM

namespace ResolveM

/-!
## Graph construction: `DependencyManager.from_defs` and `_find_dep_ids`
(depman.py lines 73-121), `_find_job_dep_ids` (goer.py lines 305-317)

A dependency definition is a Python object; its `depends_on` list holds
*references to definition objects*, matched against the definitions
mapping by object identity (`dep is dep_def`).  Object identity is
modelled by a `token : Nat` carried by every definition; a reference is
the token of the referenced object.
-/

structure DepDef where
  token : Nat
  dependsOn : List Nat
  deriving DecidableEq, Repr

/-- An initialized dependency as produced by `dep_def.initialize(dep_id,
color, depends_on=[...])`: its identifier together with the identifiers
of the already initialized dependencies handed to it (the objects
themselves are the registry entries under those identifiers). -/
structure RDep where
  depId : String
  depIds : List String
  deriving DecidableEq, Repr

/-- `_find_dep_ids(defs, deps)` (depman.py lines 107-121): for each
reference, scan the whole definitions mapping and collect every
identifier whose definition is the referenced object (no `break`, so
one object registered under several identifiers yields them all); if no
identifier matches, raise `RuntimeError(f"Could not match dependency")`
— the f-string interpolates nothing, so the message is a constant. -/
def findDepIds (defs : List (String × DepDef)) : List Nat → Except String (List String)
  | [] => .ok []
  | r :: rest =>
    let matched := (defs.filter (fun p => p.2.token = r)).map (·.1)
    if matched.isEmpty then .error "Could not match dependency"
    else
      match findDepIds defs rest with
      | .error e => .error e
      | .ok tail => .ok (matched ++ tail)

/-- One iteration of the `while uninitialized_dep_defs:` body in
`from_defs` (depman.py lines 89-99): iterate over a snapshot
(`dict(uninitialized_dep_defs).items()`) of the uninitialized
definitions; initialize every definition all of whose dependency
identifiers are already initialized, appending it to `initialized_deps`
and deleting it from `uninitialized_dep_defs`; an unmatched reference
raises out of the whole resolution. -/
def onePass (defs : List (String × DepDef)) :
    List (String × DepDef) → List (String × DepDef) → List (String × RDep) →
    Except String (List (String × DepDef) × List (String × RDep))
  | [], uninit, inited => .ok (uninit, inited)
  | (id, d) :: rest, uninit, inited =>
    match findDepIds defs d.dependsOn with
    | .error e => .error e
    | .ok depIds =>
      if depIds.all (fun i => (lookupK i inited).isSome) then
        onePass defs rest (uninit.eraseP (fun p => p.1 = id))
          (inited ++ [(id, ⟨id, depIds⟩)])
      else
        onePass defs rest uninit inited

/-- The `while` loop of `from_defs` (lines 83-99): `iterations_left`
starts at 1000 and is decremented at the top of each iteration; when it
reaches 0 the loop raises `RuntimeError("Could not resolve
dependencies")`, so at most 999 passes execute. -/
def fromDefsAux (defs : List (String × DepDef)) :
    Nat → List (String × DepDef) → List (String × RDep) →
    Except String (List (String × RDep))
  | iters, uninit, inited =>
    if uninit.isEmpty then .ok inited
    else
      match iters with
      | 0 => .error "Could not resolve dependencies"
      | 1 => .error "Could not resolve dependencies"
      | n + 2 =>
        match onePass defs uninit uninit inited with
        | .error e => .error e
        | .ok (uninit1, inited1) => fromDefsAux defs (n + 1) uninit1 inited1

/-- `DependencyManager.from_defs` (lines 73-101): resolve all
definitions; on success the resulting manager's registry is
`{dep.dep_id: dep}` over the initialized dependencies. -/
def fromDefs (defs : List (String × DepDef)) : Except String (List (String × RDep)) :=
  fromDefsAux defs 1000 defs []

/-- Pure iteration of resolution passes (no iteration bound), used to
express how many passes a definition set needs. -/
def iteratePasses (defs : List (String × DepDef)) :
    Nat → List (String × DepDef) × List (String × RDep) →
    Except String (List (String × DepDef) × List (String × RDep))
  | 0, st => .ok st
  | n + 1, (uninit, inited) =>
    match onePass defs uninit uninit inited with
    | .error e => .error e
    | .ok st1 => iteratePasses defs n st1

/-- The definition set is still unresolved after `n` error-free passes,
i.e. resolving it needs more than `n` passes. -/
def needsMorePassesThan (defs : List (String × DepDef)) (n : Nat) : Prop :=
  ∃ uninit inited, iteratePasses defs n (defs, []) = .ok (uninit, inited) ∧
    uninit ≠ []

/-- `defs` contains a dependency cycle: a non-empty set `cyc` of
registered identifiers each of which references (by object identity,
through its definition's `depends_on`) the definition registered under
some identifier in `cyc`.  Following references inside a finite such set
always reaches a repeated identifier, so this is exactly the existence
of a cycle among identity-resolvable references. -/
def HasCycle (defs : List (String × DepDef)) : Prop :=
  ∃ cyc : List String, cyc ≠ [] ∧
    ∀ id ∈ cyc, ∃ d, (id, d) ∈ defs ∧
      ∃ id2 d2, id2 ∈ cyc ∧ (id2, d2) ∈ defs ∧ d2.token ∈ d.dependsOn

end ResolveM

namespace GoerResolveM

/-!
## `Gør.load_python` resolution (goer.py lines 274-317)

`load_python` collects the `JobDef` objects of the executed definitions
file and builds one `Job` per definition, translating each definition's
`depends_on` (a list of `JobDef` objects, matched by identity) into
identifiers via `_find_job_dep_ids`; an unmatched reference raises
`RuntimeError("Could not match dependency")` before any job runs. -/

structure JobDef where
  token : Nat
  steps : List Int
  dependsOn : List Nat
  rules : List Bool
  deriving DecidableEq, Repr

/-- `_find_job_dep_ids(job_defs, deps)` (goer.py lines 305-317):
identical logic to `_find_dep_ids`. -/
def findJobDepIds (jobDefs : List (String × JobDef)) :
    List Nat → Except String (List String)
  | [] => .ok []
  | r :: rest =>
    let matched := (jobDefs.filter (fun p => p.2.token = r)).map (·.1)
    if matched.isEmpty then .error "Could not match dependency"
    else
      match findJobDepIds jobDefs rest with
      | .error e => .error e
      | .ok tail => .ok (matched ++ tail)

/-- The job-construction loop of `load_python` (lines 288-298): build
one `Job` per definition, resolving its dependency identifiers; a
resolution error aborts the whole load. -/
def loadPythonJobs (jobDefs : List (String × JobDef)) :
    List (String × JobDef) → Except String (List GoerM.Job)
  | [] => .ok []
  | (id, jd) :: rest =>
    match findJobDepIds jobDefs jd.dependsOn with
    | .error e => .error e
    | .ok depIds =>
      match loadPythonJobs jobDefs rest with
      | .error e => .error e
      | .ok jobs => .ok (⟨id, jd.steps, depIds, jd.rules⟩ :: jobs)

end GoerResolveM

/-!
## Trace instrumentation helpers
-/

namespace JobM

/-- Does this event record a step execution of the given job? -/
def JEv.isStepOf (id : String) : JEv → Bool
  | .stepExec i _ => i = id
  | _ => false

/-- Skip checks happen only after dependency completion: whenever the
trace splits as `pre ++ rulesChecked id deps :: post` (the skip-rule
conjunction of a job with resolved direct dependencies `deps` was
evaluated), `pre` already contains a completed `run_job` result for
every one of those dependencies. -/
def RulesAfterDeps (tr : List JEv) : Prop :=
  ∀ pre id deps post, tr = pre ++ .rulesChecked id deps :: post →
    ∀ d ∈ deps, ∃ r, JEv.jobReturn d r ∈ pre

end JobM

namespace GoerM

/-- Does this event record a step execution of the given job? -/
def GEv.isStepOf (id : String) : GEv → Bool
  | .stepExec i _ => i = id
  | _ => false

end GoerM

namespace DepmanM

/-- Does this event record a `dep.run()` invocation of the given
dependency? -/
def DEv.isInvokeOf (id : String) : DEv → Bool
  | .runInvoke i _ => i = id
  | _ => false

/-- Number of `dep.run()` invocations of the given identifier in a
trace. -/
def invokeCount (id : String) (tr : List DEv) : Nat :=
  tr.countP (DEv.isInvokeOf id)

mutual

/-- The result every caller observes for a dependency in the sequential
semantics (established by `runDep_depVal` below): `True` from the
last-modified skip, `True` from the walrus-bound return on dependency
failure, and otherwise the dependency's own `run()` result. -/
def depVal : Dep → Bool
  | .mk _ lm r ds =>
    if ¬ ds.isEmpty ∧ ds.all (fun dd => decide (dd.lastModified < lm)) then true
    else if ¬ ds.isEmpty ∧ depValL ds = false then true
    else r

/-- All dependencies in the list succeed (observe `true`). -/
def depValL : List Dep → Bool
  | [] => true
  | d :: ds => depVal d && depValL ds

end

mutual

/-- All nodes of a dependency tree (the dependency and, recursively,
everything it depends on). -/
def nodesOf : Dep → List Dep
  | .mk id lm r ds => .mk id lm r ds :: nodesOfL ds

/-- All nodes of a list of dependency trees. -/
def nodesOfL : List Dep → List Dep
  | [] => []
  | d :: ds => nodesOf d ++ nodesOfL ds

end

/-- The graphs reachable from a request list are coherent: two reachable
nodes carrying the same identifier are the same dependency.  This holds
for every graph produced by `from_defs`, where each identifier is
initialized exactly once and shared. -/
def Coherent (ds : List Dep) : Prop :=
  ∀ d1 d2, d1 ∈ nodesOfL ds → d2 ∈ nodesOfL ds → d1.depId = d2.depId → d1 = d2

end DepmanM

namespace DepmanM

/-- Does this event record an observation of a completed result for the
given dependency? -/
def DEv.isObsOf (id : String) : DEv → Bool
  | .obsDep i _ => i = id
  | _ => false

end DepmanM

/-!
# Theorems
-/

/-- **C1** (code bug): for a job `b` whose single dependency `a` fails,
the claim says every scheduler variant returns `False` for `b` and never
executes `b`'s own steps.  The evaluation below shows: in
`DependencyManager._run_dep` (depman.py) and `DependencyManager._run_job`
(job.py) the walrus guard `check_job_result := await ... is not None`
makes the scheduler return `True` on dependency failure (while indeed
never running `b`'s own work); only `Job._run` (goer.py) returns
`False`.  The "steps never executed" half holds in all three variants;
the "returns false" half is violated by the first two. -/
theorem c1_dependency_failure_returns_true :
    ((DepmanM.runDepAux [] (.mk "b" 0 true [.mk "a" 0 false []])).2.2 = true
      ∧ DepmanM.invokeCount "b"
          (DepmanM.runDepAux [] (.mk "b" 0 true [.mk "a" 0 false []])).2.1 = 0)
    ∧ ((JobM.runJob [("a", ⟨"a", [1], [], []⟩), ("b", ⟨"b", [0], ["a"], []⟩)] 5 []
          ⟨"b", [0], ["a"], []⟩).2.2 = true
      ∧ (JobM.runJob [("a", ⟨"a", [1], [], []⟩), ("b", ⟨"b", [0], ["a"], []⟩)] 5 []
          ⟨"b", [0], ["a"], []⟩).2.1.countP (JobM.JEv.isStepOf "b") = 0)
    ∧ ((GoerM.jobRun [("a", ⟨"a", [1], [], []⟩), ("b", ⟨"b", [0], ["a"], []⟩)] 5 []
          ⟨"b", [0], ["a"], []⟩).2.2 = false
      ∧ (GoerM.jobRun [("a", ⟨"a", [1], [], []⟩), ("b", ⟨"b", [0], ["a"], []⟩)] 5 []
          ⟨"b", [0], ["a"], []⟩).2.1.countP (GoerM.GEv.isStepOf "b") = 0) := by
  refine ⟨⟨?_, ?_⟩, ⟨?_, ?_⟩, ?_, ?_⟩ <;>
    simp [DepmanM.runDep, DepmanM.runDepAux, DepmanM.runRecursiveDeps,
      DepmanM.gatherThunks, DepmanM.Dep.depId, DepmanM.Dep.dependsOn,
      DepmanM.Dep.lastModified, DepmanM.Dep.runResult, DepmanM.invokeCount,
      DepmanM.DEv.isInvokeOf,
      JobM.runJob, JobM.checkDepsRules, JobM.runJobs, JobM.resolveJobDeps,
      JobM.jobRunOwn, JobM.runSteps, JobM.JEv.isStepOf,
      GoerM.jobRun, GoerM.awaitJob, GoerM.awaitJobs, GoerM.runSteps,
      GoerM.GEv.isStepOf, lookupK, setK]

/-- **C3** (code bug): with steps `[ok, fail(7), ok]`, both step loops
execute exactly steps 1 and 2 (never step 3) and report overall failure,
as the claim states; but `ShellScript._run_steps` (shell.py), whose
walrus guard `exit_code := await proc.wait() != 0` binds the *boolean*
comparison, reports the constant exit code 1 (Python `True`) instead of
the process's actual exit code 7, which only `Job.run_steps` (job.py)
reports. -/
theorem c3_shell_reports_constant_exit_code :
    JobM.runSteps "j" [0, 7, 0] = ([.stepExec "j" 0, .stepExec "j" 7], some 7)
    ∧ (JobM.jobRunOwn ⟨"j", [0, 7, 0], [], []⟩).2 = false
    ∧ ShellM.runSteps [0, 7, 0] = ([0, 7], some 1)
    ∧ ShellM.run [0, 7, 0] = ([0, 7], false) := by
  refine ⟨?_, ?_, ?_, ?_⟩ <;>
    simp [JobM.runSteps, JobM.jobRunOwn, ShellM.runSteps, ShellM.run]

/-- **C4** (code bug): `Gør.run` computes `failed_jobs = not all(results)`
and returns `failed_jobs` itself, so it returns `False` when every
gathered result is `True` (single successful job) and `True` when a
result is `False` (single failing job) — the negation of the claimed
"returns true iff every individual job result is true". -/
theorem c4_gor_run_returns_failure_flag :
    ((GoerM.gorRunJobs [("a", ⟨"a", [], [], []⟩)] 5 []
        (GoerM.findJobs [("a", ⟨"a", [], [], []⟩)] ["a"])).2.2 = [true]
      ∧ (GoerM.gorRun [("a", ⟨"a", [], [], []⟩)] 5 [] ["a"]).2.2 = false)
    ∧ ((GoerM.gorRunJobs [("a", ⟨"a", [1], [], []⟩)] 5 []
        (GoerM.findJobs [("a", ⟨"a", [1], [], []⟩)] ["a"])).2.2 = [false]
      ∧ (GoerM.gorRun [("a", ⟨"a", [1], [], []⟩)] 5 [] ["a"]).2.2 = true) := by
  refine ⟨⟨?_, ?_⟩, ?_, ?_⟩ <;>
    simp [GoerM.gorRun, GoerM.gorRunJobs, GoerM.findJobs, GoerM.jobRun,
      GoerM.awaitJob, GoerM.awaitJobs, GoerM.runSteps, lookupK, setK]

/-- **C2** (counterexample): jobs `r1` and `r2` both depend on `leaf`,
whose single step fails; the two roots are requested concurrently
(gathered in order) against one `DependencyManager` of job.py.  The
trace of the batch contains `run_job` completions `leaf ↦ False` (r1's
request) *and* `leaf ↦ True` (r2's request): because `_run_job` records
`self.jobs_done[job.job_id] = True` regardless of the result and holds
no shared pending handle, the later requester of the already-failed
`leaf` observes `True`, so not every requester observes the same
success/failure result, refuting the claim for this scheduler variant
(`DependencyManager._run_job`).  (The shared job's own step still runs
only once.) -/
theorem c2_later_requester_observes_success :
    JobM.JEv.jobReturn "leaf" false ∈
      (JobM.runJobs [("r1", ⟨"r1", [], ["leaf"], []⟩), ("r2", ⟨"r2", [], ["leaf"], []⟩),
          ("leaf", ⟨"leaf", [1], [], []⟩)] 5 []
        [⟨"r1", [], ["leaf"], []⟩, ⟨"r2", [], ["leaf"], []⟩]).2.1
    ∧ JobM.JEv.jobReturn "leaf" true ∈
      (JobM.runJobs [("r1", ⟨"r1", [], ["leaf"], []⟩), ("r2", ⟨"r2", [], ["leaf"], []⟩),
          ("leaf", ⟨"leaf", [1], [], []⟩)] 5 []
        [⟨"r1", [], ["leaf"], []⟩, ⟨"r2", [], ["leaf"], []⟩]).2.1
    ∧ (JobM.runJobs [("r1", ⟨"r1", [], ["leaf"], []⟩), ("r2", ⟨"r2", [], ["leaf"], []⟩),
          ("leaf", ⟨"leaf", [1], [], []⟩)] 5 []
        [⟨"r1", [], ["leaf"], []⟩, ⟨"r2", [], ["leaf"], []⟩]).2.1.countP
        (JobM.JEv.isStepOf "leaf") = 1 := by
  refine ⟨?_, ?_, ?_⟩ <;>
    simp [JobM.runJob, JobM.checkDepsRules, JobM.runJobs, JobM.resolveJobDeps,
      JobM.jobRunOwn, JobM.runSteps, JobM.JEv.isStepOf, lookupK, setK]

/-- **C6** (counterexample): in `DependencyManager.run_dep` (depman.py),
for `b` (last-modified 5) depending on `a` (last-modified 1), the
last-modified comparison for `b` is evaluated and decides to skip while
dependency `a` is never awaited at all (no completion is ever observed
for it, its run is never invoked), so the skip check is *not* performed
only after all direct dependencies have been awaited to completion — it
happens before, and here instead of, running them. -/
theorem c6_lm_check_before_deps :
    DepmanM.DEv.lmEval "b" ∈ (DepmanM.runDep [] (.mk "b" 5 true [.mk "a" 1 true []])).2.1
    ∧ (DepmanM.runDep [] (.mk "b" 5 true [.mk "a" 1 true []])).2.1.countP
        (DepmanM.DEv.isObsOf "a") = 0
    ∧ DepmanM.invokeCount "a"
        (DepmanM.runDep [] (.mk "b" 5 true [.mk "a" 1 true []])).2.1 = 0
    ∧ (DepmanM.runDep [] (.mk "b" 5 true [.mk "a" 1 true []])).2.2 = true := by
  refine ⟨?_, ?_, ?_, ?_⟩ <;>
    simp [DepmanM.runDep, DepmanM.runDepAux, DepmanM.runRecursiveDeps,
      DepmanM.gatherThunks, DepmanM.Dep.depId, DepmanM.Dep.dependsOn,
      DepmanM.Dep.lastModified, DepmanM.Dep.runResult, DepmanM.invokeCount,
      DepmanM.DEv.isInvokeOf, DepmanM.DEv.isObsOf, lookupK, setK]

/-- **C10** (counterexample): with registry `{a}` and request `["zzz"]`
(an identifier absent from the registry), `find_jobs` silently drops the
unknown identifier, `Gør.run` gathers zero results, emits *no* event at
all (no error naming the identifier, and no "jobs failed"), and its
`failed_jobs` flag is `False` — the request consisting only of unknown
identifiers is treated as a batch with no failures rather than reported
as a distinct error contributing failure. -/
theorem c10_unknown_id_silently_ignored :
    GoerM.findJobs [("a", ⟨"a", [], [], []⟩)] ["zzz"] = []
    ∧ GoerM.gorRun [("a", ⟨"a", [], [], []⟩)] 5 [] ["zzz"] = ([], [], false) := by
  refine ⟨?_, ?_⟩ <;>
    simp [GoerM.gorRun, GoerM.gorRunJobs, GoerM.findJobs, lookupK]

/-- Helper for C7: under a file system that has every matched path,
Python's `max` over the globbed mtimes computes the maximum mtime. -/
theorem maxMtime_ok (fs : String → Option Nat) (mts : String → Nat) :
    ∀ ps : List String, ps ≠ [] → (∀ p ∈ ps, fs p = some (mts p)) →
      RulesM.maxMtime fs ps = .ok ((ps.map mts).foldr max 0) := by
  intro ps
  induction ps with
  | nil => simp
  | cons p ps ih =>
    intro _ hall
    cases ps with
    | nil =>
      simp [RulesM.maxMtime, RulesM.stat, hall p (by simp)]
    | cons q rest =>
      have h1 : fs p = some (mts p) := hall p (by simp)
      have h2 := ih (by simp) (fun x hx => hall x (by simp [hx]))
      simp only [RulesM.maxMtime, RulesM.stat, h1, h2, List.map_cons, List.foldr_cons]
      rfl

/-- **C7** (confirmed): for both `FileRule.can_skip` and
`SourceGlobRule.can_skip`: a missing target yields `ok false` (no
error); a missing source path for `FileRule` propagates the
`FileNotFoundError`; a glob matching zero files propagates the
`ValueError` raised by `max()`; and otherwise the result is `true` iff
the target's mtime is ≥ the source's mtime (for `SourceGlobRule`, ≥ the
maximum mtime over all matched paths). -/
theorem c7_rule_edge_policy (fs : String → Option Nat) (glob : String → List String)
    (source target pattern : String) :
    (fs target = none →
      RulesM.fileRuleCanSkip fs source target = .ok false
      ∧ RulesM.sourceGlobRuleCanSkip fs glob pattern target = .ok false)
    ∧ (∀ tm, fs target = some tm → fs source = none →
      RulesM.fileRuleCanSkip fs source target = .error "FileNotFoundError")
    ∧ (∀ tm, fs target = some tm → glob pattern = [] →
      RulesM.sourceGlobRuleCanSkip fs glob pattern target =
        .error "ValueError: max() arg is an empty sequence")
    ∧ (∀ tm sm, fs target = some tm → fs source = some sm →
      RulesM.fileRuleCanSkip fs source target = .ok (decide (tm ≥ sm)))
    ∧ (∀ tm (mts : String → Nat), fs target = some tm → glob pattern ≠ [] →
      (∀ p ∈ glob pattern, fs p = some (mts p)) →
      RulesM.sourceGlobRuleCanSkip fs glob pattern target =
        .ok (decide (tm ≥ ((glob pattern).map mts).foldr max 0))) := by
  refine ⟨fun ht => ⟨?_, ?_⟩, fun tm ht hs => ?_, fun tm ht hg => ?_,
    fun tm sm ht hs => ?_, fun tm mts ht hg hall => ?_⟩
  · simp [RulesM.fileRuleCanSkip, ht]
  · simp [RulesM.sourceGlobRuleCanSkip, ht]
  · simp [RulesM.fileRuleCanSkip, RulesM.stat, ht, hs, Bind.bind, Except.bind]
  · simp [RulesM.sourceGlobRuleCanSkip, RulesM.maxMtime, RulesM.stat, ht, hg,
      Bind.bind, Except.bind]
  · simp [RulesM.fileRuleCanSkip, RulesM.stat, ht, hs, ge_iff_le,
      Bind.bind, Except.bind]
  · simp [RulesM.sourceGlobRuleCanSkip, RulesM.stat, ht,
      maxMtime_ok fs mts (glob pattern) hg hall, ge_iff_le,
      Bind.bind, Except.bind]

/-- Witness for C7 at concrete file systems: a missing target, a missing
source, an empty glob, and up-to-date targets (target mtime 5 against
source mtime 3). -/
theorem c7_rule_edge_policy_witness :
    RulesM.fileRuleCanSkip (fun _ => none) "s" "t" = .ok false
    ∧ RulesM.fileRuleCanSkip (fun p => if p = "t" then some 5 else none) "s" "t" =
        .error "FileNotFoundError"
    ∧ RulesM.sourceGlobRuleCanSkip (fun p => if p = "t" then some 5 else none)
        (fun _ => []) "pat" "t" = .error "ValueError: max() arg is an empty sequence"
    ∧ RulesM.fileRuleCanSkip
        (fun p => if p = "t" then some 5 else if p = "s" then some 3 else none)
        "s" "t" = .ok true
    ∧ RulesM.sourceGlobRuleCanSkip
        (fun p => if p = "t" then some 5 else if p = "x" then some 3 else none)
        (fun _ => ["x"]) "pat" "t" = .ok true := by
  refine ⟨?_, ?_, ?_, ?_, ?_⟩
  · exact ((c7_rule_edge_policy (fun _ => none) (fun _ => []) "s" "t" "pat").1 rfl).1
  · exact (c7_rule_edge_policy (fun p => if p = "t" then some 5 else none)
      (fun _ => []) "s" "t" "pat").2.1 5 rfl rfl
  · exact (c7_rule_edge_policy (fun p => if p = "t" then some 5 else none)
      (fun _ => []) "s" "t" "pat").2.2.1 5 rfl rfl
  · have h := (c7_rule_edge_policy
      (fun p => if p = "t" then some 5 else if p = "s" then some 3 else none)
      (fun _ => []) "s" "t" "pat").2.2.2.1 5 3 rfl rfl
    simpa using h
  · have h := (c7_rule_edge_policy
      (fun p => if p = "t" then some 5 else if p = "x" then some 3 else none)
      (fun _ => ["x"]) "s" "t" "pat").2.2.2.2 5 (fun _ => 3) rfl (by simp)
      (by intro p hp; simp at hp; simp [hp])
    simpa using h

/-- Helper for C5: when every gathered dependency result is `True` (in
particular when there are no dependencies), `_check_dependencies_and_rules`
reaches its skip-rule part, and its outcome is determined by the rules:
`some true` (skip) iff the rule list is non-empty and every rule passed,
`none` (proceed to the own steps) otherwise. -/
theorem JobM.checkDepsRules_ok (reg : JobM.Reg) (fuel : Nat) (σ : JobM.St)
    (j : JobM.Job)
    (hdeps : ((JobM.runJobs reg fuel σ
        (JobM.resolveJobDeps reg j.jobId j.dependsOn).2).2.2).all (· = true) = true) :
    JobM.checkDepsRules reg fuel σ j =
      ((JobM.runJobs reg fuel σ (JobM.resolveJobDeps reg j.jobId j.dependsOn).2).1,
        (JobM.resolveJobDeps reg j.jobId j.dependsOn).1
          ++ (JobM.runJobs reg fuel σ
              (JobM.resolveJobDeps reg j.jobId j.dependsOn).2).2.1
          ++ (if j.rules ≠ [] ∧ j.rules.all (· = true) = true then
                [.rulesChecked j.jobId
                    ((JobM.resolveJobDeps reg j.jobId j.dependsOn).2.map (·.jobId)),
                  .skipped j.jobId]
              else if j.rules ≠ [] then
                [.rulesChecked j.jobId
                    ((JobM.resolveJobDeps reg j.jobId j.dependsOn).2.map (·.jobId))]
              else []),
        if j.rules ≠ [] ∧ j.rules.all (· = true) = true then some true else none) := by
  have hf : false ∉ (JobM.runJobs reg fuel σ
      (JobM.resolveJobDeps reg j.jobId j.dependsOn).2).2.2 := by
    simpa using hdeps
  by_cases hre : j.rules = []
  · by_cases hemp : j.dependsOn.isEmpty
    · have hnil : j.dependsOn = [] := by simpa [List.isEmpty_iff] using hemp
      simp [JobM.checkDepsRules, hnil, JobM.resolveJobDeps, JobM.runJobs, hre]
    · simp [JobM.checkDepsRules, hemp, hf, hre]
  · by_cases hall : false ∈ j.rules
    · have hnas : ¬ (j.rules ≠ [] ∧ j.rules.all (· = true) = true) := by
        simp [hall]
      by_cases hemp : j.dependsOn.isEmpty
      · have hnil : j.dependsOn = [] := by simpa [List.isEmpty_iff] using hemp
        simp [JobM.checkDepsRules, hnil, JobM.resolveJobDeps, JobM.runJobs, hre, hall]
      · simp [JobM.checkDepsRules, hemp, hf, hre, hall]
    · by_cases hemp : j.dependsOn.isEmpty
      · have hnil : j.dependsOn = [] := by simpa [List.isEmpty_iff] using hemp
        simp [JobM.checkDepsRules, hnil, JobM.resolveJobDeps, JobM.runJobs, hre, hall]
      · simp [JobM.checkDepsRules, hemp, hf, hre, hall]

/-- Helper for C5: with non-empty steps, `Job._run` runs the step loop
and succeeds exactly when no step returned a non-zero exit code. -/
theorem JobM.jobRunOwn_eq (j : JobM.Job) (h : ¬ j.steps.isEmpty = true) :
    JobM.jobRunOwn j =
      ((JobM.runSteps j.jobId j.steps).1, (JobM.runSteps j.jobId j.steps).2.isNone) := by
  rcases hr : JobM.runSteps j.jobId j.steps with ⟨evs, r⟩
  cases r <;> simp [JobM.jobRunOwn, h, hr]

/-- Helper for C5: a non-empty step list spawns its first step. -/
theorem JobM.runSteps_head_mem (id : String) :
    ∀ steps : List Int, steps ≠ [] →
      ∃ c, JobM.JEv.stepExec id c ∈ (JobM.runSteps id steps).1 := by
  intro steps h
  cases steps with
  | nil => exact absurd rfl h
  | cons c rest =>
    refine ⟨c, ?_⟩
    by_cases hc : c = 0
    · simp [JobM.runSteps, hc]
    · simp [JobM.runSteps, hc]

/-- Helper for C5 (goer.py variant): a non-empty step list spawns its
first step. -/
theorem GoerM.gjobRunSteps_head_mem (id : String) :
    ∀ steps : List Int, steps ≠ [] →
      ∃ c, GoerM.GEv.stepExec id c ∈ (GoerM.runSteps id steps).1 := by
  intro steps h
  cases steps with
  | nil => exact absurd rfl h
  | cons c rest =>
    refine ⟨c, ?_⟩
    by_cases hc : c = 0
    · simp [GoerM.runSteps, hc]
    · simp [GoerM.runSteps, hc]

/-- Helper for C5: when every awaited dependency result is `True` (in
particular with no dependencies), `Job._run` (goer.py) reduces to the
skip-rule decision followed by the own steps. -/
theorem GoerM.jobRun_ok (reg : GoerM.Reg) (fuel : Nat) (σ : GoerM.St) (j : GoerM.Job)
    (hdeps : ((GoerM.awaitJobs reg fuel σ j.dependsOn).2.2).all (· = true) = true) :
    GoerM.jobRun reg fuel σ j =
      ((GoerM.awaitJobs reg fuel σ j.dependsOn).1,
        (GoerM.awaitJobs reg fuel σ j.dependsOn).2.1
          ++ (if j.rules ≠ [] then [.rulesChecked j.jobId] else [])
          ++ (if j.rules ≠ [] ∧ j.rules.all (· = true) = true then [.skipped j.jobId]
              else (GoerM.runSteps j.jobId j.steps).1),
        if j.rules ≠ [] ∧ j.rules.all (· = true) = true then true
        else (GoerM.runSteps j.jobId j.steps).2.isNone) := by
  have hf : false ∉ (GoerM.awaitJobs reg fuel σ j.dependsOn).2.2 := by
    simpa using hdeps
  have hempty : j.dependsOn.isEmpty = true →
      GoerM.awaitJobs reg fuel σ j.dependsOn = (σ, [], []) := by
    intro he
    have : j.dependsOn = [] := by simpa [List.isEmpty_iff] using he
    simp [this, GoerM.awaitJobs]
  by_cases hre : j.rules = []
  · by_cases hst : j.steps.isEmpty
    · have hstnil : j.steps = [] := by simpa [List.isEmpty_iff] using hst
      by_cases hemp : j.dependsOn.isEmpty
      · simp [GoerM.jobRun, hemp, hempty hemp, hre, hstnil, GoerM.runSteps]
      · simp [GoerM.jobRun, hemp, hf, hre, hstnil, GoerM.runSteps]
    · rcases hr : GoerM.runSteps j.jobId j.steps with ⟨sevs, rr⟩
      by_cases hemp : j.dependsOn.isEmpty
      · cases rr <;>
          simp [GoerM.jobRun, hemp, hempty hemp, hre, hst, hr]
      · cases rr <;>
          simp [GoerM.jobRun, hemp, hf, hre, hst, hr]
  · by_cases hall : false ∈ j.rules
    · by_cases hst : j.steps.isEmpty
      · have hstnil : j.steps = [] := by simpa [List.isEmpty_iff] using hst
        by_cases hemp : j.dependsOn.isEmpty
        · simp [GoerM.jobRun, hemp, hempty hemp, hre, hall, hstnil, GoerM.runSteps]
        · simp [GoerM.jobRun, hemp, hf, hre, hall, hstnil, GoerM.runSteps]
      · rcases hr : GoerM.runSteps j.jobId j.steps with ⟨sevs, rr⟩
        by_cases hemp : j.dependsOn.isEmpty
        · cases rr <;>
            simp [GoerM.jobRun, hemp, hempty hemp, hre, hall, hst, hr]
        · cases rr <;>
            simp [GoerM.jobRun, hemp, hf, hre, hall, hst, hr]
    · by_cases hemp : j.dependsOn.isEmpty
      · simp [GoerM.jobRun, hemp, hempty hemp, hre, hall]
      · simp [GoerM.jobRun, hemp, hf, hre, hall]

/-- **C5** (confirmed): skip correctness, in both the job.py scheduler
(`DependencyManager._check_dependencies_and_rules` + `_run_job`) and the
goer.py `Job._run`, for a job whose dependency phase succeeds (all
gathered dependency results `True`; vacuously so when it has no
dependencies): if the rules list is non-empty and every rule's
`can_skip()` returns `True`, the run returns `True` and the complete
trace shows no step execution (the job is skipped); otherwise — some
rule returns `False`, or the rules list is empty, which never skips —
the job proceeds to execute its steps (its first step's process is
spawned whenever the step list is non-empty) and the run's result is its
step outcome. -/
theorem c5_skip_correctness :
    (∀ (reg : JobM.Reg) (fuel : Nat) (σ : JobM.St) (j : JobM.Job),
      (lookupK j.jobId σ).getD false = false →
      ((JobM.runJobs reg fuel σ
          (JobM.resolveJobDeps reg j.jobId j.dependsOn).2).2.2).all (· = true) = true →
      ((j.rules ≠ [] ∧ j.rules.all (· = true) = true →
        JobM.runJob reg (fuel + 1) σ j =
          ((JobM.runJobs reg fuel σ (JobM.resolveJobDeps reg j.jobId j.dependsOn).2).1,
            (JobM.resolveJobDeps reg j.jobId j.dependsOn).1
              ++ (JobM.runJobs reg fuel σ
                  (JobM.resolveJobDeps reg j.jobId j.dependsOn).2).2.1
              ++ [.rulesChecked j.jobId
                    ((JobM.resolveJobDeps reg j.jobId j.dependsOn).2.map (·.jobId)),
                  .skipped j.jobId, .jobReturn j.jobId true],
            true))
      ∧ (¬ (j.rules ≠ [] ∧ j.rules.all (· = true) = true) →
        JobM.runJob reg (fuel + 1) σ j =
          (setK j.jobId true
              (JobM.runJobs reg fuel σ (JobM.resolveJobDeps reg j.jobId j.dependsOn).2).1,
            (JobM.resolveJobDeps reg j.jobId j.dependsOn).1
              ++ (JobM.runJobs reg fuel σ
                  (JobM.resolveJobDeps reg j.jobId j.dependsOn).2).2.1
              ++ (if j.rules ≠ [] then
                    [.rulesChecked j.jobId
                      ((JobM.resolveJobDeps reg j.jobId j.dependsOn).2.map (·.jobId))]
                  else [])
              ++ (JobM.jobRunOwn j).1 ++ [.jobReturn j.jobId (JobM.jobRunOwn j).2],
            (JobM.jobRunOwn j).2)
        ∧ (j.steps ≠ [] → ∃ c, JobM.JEv.stepExec j.jobId c ∈ (JobM.jobRunOwn j).1))))
    ∧ (∀ (reg : GoerM.Reg) (fuel : Nat) (σ : GoerM.St) (j : GoerM.Job),
      ((GoerM.awaitJobs reg fuel σ j.dependsOn).2.2).all (· = true) = true →
      ((j.rules ≠ [] ∧ j.rules.all (· = true) = true →
        GoerM.jobRun reg fuel σ j =
          ((GoerM.awaitJobs reg fuel σ j.dependsOn).1,
            (GoerM.awaitJobs reg fuel σ j.dependsOn).2.1
              ++ [.rulesChecked j.jobId, .skipped j.jobId],
            true))
      ∧ (¬ (j.rules ≠ [] ∧ j.rules.all (· = true) = true) →
        GoerM.jobRun reg fuel σ j =
          ((GoerM.awaitJobs reg fuel σ j.dependsOn).1,
            (GoerM.awaitJobs reg fuel σ j.dependsOn).2.1
              ++ (if j.rules ≠ [] then [.rulesChecked j.jobId] else [])
              ++ (GoerM.runSteps j.jobId j.steps).1,
            (GoerM.runSteps j.jobId j.steps).2.isNone)
        ∧ (j.steps ≠ [] →
            ∃ c, GoerM.GEv.stepExec j.jobId c ∈ (GoerM.runSteps j.jobId j.steps).1)))) := by
  constructor
  · intro reg fuel σ j hdone hdeps
    have hch := JobM.checkDepsRules_ok reg fuel σ j hdeps
    constructor
    · intro hrul
      have hne : j.rules ≠ [] := hrul.1
      have hnf : false ∉ j.rules := by simpa using hrul.2
      simp [JobM.runJob, hdone, hch, hne, hnf]
    · intro hrul
      refine ⟨?_, fun hst => ?_⟩
      · rcases hjo : JobM.jobRunOwn j with ⟨evs2, r⟩
        by_cases hre : j.rules = []
        · simp [JobM.runJob, hdone, hch, hre, hjo]
        · have hf2 : false ∈ j.rules := by
            have hna : ¬ (j.rules.all (· = true) = true) := fun hb => hrul ⟨hre, hb⟩
            simpa using hna
          simp [JobM.runJob, hdone, hch, hre, hf2, hjo]
      · have hst2 : ¬ j.steps.isEmpty = true := by
          simpa [List.isEmpty_iff] using hst
        simpa [JobM.jobRunOwn_eq j hst2] using
          JobM.runSteps_head_mem j.jobId j.steps hst
  · intro reg fuel σ j hdeps
    have hch := GoerM.jobRun_ok reg fuel σ j hdeps
    constructor
    · intro hrul
      have hne : j.rules ≠ [] := hrul.1
      have hnf : false ∉ j.rules := by simpa using hrul.2
      rw [hch]
      simp [hne, hnf]
    · intro hrul
      refine ⟨?_, fun hst => GoerM.gjobRunSteps_head_mem j.jobId j.steps hst⟩
      by_cases hre : j.rules = []
      · rw [hch]
        simp [hre]
      · have hf2 : false ∈ j.rules := by
          have hna : ¬ (j.rules.all (· = true) = true) := fun hb => hrul ⟨hre, hb⟩
          simpa using hna
        rw [hch]
        simp [hre, hf2]

/-- Witness for C5 at a concrete dependency-free job `w` with one step
(exit code 3): with a passing rule it is skipped with result `True` and
no step event; with a failing rule its step runs and the job fails. -/
theorem c5_skip_correctness_witness :
    JobM.runJob [] 1 [] ⟨"w", [3], [], [true]⟩ =
      ([], [.rulesChecked "w" [], .skipped "w", .jobReturn "w" true], true)
    ∧ JobM.runJob [] 1 [] ⟨"w", [3], [], [false]⟩ =
      ([("w", true)],
        [.rulesChecked "w" [], .stepExec "w" 3, .jobReturn "w" false], false)
    ∧ GoerM.jobRun [] 1 [] ⟨"w", [3], [], [true]⟩ =
      ([], [.rulesChecked "w", .skipped "w"], true)
    ∧ GoerM.jobRun [] 1 [] ⟨"w", [3], [], [false]⟩ =
      ([], [.rulesChecked "w", .stepExec "w" 3], false) := by
  have h := c5_skip_correctness
  refine ⟨?_, ?_, ?_, ?_⟩
  · have h1 := (h.1 [] 0 [] ⟨"w", [3], [], [true]⟩ (by simp [lookupK])
      (by simp [JobM.resolveJobDeps, JobM.runJobs])).1 (by simp)
    simpa [JobM.resolveJobDeps, JobM.runJobs] using h1
  · have h1 := (h.1 [] 0 [] ⟨"w", [3], [], [false]⟩ (by simp [lookupK])
      (by simp [JobM.resolveJobDeps, JobM.runJobs])).2 (by simp)
    have h2 := h1.1
    simpa [JobM.resolveJobDeps, JobM.runJobs, JobM.jobRunOwn, JobM.runSteps,
      setK] using h2
  · have h1 := (h.2 [] 1 [] ⟨"w", [3], [], [true]⟩ (by simp [GoerM.awaitJobs])).1
      (by simp)
    simpa [GoerM.awaitJobs] using h1
  · have h1 := (h.2 [] 1 [] ⟨"w", [3], [], [false]⟩ (by simp [GoerM.awaitJobs])).2
      (by simp)
    have h2 := h1.1
    simpa [GoerM.awaitJobs, GoerM.runSteps] using h2

/-- Helper for C8/C9: `_find_dep_ids` raises only its constant message. -/
theorem ResolveM.findDepIds_error_eq (defs : List (String × ResolveM.DepDef)) :
    ∀ deps e, ResolveM.findDepIds defs deps = .error e →
      e = "Could not match dependency" := by
  intro deps
  induction deps with
  | nil => intro e h; simp [ResolveM.findDepIds] at h
  | cons r rest ih =>
    intro e h
    simp only [ResolveM.findDepIds] at h
    by_cases hm : ((defs.filter (fun p => p.2.token = r)).map (·.1)).isEmpty
    · rw [if_pos hm] at h
      injection h with h1
      exact h1.symm
    · rw [if_neg hm] at h
      rcases hrec : ResolveM.findDepIds defs rest with e2 | tail
      · rw [hrec] at h
        injection h with h1
        exact h1 ▸ ih e2 hrec
      · rw [hrec] at h
        simp at h

/-- Helper for C8: an identity reference with no match in the definition
set makes `_find_dep_ids` raise (its constant error). -/
theorem ResolveM.findDepIds_error_of_missing
    (defs : List (String × ResolveM.DepDef)) :
    ∀ deps, (∃ r ∈ deps, ∀ q ∈ defs, q.2.token ≠ r) →
      ResolveM.findDepIds defs deps = .error "Could not match dependency" := by
  intro deps
  induction deps with
  | nil => rintro ⟨r, hr, _⟩; simp at hr
  | cons r0 rest ih =>
    rintro ⟨r, hr, hno⟩
    by_cases hm : ((defs.filter (fun p => p.2.token = r0)).map (·.1)).isEmpty
    · simp only [ResolveM.findDepIds]
      rw [if_pos hm]
    · have hr0 : ∃ q ∈ defs, q.2.token = r0 := by
        have hne : (defs.filter (fun p => p.2.token = r0)).map (·.1) ≠ [] := by
          simpa [List.isEmpty_iff] using hm
        rcases List.exists_mem_of_ne_nil _ hne with ⟨x, hx⟩
        rcases List.mem_map.1 hx with ⟨q, hq, _⟩
        exact ⟨q, (List.mem_filter.1 hq).1, by simpa using (List.mem_filter.1 hq).2⟩
      have hrrest : r ∈ rest := by
        rcases List.mem_cons.1 hr with h0 | h0
        · exfalso
          rcases hr0 with ⟨q, hq, hqt⟩
          exact hno q hq (h0 ▸ hqt)
        · exact h0
      have hrec := ih ⟨r, hrrest, hno⟩
      simp only [ResolveM.findDepIds]
      rw [if_neg hm, hrec]

/-- Helper for C8: a resolution pass over a snapshot containing a
definition with an unmatched identity reference raises out of the whole
resolution. -/
theorem ResolveM.onePass_error_of_missing (defs : List (String × ResolveM.DepDef)) :
    ∀ snapshot uninit inited,
      (∃ p ∈ snapshot, ∃ r ∈ p.2.dependsOn, ∀ q ∈ defs, q.2.token ≠ r) →
      ResolveM.onePass defs snapshot uninit inited =
        .error "Could not match dependency" := by
  intro snapshot
  induction snapshot with
  | nil =>
    rintro uninit inited ⟨p, hp, _⟩
    simp at hp
  | cons hd tl ih =>
    rintro uninit inited ⟨p, hp, r, hr, hno⟩
    rcases hd with ⟨id, d⟩
    rcases hfd : ResolveM.findDepIds defs d.dependsOn with e | ids
    · have he := ResolveM.findDepIds_error_eq defs d.dependsOn e hfd
      simp only [ResolveM.onePass, hfd, he]
    · have hptl : p ∈ tl := by
        rcases List.mem_cons.1 hp with h0 | h0
        · exfalso
          have : ResolveM.findDepIds defs d.dependsOn =
              .error "Could not match dependency" := by
            apply ResolveM.findDepIds_error_of_missing
            exact ⟨r, by rw [h0] at hr; exact hr, hno⟩
          rw [hfd] at this
          exact absurd this (by simp)
        · exact h0
      have hrec := fun u i => ih u i ⟨p, hptl, r, hr, hno⟩
      simp only [ResolveM.onePass, hfd]
      by_cases hall : ids.all (fun i => (lookupK i inited).isSome)
      · rw [if_pos hall]
        exact hrec _ _
      · rw [if_neg hall]
        exact hrec _ _

/-- Helper for C8: unfolding one resolution iteration of the `from_defs`
loop at a remaining budget of at least two. -/
theorem ResolveM.fromDefsAux_step (defs : List (String × ResolveM.DepDef)) (n : Nat)
    (uninit : List (String × ResolveM.DepDef))
    (inited : List (String × ResolveM.RDep)) :
    ResolveM.fromDefsAux defs (n + 2) uninit inited =
      if uninit.isEmpty then .ok inited
      else match ResolveM.onePass defs uninit uninit inited with
        | .error e => .error e
        | .ok (u1, i1) => ResolveM.fromDefsAux defs (n + 1) u1 i1 := by
  rfl

/-- Helper for C8: `_find_job_dep_ids` raises only its constant message. -/
theorem GoerResolveM.findJobDepIds_error_eq
    (jobDefs : List (String × GoerResolveM.JobDef)) :
    ∀ deps e, GoerResolveM.findJobDepIds jobDefs deps = .error e →
      e = "Could not match dependency" := by
  intro deps
  induction deps with
  | nil => intro e h; simp [GoerResolveM.findJobDepIds] at h
  | cons r rest ih =>
    intro e h
    simp only [GoerResolveM.findJobDepIds] at h
    by_cases hm : ((jobDefs.filter (fun p => p.2.token = r)).map (·.1)).isEmpty
    · rw [if_pos hm] at h
      injection h with h1
      exact h1.symm
    · rw [if_neg hm] at h
      rcases hrec : GoerResolveM.findJobDepIds jobDefs rest with e2 | tail
      · rw [hrec] at h
        injection h with h1
        exact h1 ▸ ih e2 hrec
      · rw [hrec] at h
        simp at h

/-- Helper for C8: an identity reference with no match among the job
definitions makes `_find_job_dep_ids` raise. -/
theorem GoerResolveM.findJobDepIds_error_of_missing
    (jobDefs : List (String × GoerResolveM.JobDef)) :
    ∀ deps, (∃ r ∈ deps, ∀ q ∈ jobDefs, q.2.token ≠ r) →
      GoerResolveM.findJobDepIds jobDefs deps =
        .error "Could not match dependency" := by
  intro deps
  induction deps with
  | nil => rintro ⟨r, hr, _⟩; simp at hr
  | cons r0 rest ih =>
    rintro ⟨r, hr, hno⟩
    by_cases hm : ((jobDefs.filter (fun p => p.2.token = r0)).map (·.1)).isEmpty
    · simp only [GoerResolveM.findJobDepIds]
      rw [if_pos hm]
    · have hr0 : ∃ q ∈ jobDefs, q.2.token = r0 := by
        have hne : (jobDefs.filter (fun p => p.2.token = r0)).map (·.1) ≠ [] := by
          simpa [List.isEmpty_iff] using hm
        rcases List.exists_mem_of_ne_nil _ hne with ⟨x, hx⟩
        rcases List.mem_map.1 hx with ⟨q, hq, _⟩
        exact ⟨q, (List.mem_filter.1 hq).1, by simpa using (List.mem_filter.1 hq).2⟩
      have hrrest : r ∈ rest := by
        rcases List.mem_cons.1 hr with h0 | h0
        · exfalso
          rcases hr0 with ⟨q, hq, hqt⟩
          exact hno q hq (h0 ▸ hqt)
        · exact h0
      have hrec := ih ⟨r, hrrest, hno⟩
      simp only [GoerResolveM.findJobDepIds]
      rw [if_neg hm, hrec]

/-- Helper for C8: the `load_python` job-construction loop raises when
any processed definition holds an unmatched identity reference. -/
theorem GoerResolveM.loadPythonJobs_error_of_missing
    (jobDefs : List (String × GoerResolveM.JobDef)) :
    ∀ work, (∃ p ∈ work, ∃ r ∈ p.2.dependsOn, ∀ q ∈ jobDefs, q.2.token ≠ r) →
      GoerResolveM.loadPythonJobs jobDefs work =
        .error "Could not match dependency" := by
  intro work
  induction work with
  | nil => rintro ⟨p, hp, _⟩; simp at hp
  | cons hd tl ih =>
    rintro ⟨p, hp, r, hr, hno⟩
    rcases hd with ⟨id, jd⟩
    rcases hfd : GoerResolveM.findJobDepIds jobDefs jd.dependsOn with e | ids
    · have he := GoerResolveM.findJobDepIds_error_eq jobDefs jd.dependsOn e hfd
      simp only [GoerResolveM.loadPythonJobs, hfd, he]
    · have hptl : p ∈ tl := by
        rcases List.mem_cons.1 hp with h0 | h0
        · exfalso
          have hmiss := GoerResolveM.findJobDepIds_error_of_missing jobDefs
            jd.dependsOn ⟨r, by rw [h0] at hr; exact hr, hno⟩
          rw [hfd] at hmiss
          exact absurd hmiss (by simp)
        · exact h0
      have hrec := ih ⟨p, hptl, r, hr, hno⟩
      simp only [GoerResolveM.loadPythonJobs, hfd, hrec]

/-- **C8** (counterexample): three definition sets, each with a
*different* unresolvable identity reference (tokens 99, 55 and 77, none
of them the token of any registered definition), all fail graph
construction with the *identical* constant error message — the f-string
`f"Could not match dependency"` interpolates nothing — so the
resolution error cannot and does not name the missing reference,
refuting that part of the claim (the failing-before-any-job-runs part
does hold: `from_defs` / `load_python` raise during construction). -/
theorem c8_error_message_constant :
    ResolveM.fromDefs [("a", ⟨1, [99]⟩)] = .error "Could not match dependency"
    ∧ ResolveM.fromDefs [("b", ⟨2, [55]⟩)] = .error "Could not match dependency"
    ∧ GoerResolveM.loadPythonJobs [("c", ⟨3, [], [77], []⟩)]
        [("c", ⟨3, [], [77], []⟩)] = .error "Could not match dependency" := by
  exact ⟨rfl, rfl, rfl⟩

/-- **C8** (amended): for every definition set in which some definition
declares a dependency on a definition object not present in the set (no
registered definition has the referenced identity), graph construction —
`DependencyManager.from_defs` as well as the `Gør.load_python`
job-construction loop — fails with a resolution error before any job
runs; the error carries the constant message "Could not match
dependency" and does not name the missing reference. -/
theorem c8_unresolved_reference_fails_construction :
    (∀ defs : List (String × ResolveM.DepDef),
      (∃ p ∈ defs, ∃ r ∈ p.2.dependsOn, ∀ q ∈ defs, q.2.token ≠ r) →
      ResolveM.fromDefs defs = .error "Could not match dependency")
    ∧ (∀ jobDefs : List (String × GoerResolveM.JobDef),
      (∃ p ∈ jobDefs, ∃ r ∈ p.2.dependsOn, ∀ q ∈ jobDefs, q.2.token ≠ r) →
      GoerResolveM.loadPythonJobs jobDefs jobDefs =
        .error "Could not match dependency") := by
  constructor
  · intro defs hmiss
    have hne : ¬ defs.isEmpty = true := by
      rcases hmiss with ⟨p, hp, _⟩
      rcases defs with _ | _
      · simp at hp
      · simp
    have hpass := ResolveM.onePass_error_of_missing defs defs defs [] hmiss
    show ResolveM.fromDefsAux defs 1000 defs [] = .error "Could not match dependency"
    have h1000 : (1000 : Nat) = 998 + 2 := by norm_num
    rw [h1000, ResolveM.fromDefsAux_step, if_neg hne, hpass]
  · intro jobDefs hmiss
    exact GoerResolveM.loadPythonJobs_error_of_missing jobDefs jobDefs hmiss

/-- Witness for C8 at a concrete definition set: definition `d` (token
7) references identity 42, which no registered definition carries. -/
theorem c8_unresolved_reference_witness :
    ResolveM.fromDefs [("d", ⟨7, [42]⟩)] = .error "Could not match dependency"
    ∧ GoerResolveM.loadPythonJobs [("d", ⟨7, [], [42], []⟩)]
        [("d", ⟨7, [], [42], []⟩)] = .error "Could not match dependency" := by
  constructor
  · exact c8_unresolved_reference_fails_construction.1 [("d", ⟨7, [42]⟩)]
      ⟨("d", ⟨7, [42]⟩), by simp, 42, by simp, by simp⟩
  · exact c8_unresolved_reference_fails_construction.2 [("d", ⟨7, [], [42], []⟩)]
      ⟨("d", ⟨7, [], [42], []⟩), by simp, 42, by simp, by simp⟩

/-- Helper for C10: a key present in an association list is found. -/
theorem lookupK_isSome_of_key_mem {α : Type} (k : String) (v : α) :
    ∀ l : List (String × α), (k, v) ∈ l → (lookupK k l).isSome = true := by
  intro l
  induction l with
  | nil => intro h; simp at h
  | cons hd tl ih =>
    intro h
    rcases hd with ⟨k2, v2⟩
    by_cases hk : k2 = k
    · simp [lookupK, hk]
    · rcases List.mem_cons.1 h with h0 | h0
      · exact absurd (congrArg Prod.fst h0).symm hk
      · simp only [lookupK, if_neg hk]
        exact ih h0

/-- **C10** (amended): requested identifiers absent from the registry
are silently dropped by `find_jobs`, so the whole run is identical to a
run requesting only the known identifiers; a request consisting only of
unknown identifiers gathers no results, emits no event (no error names
the identifiers, "jobs failed" is not printed) and yields
`failed_jobs = False` — the batch is treated as having no failures
rather than the unknown lookups being reported or counted as failures.
(`reg` is well-formed as `DependencyManager.initialize` builds it:
each job is registered under its own identifier.) -/
theorem c10_unknown_ids_dropped :
    ∀ (reg : GoerM.Reg) (fuel : Nat) (σ : GoerM.St) (ids : List String),
      (∀ p ∈ reg, (p.2).jobId = p.1) →
      (GoerM.findJobs reg ids =
        GoerM.findJobs reg (ids.filter (fun i => (lookupK i reg).isSome))
      ∧ GoerM.gorRun reg fuel σ ids =
        GoerM.gorRun reg fuel σ (ids.filter (fun i => (lookupK i reg).isSome))
      ∧ ((∀ i ∈ ids, lookupK i reg = none) →
        GoerM.gorRun reg fuel σ ids = (σ, [], false))) := by
  intro reg fuel σ ids hwf
  have hsome : ∀ j ∈ reg.map Prod.snd, (lookupK j.jobId reg).isSome = true := by
    intro j hj
    rcases List.mem_map.1 hj with ⟨p, hp, rfl⟩
    rw [hwf p hp]
    exact lookupK_isSome_of_key_mem p.1 p.2 reg (by rcases p with ⟨a, b⟩; exact hp)
  have hfind : GoerM.findJobs reg ids =
      GoerM.findJobs reg (ids.filter (fun i => (lookupK i reg).isSome)) := by
    unfold GoerM.findJobs
    apply List.filter_congr
    intro j hj
    have hj2 := hsome j hj
    by_cases hmem : j.jobId ∈ ids
    · have h2 : j.jobId ∈ ids.filter (fun i => (lookupK i reg).isSome) :=
        List.mem_filter.2 ⟨hmem, hj2⟩
      simp [List.contains, List.elem_eq_mem, hmem, h2]
    · have h2 : j.jobId ∉ ids.filter (fun i => (lookupK i reg).isSome) :=
        fun hc => hmem (List.mem_filter.1 hc).1
      simp [List.contains, List.elem_eq_mem, hmem, h2]
  refine ⟨hfind, ?_, ?_⟩
  · unfold GoerM.gorRun
    rw [hfind]
  · intro hnone
    have hempty : GoerM.findJobs reg ids = [] := by
      unfold GoerM.findJobs
      apply List.filter_eq_nil_iff.2
      intro j hj
      have hj2 := hsome j hj
      intro hc
      have hmem : j.jobId ∈ ids := by simpa using hc
      rw [hnone j.jobId hmem] at hj2
      simp at hj2
    simp [GoerM.gorRun, hempty, GoerM.gorRunJobs]

/-- Witness for C10: registry `{a}` with requests `["zzz", "a"]` — the
unknown identifier is dropped, the run equals the run for `["a"]`; and
for the all-unknown request `["zzz"]` the run yields no event and no
failure flag. -/
theorem c10_unknown_ids_dropped_witness :
    GoerM.gorRun [("a", ⟨"a", [], [], []⟩)] 3 [] ["zzz", "a"] =
      GoerM.gorRun [("a", ⟨"a", [], [], []⟩)] 3 []
        (["zzz", "a"].filter
          (fun i => (lookupK i ([("a", ⟨"a", [], [], []⟩)] : GoerM.Reg)).isSome))
    ∧ GoerM.gorRun [("a", ⟨"a", [], [], []⟩)] 3 [] ["zzz"] = ([], [], false) := by
  have hwf : ∀ p ∈ ([("a", (⟨"a", [], [], []⟩ : GoerM.Job))] : GoerM.Reg),
      (p.2).jobId = p.1 := by
    intro p hp
    simp only [List.mem_singleton] at hp
    rw [hp]
  have hnone : ∀ i ∈ (["zzz"] : List String),
      lookupK i [("a", (⟨"a", [], [], []⟩ : GoerM.Job))] = none := by
    intro i hi
    simp only [List.mem_singleton] at hi
    rw [hi]
    rfl
  exact ⟨(c10_unknown_ids_dropped [("a", ⟨"a", [], [], []⟩)] 3 [] ["zzz", "a"] hwf).2.1,
    (c10_unknown_ids_dropped [("a", ⟨"a", [], [], []⟩)] 3 [] ["zzz"] hwf).2.2 hnone⟩

/-- Helper for C6: the empty trace satisfies the ordering property. -/
theorem JobM.RAD_nil : JobM.RulesAfterDeps [] := by
  intro pre id deps post h
  cases pre <;> simp at h

/-- Helper for C6: a trace containing no skip-rule evaluation satisfies
the ordering property. -/
theorem JobM.RAD_of_no_rc (t : List JobM.JEv)
    (h : ∀ id deps, JobM.JEv.rulesChecked id deps ∉ t) :
    JobM.RulesAfterDeps t := by
  intro pre id deps post heq
  exfalso
  exact h id deps (heq ▸ List.mem_append_right pre (List.mem_cons_self _ _))

/-- Helper for C6: the ordering property is closed under concatenation
(a skip-rule evaluation in the right part only gains earlier events). -/
theorem JobM.RAD_append (t1 t2 : List JobM.JEv)
    (h1 : JobM.RulesAfterDeps t1) (h2 : JobM.RulesAfterDeps t2) :
    JobM.RulesAfterDeps (t1 ++ t2) := by
  intro pre id deps post heq
  rcases List.append_eq_append_iff.1 heq with ⟨w, hpre, ht2⟩ | ⟨w, ht1, hw⟩
  · intro d hd
    rcases h2 w id deps post ht2 d hd with ⟨r, hr⟩
    exact ⟨r, hpre ▸ List.mem_append_right t1 hr⟩
  · cases w with
    | nil =>
      intro d hd
      rcases h2 [] id deps post (by simpa using hw.symm) d hd with ⟨r, hr⟩
      simp at hr
    | cons x w2 =>
      have hx : x = JobM.JEv.rulesChecked id deps := by
        have := hw
        simp only [List.cons_append] at this
        exact (List.cons_eq_cons.1 this).1.symm
      have hw2 : t1 = pre ++ JobM.JEv.rulesChecked id deps :: w2 := by
        rw [ht1, hx]
      have hpost : post = w2 ++ t2 := by
        have := hw
        simp only [List.cons_append] at this
        exact (List.cons_eq_cons.1 this).2
      exact h1 pre id deps w2 hw2

/-- Helper for C6: appending one skip-rule evaluation whose dependencies
all have a completed `run_job` result in the left part preserves the
ordering property. -/
theorem JobM.RAD_append_rc (t1 t2 : List JobM.JEv) (id0 : String)
    (deps0 : List String)
    (h1 : JobM.RulesAfterDeps t1) (h2 : JobM.RulesAfterDeps t2)
    (hret : ∀ d ∈ deps0, ∃ r, JobM.JEv.jobReturn d r ∈ t1) :
    JobM.RulesAfterDeps (t1 ++ .rulesChecked id0 deps0 :: t2) := by
  intro pre id deps post heq
  rcases List.append_eq_append_iff.1 heq with ⟨w, hpre, hrest⟩ | ⟨w, ht1, hw⟩
  · cases w with
    | nil =>
      simp only [List.nil_append] at hrest
      obtain ⟨hhead, _⟩ := List.cons_eq_cons.1 hrest
      injection hhead with hid hdeps
      intro d hd
      rcases hret d (hdeps ▸ hd) with ⟨r, hr⟩
      refine ⟨r, ?_⟩
      rw [hpre]
      simpa using hr
    | cons x w2 =>
      simp only [List.cons_append] at hrest
      obtain ⟨hx, htail⟩ := List.cons_eq_cons.1 hrest
      intro d hd
      rcases h2 w2 id deps post htail d hd with ⟨r, hr⟩
      refine ⟨r, ?_⟩
      rw [hpre]
      exact List.mem_append_right t1 (List.mem_cons_of_mem x hr)
  · cases w with
    | nil =>
      simp only [List.append_nil] at ht1 hw
      obtain ⟨hhead, _⟩ := List.cons_eq_cons.1 hw.symm
      injection hhead with hid hdeps
      intro d hd
      rcases hret d (by rw [hdeps]; exact hd) with ⟨r, hr⟩
      exact ⟨r, ht1 ▸ hr⟩
    | cons x w2 =>
      simp only [List.cons_append] at hw
      obtain ⟨hx, _⟩ := List.cons_eq_cons.1 hw
      have hw2 : t1 = pre ++ JobM.JEv.rulesChecked id deps :: w2 := by
        rw [ht1, ← hx]
      exact h1 pre id deps w2 hw2

/-- Helper for C6: dependency resolution only logs missing-dependency
errors, never a skip-rule evaluation. -/
theorem JobM.resolveJobDeps_no_rc (reg : JobM.Reg) (jid : String) :
    ∀ deps id dl,
      JobM.JEv.rulesChecked id dl ∉ (JobM.resolveJobDeps reg jid deps).1 := by
  intro deps
  induction deps with
  | nil => intro id dl; simp [JobM.resolveJobDeps]
  | cons d rest ih =>
    intro id dl
    rcases h : lookupK d reg with _ | dj <;>
      simp [JobM.resolveJobDeps, h] <;>
      exact ih id dl

/-- Helper for C6: the step loop only emits step executions. -/
theorem JobM.runSteps_no_rc (jid : String) :
    ∀ steps id dl,
      JobM.JEv.rulesChecked id dl ∉ (JobM.runSteps jid steps).1 := by
  intro steps
  induction steps with
  | nil => intro id dl; simp [JobM.runSteps]
  | cons c rest ih =>
    intro id dl
    by_cases hc : c = 0 <;> simp [JobM.runSteps, hc]
    exact ih id dl

/-- Helper for C6: a job's own run emits no skip-rule evaluation. -/
theorem JobM.jobRunOwn_no_rc (j : JobM.Job) :
    ∀ id dl, JobM.JEv.rulesChecked id dl ∉ (JobM.jobRunOwn j).1 := by
  intro id dl
  by_cases hst : j.steps.isEmpty
  · simp [JobM.jobRunOwn, hst]
  · rcases hr : JobM.runSteps j.jobId j.steps with ⟨evs, r⟩
    have := JobM.runSteps_no_rc j.jobId j.steps id dl
    rw [hr] at this
    cases r <;> simp [JobM.jobRunOwn, hst, hr] <;> exact this

/-- Helper for C6: every `run_job` call reports a completion for its
job identifier in its own trace (also at fuel exhaustion, where the
caught `RecursionError` is returned as `False` to the awaiter). -/
theorem JobM.runJob_jobReturn_mem (reg : JobM.Reg) :
    ∀ (fuel : Nat) (σ : JobM.St) (j : JobM.Job),
      ∃ r, JobM.JEv.jobReturn j.jobId r ∈ (JobM.runJob reg fuel σ j).2.1 := by
  intro fuel σ j
  cases fuel with
  | zero => exact ⟨false, by simp [JobM.runJob]⟩
  | succ n =>
    by_cases hd : (lookupK j.jobId σ).getD false = true
    · exact ⟨true, by simp [JobM.runJob, hd]⟩
    · rcases hc : JobM.checkDepsRules reg n σ j with ⟨σ1, evs, chk⟩
      cases chk with
      | some b =>
        refine ⟨true, ?_⟩
        simp [JobM.runJob, hd, hc]
      | none =>
        rcases hj : JobM.jobRunOwn j with ⟨evs2, r⟩
        refine ⟨r, ?_⟩
        simp [JobM.runJob, hd, hc, hj]

/-- Helper for C6: the dependency gather reports a completion for every
gathered job. -/
theorem JobM.runJobs_jobReturn_mem (reg : JobM.Reg) (fuel : Nat) :
    ∀ (ds : List JobM.Job) (σ : JobM.St) (d : JobM.Job), d ∈ ds →
      ∃ r, JobM.JEv.jobReturn d.jobId r ∈ (JobM.runJobs reg fuel σ ds).2.1 := by
  intro ds
  induction ds with
  | nil => intro σ d hd; simp at hd
  | cons d0 rest ih =>
    intro σ d hd
    rcases h1 : JobM.runJob reg fuel σ d0 with ⟨σ1, evs1, r1⟩
    rcases List.mem_cons.1 hd with h0 | h0
    · rcases JobM.runJob_jobReturn_mem reg fuel σ d0 with ⟨r, hr⟩
      rw [h1] at hr
      refine ⟨r, ?_⟩
      rw [h0]
      rcases h2 : JobM.runJobs reg fuel σ1 rest with ⟨σ2, evs2, rs⟩
      simp only [JobM.runJobs, h1, h2]
      exact List.mem_append_left _ hr
    · rcases ih σ1 d h0 with ⟨r, hr⟩
      refine ⟨r, ?_⟩
      rcases h2 : JobM.runJobs reg fuel σ1 rest with ⟨σ2, evs2, rs⟩
      rw [h2] at hr
      simp only [JobM.runJobs, h1, h2]
      exact List.mem_append_right _ hr

/-- Helper for C6: the gathered dependency runs together satisfy the
ordering property when each individual run does. -/
theorem JobM.runJobs_RAD (reg : JobM.Reg) (fuel : Nat)
    (hj : ∀ (σ2 : JobM.St) (d : JobM.Job),
      JobM.RulesAfterDeps (JobM.runJob reg fuel σ2 d).2.1) :
    ∀ (ds : List JobM.Job) (σ : JobM.St),
      JobM.RulesAfterDeps (JobM.runJobs reg fuel σ ds).2.1 := by
  intro ds
  induction ds with
  | nil => intro σ; simpa [JobM.runJobs] using JobM.RAD_nil
  | cons d0 rest ih =>
    intro σ
    rcases h1 : JobM.runJob reg fuel σ d0 with ⟨σ1, evs1, r1⟩
    rcases h2 : JobM.runJobs reg fuel σ1 rest with ⟨σ2, evs2, rs⟩
    have ha := hj σ d0
    rw [h1] at ha
    have hb := ih σ1
    rw [h2] at hb
    simp only [JobM.runJobs, h1, h2]
    exact JobM.RAD_append evs1 evs2 ha hb

/-- Helper for C6: `_check_dependencies_and_rules` satisfies the
ordering property: its own skip-rule evaluation is emitted only after
the gather over the resolved dependencies has completed (and nested
evaluations are sound by assumption on `run_job` at lower depth). -/
theorem JobM.checkDepsRules_RAD (reg : JobM.Reg) (fuel : Nat)
    (hj : ∀ (σ2 : JobM.St) (d : JobM.Job),
      JobM.RulesAfterDeps (JobM.runJob reg fuel σ2 d).2.1) :
    ∀ (σ : JobM.St) (j : JobM.Job),
      JobM.RulesAfterDeps (JobM.checkDepsRules reg fuel σ j).2.1 := by
  intro σ j
  have hradR : JobM.RulesAfterDeps (JobM.resolveJobDeps reg j.jobId j.dependsOn).1 :=
    JobM.RAD_of_no_rc _ (fun id dl => JobM.resolveJobDeps_no_rc reg j.jobId j.dependsOn id dl)
  have hradJ : JobM.RulesAfterDeps
      (JobM.runJobs reg fuel σ (JobM.resolveJobDeps reg j.jobId j.dependsOn).2).2.1 :=
    JobM.runJobs_RAD reg fuel hj _ σ
  have hradRJ := JobM.RAD_append _ _ hradR hradJ
  have hrets : ∀ did ∈ (JobM.resolveJobDeps reg j.jobId j.dependsOn).2.map (·.jobId),
      ∃ r, JobM.JEv.jobReturn did r ∈
        (JobM.resolveJobDeps reg j.jobId j.dependsOn).1
          ++ (JobM.runJobs reg fuel σ
              (JobM.resolveJobDeps reg j.jobId j.dependsOn).2).2.1 := by
    intro did hdid
    rcases List.mem_map.1 hdid with ⟨dj, hdj, rfl⟩
    rcases JobM.runJobs_jobReturn_mem reg fuel _ σ dj hdj with ⟨r, hr⟩
    exact ⟨r, List.mem_append_right _ hr⟩
  have hskipped : ∀ t2 ⊆ ([.skipped j.jobId] : List JobM.JEv),
      JobM.RulesAfterDeps t2 := by
    intro t2 ht2
    refine JobM.RAD_of_no_rc t2 (fun id dl hin => ?_)
    have := ht2 hin
    simp at this
  by_cases hemp : j.dependsOn.isEmpty
  · have hnil : j.dependsOn = [] := by simpa [List.isEmpty_iff] using hemp
    have hres : JobM.resolveJobDeps reg j.jobId j.dependsOn = ([], []) := by
      rw [hnil]; rfl
    by_cases hre : j.rules = []
    · simp only [JobM.checkDepsRules, hnil]
      simp [hre, JobM.RAD_nil]
    · by_cases hall : false ∈ j.rules
      · have h := JobM.RAD_append_rc [] []
          j.jobId [] JobM.RAD_nil JobM.RAD_nil (by simp)
        simp only [JobM.checkDepsRules, hnil]
        simp [hre, hall, hres]
        simpa using h
      · have h := JobM.RAD_append_rc [] [.skipped j.jobId]
          j.jobId [] JobM.RAD_nil (hskipped _ (by simp)) (by simp)
        simp only [JobM.checkDepsRules, hnil]
        simp [hre, hall, hres]
        simpa using h
  · by_cases hfail : (JobM.runJobs reg fuel σ
        (JobM.resolveJobDeps reg j.jobId j.dependsOn).2).2.2.all (· = true)
    · have hnf : false ∉ (JobM.runJobs reg fuel σ
          (JobM.resolveJobDeps reg j.jobId j.dependsOn).2).2.2 := by
        simpa using hfail
      by_cases hre : j.rules = []
      · simp only [JobM.checkDepsRules]
        simp [hemp, hre, hnf]
        simpa using hradRJ
      · by_cases hall : false ∈ j.rules
        · have h := JobM.RAD_append_rc _ []
            j.jobId ((JobM.resolveJobDeps reg j.jobId j.dependsOn).2.map (·.jobId))
            hradRJ JobM.RAD_nil hrets
          simp only [JobM.checkDepsRules]
          simp [hemp, hre, hall, hnf]
          simpa [List.append_assoc] using h
        · have h := JobM.RAD_append_rc _ [.skipped j.jobId]
            j.jobId ((JobM.resolveJobDeps reg j.jobId j.dependsOn).2.map (·.jobId))
            hradRJ (hskipped _ (by simp)) hrets
          simp only [JobM.checkDepsRules]
          simp [hemp, hre, hall, hnf]
          simpa [List.append_assoc] using h
    · have hf2 : false ∈ (JobM.runJobs reg fuel σ
          (JobM.resolveJobDeps reg j.jobId j.dependsOn).2).2.2 := by
        simpa using hfail
      have h := JobM.RAD_append _ [.depFailed j.jobId] hradRJ
        (JobM.RAD_of_no_rc _ (by intro id dl h2; simp at h2))
      simp only [JobM.checkDepsRules]
      simp [hemp, hf2]
      simpa [List.append_assoc] using h

/-- Helper for C6: every `run_job` trace satisfies the ordering
property, by induction on the recursion depth. -/
theorem JobM.runJob_RAD (reg : JobM.Reg) :
    ∀ (fuel : Nat) (σ : JobM.St) (j : JobM.Job),
      JobM.RulesAfterDeps (JobM.runJob reg fuel σ j).2.1 := by
  intro fuel
  induction fuel with
  | zero =>
    intro σ j
    refine JobM.RAD_of_no_rc _ (fun id dl h => ?_)
    simp [JobM.runJob] at h
  | succ n ih =>
    intro σ j
    by_cases hd : (lookupK j.jobId σ).getD false = true
    · refine JobM.RAD_of_no_rc _ (fun id dl h => ?_)
      simp [JobM.runJob, hd] at h
    · rcases hc : JobM.checkDepsRules reg n σ j with ⟨σ1, evs, chk⟩
      have hch := JobM.checkDepsRules_RAD reg n ih σ j
      rw [hc] at hch
      cases chk with
      | some b =>
        have h := JobM.RAD_append evs [.jobReturn j.jobId true] hch
          (JobM.RAD_of_no_rc _ (by intro id dl h2; simp at h2))
        simp only [JobM.runJob, hd, hc]
        simpa using h
      | none =>
        rcases hjo : JobM.jobRunOwn j with ⟨evs2, r⟩
        have hra2 : JobM.RulesAfterDeps evs2 := by
          have := JobM.jobRunOwn_no_rc j
          rw [hjo] at this
          exact JobM.RAD_of_no_rc _ (fun id dl => this id dl)
        have h := JobM.RAD_append evs (evs2 ++ [.jobReturn j.jobId r]) hch
          (JobM.RAD_append evs2 [.jobReturn j.jobId r] hra2
            (JobM.RAD_of_no_rc _ (by intro id dl h2; simp at h2)))
        simp only [JobM.runJob, hd, hc, hjo]
        simpa [List.append_assoc] using h

/-- **C6** (amended): in the job.py scheduler (the cited
`DependencyManager._check_dependencies_and_rules`), the skip-rule
evaluation of a job is performed only after all its *resolved* direct
dependencies have been awaited to completion: wherever the execution
trace contains a skip-rule evaluation, a completed `run_job` result for
every resolved dependency of that job precedes it.  (Identifiers that
resolve to no registered job are reported and dropped before the
gather; and in the depman.py variant the last-modified comparison is
*not* covered by this ordering — it runs before the dependencies, see
the counterexample.) -/
theorem c6_rule_eval_after_dependency_completion :
    ∀ (reg : JobM.Reg) (fuel : Nat) (σ : JobM.St) (j : JobM.Job),
      JobM.RulesAfterDeps ((JobM.runJob reg fuel σ j).2.1) :=
  fun reg fuel σ j => JobM.runJob_RAD reg fuel σ j

/-- Witness for C6 at a concrete graph: job `b` (one passing rule)
depending on `a`; the trace of running `b` satisfies the ordering
property. -/
theorem c6_rule_eval_after_dependency_completion_witness :
    JobM.RulesAfterDeps
      ((JobM.runJob [("a", ⟨"a", [0], [], []⟩), ("b", ⟨"b", [0], ["a"], [true]⟩)]
        3 [] ⟨"b", [0], ["a"], [true]⟩).2.1) :=
  c6_rule_eval_after_dependency_completion
    [("a", ⟨"a", [0], [], []⟩), ("b", ⟨"b", [0], ["a"], [true]⟩)] 3 []
    ⟨"b", [0], ["a"], [true]⟩

theorem DepmanM.invokeCount_append (id : String) (t1 t2 : List DepmanM.DEv) :
    DepmanM.invokeCount id (t1 ++ t2) =
      DepmanM.invokeCount id t1 + DepmanM.invokeCount id t2 := by
  simp [DepmanM.invokeCount, List.countP_append]

theorem lookupK_setK_self {α : Type} (id : String) (v : α) (l : List (String × α)) :
    lookupK id (setK id v l) = some v := by
  induction l with
  | nil => simp [setK, lookupK]
  | cons hd tl ih =>
    rcases hd with ⟨k, w⟩
    by_cases hk : k = id
    · simp [setK, hk, lookupK]
    · simp [setK, hk, lookupK, ih]

theorem lookupK_setK_ne {α : Type} (id id2 : String) (v : α)
    (l : List (String × α)) (h : id2 ≠ id) :
    lookupK id2 (setK id v l) = lookupK id2 l := by
  have hne : ¬ id = id2 := fun hc => h hc.symm
  induction l with
  | nil => simp [setK, lookupK, hne]
  | cons hd tl ih =>
    rcases hd with ⟨k, w⟩
    by_cases hk : k = id
    · simp [setK, hk, lookupK, hne]
    · simp [setK, hk, lookupK, ih]

/-- Helper for C2: the skip condition of `run_dep` (non-empty
dependencies, all strictly older than this dependency). -/
def DepmanM.skipCond (d : DepmanM.Dep) : Prop :=
  ¬ d.dependsOn.isEmpty = true ∧
    d.dependsOn.all (fun dd => decide (dd.lastModified < d.lastModified)) = true

/-- Helper for C2: the value `_run_dep` produces (no last-modified
skip): `True` when a non-empty dependency list contains a failure (the
walrus-bound return), the own `run()` result otherwise. -/
def DepmanM.depValAux (d : DepmanM.Dep) : Bool :=
  if ¬ d.dependsOn.isEmpty ∧ DepmanM.depValL d.dependsOn = false then true
  else d.runResult

theorem DepmanM.depVal_eq (d : DepmanM.Dep) :
    DepmanM.depVal d =
      if (¬ d.dependsOn.isEmpty ∧
          d.dependsOn.all (fun dd => decide (dd.lastModified < d.lastModified)))
      then true else DepmanM.depValAux d := by
  cases d with
  | mk id lm r ds =>
    simp only [DepmanM.depVal, DepmanM.depValAux, DepmanM.Dep.dependsOn,
      DepmanM.Dep.lastModified, DepmanM.Dep.runResult]

theorem DepmanM.depValL_eq_all (ds : List DepmanM.Dep) :
    (ds.map DepmanM.depVal).all (· = true) = DepmanM.depValL ds := by
  induction ds with
  | nil => simp [DepmanM.depValL]
  | cons d rest ih =>
    simp only [List.map_cons, List.all_cons, DepmanM.depValL, ← ih]
    cases DepmanM.depVal d <;> simp

theorem DepmanM.self_mem_nodesOf (d : DepmanM.Dep) : d ∈ DepmanM.nodesOf d := by
  cases d with
  | mk id lm r ds => simp [DepmanM.nodesOf]

theorem DepmanM.nodesOf_subset_of_mem :
    ∀ (ds : List DepmanM.Dep) (d : DepmanM.Dep), d ∈ ds →
      DepmanM.nodesOf d ⊆ DepmanM.nodesOfL ds := by
  intro ds
  induction ds with
  | nil => intro d hd; simp at hd
  | cons d0 rest ih =>
    intro d hd
    rcases List.mem_cons.1 hd with h0 | h0
    · rw [h0]
      intro x hx
      simp only [DepmanM.nodesOfL]
      exact List.mem_append_left _ hx
    · intro x hx
      simp only [DepmanM.nodesOfL]
      exact List.mem_append_right _ (ih d h0 hx)

theorem DepmanM.child_nodes_subset (d : DepmanM.Dep) (dd : DepmanM.Dep)
    (h : dd ∈ d.dependsOn) : DepmanM.nodesOf dd ⊆ DepmanM.nodesOf d := by
  cases d with
  | mk id lm r ds =>
    intro x hx
    simp only [DepmanM.nodesOf]
    exact List.mem_cons_of_mem _
      (DepmanM.nodesOf_subset_of_mem ds dd (by simpa [DepmanM.Dep.dependsOn] using h) hx)

/-- Helper for C2: every registered handle carries the `run()` result of
a reachable dependency with that identifier, and that value is also what
any observer of the identifier computes. -/
def DepmanM.GoodTbl (U : List DepmanM.Dep) (σ : DepmanM.Tbl) : Prop :=
  ∀ id b, lookupK id σ = some b →
    ∃ d ∈ U, d.depId = id ∧ d.runResult = b ∧ DepmanM.depVal d = b

/-- Helper for C2: every observed completion in the trace is the
deterministic value of a reachable dependency with that identifier. -/
def DepmanM.ObsOk (U : List DepmanM.Dep) (tr : List DepmanM.DEv) : Prop :=
  ∀ id b, DepmanM.DEv.obsDep id b ∈ tr →
    ∃ d ∈ U, d.depId = id ∧ DepmanM.depVal d = b

theorem DepmanM.ObsOk_append (U : List DepmanM.Dep) (t1 t2 : List DepmanM.DEv)
    (h1 : DepmanM.ObsOk U t1) (h2 : DepmanM.ObsOk U t2) :
    DepmanM.ObsOk U (t1 ++ t2) := by
  intro id b hm
  rcases List.mem_append.1 hm with h0 | h0
  · exact h1 id b h0
  · exact h2 id b h0

theorem DepmanM.ObsOk_of_no_obs (U : List DepmanM.Dep) (t : List DepmanM.DEv)
    (h : ∀ id b, DepmanM.DEv.obsDep id b ∉ t) : DepmanM.ObsOk U t :=
  fun id b hm => absurd hm (h id b)

/-- Helper for C9: a lookup that misses stays a miss after appending a
binding for a different key. -/
theorem lookupK_append_none {α : Type} (k id : String) (v : α) :
    ∀ l : List (String × α), lookupK k l = none → ¬ id = k →
      lookupK k (l ++ [(id, v)]) = none := by
  intro l
  induction l with
  | nil =>
    intro _ hne
    simp [lookupK, hne]
  | cons p rest ih =>
    intro h hne
    rcases p with ⟨k2, v2⟩
    simp only [lookupK, List.cons_append] at h ⊢
    by_cases hk : k2 = k
    · rw [if_pos hk] at h
      exact absurd h (by simp)
    · rw [if_neg hk] at h ⊢
      exact ih h hne

/-- Helper for C9: a key different from the erased one stays among the
keys after `eraseP`. -/
theorem keys_mem_eraseP {α : Type} (k id : String) :
    ∀ l : List (String × α), k ∈ l.map Prod.fst → ¬ k = id →
      k ∈ (l.eraseP (fun p => p.1 = id)).map Prod.fst := by
  intro l
  induction l with
  | nil =>
    intro h _
    simp at h
  | cons p rest ih =>
    intro h hne
    rcases p with ⟨k2, v2⟩
    rw [List.map_cons] at h
    dsimp only at h
    rcases List.mem_cons.1 h with h0 | h0
    · have hk2 : ¬ k2 = id := by
        rw [← h0]
        exact hne
      simp [List.eraseP_cons, hk2, h0]
    · by_cases hk : k2 = id
      · simp only [List.eraseP_cons, hk]
        simpa using h0
      · have := ih h0 hne
        simp only [List.eraseP_cons, hk]
        simpa using Or.inr this

/-- Helper for C9: erasing a present key `id` and re-adding it in front
permutes the keys. -/
theorem keys_eraseP_perm {α : Type} (id : String) :
    ∀ l : List (String × α), id ∈ l.map Prod.fst →
      (id :: (l.eraseP (fun p => p.1 = id)).map Prod.fst).Perm
        (l.map Prod.fst) := by
  intro l
  induction l with
  | nil =>
    intro h
    simp at h
  | cons p rest ih =>
    intro h
    rcases p with ⟨k2, v2⟩
    by_cases hk : k2 = id
    · simp [List.eraseP_cons, hk]
    · rw [List.map_cons] at h
      dsimp only at h
      have h0 : id ∈ rest.map Prod.fst := by
        rcases List.mem_cons.1 h with h1 | h1
        · exact absurd h1.symm hk
        · exact h1
      have hsw : (id :: k2 ::
            ((rest.eraseP (fun p => p.1 = id)).map Prod.fst)).Perm
          (k2 :: id :: ((rest.eraseP (fun p => p.1 = id)).map Prod.fst)) :=
        List.Perm.swap _ _ _
      have hmain := hsw.trans ((ih h0).cons k2)
      simpa [List.eraseP_cons, hk] using hmain

/-- Helper for C9: rearranging a moved element inside an append
permutation. -/
theorem perm_shuffle {α : Type} (A B C : List α) (a : α)
    (h : (a :: A).Perm C) : (A ++ (B ++ [a])).Perm (C ++ B) := by
  have h1 : ((A ++ B) ++ [a]).Perm (a :: (A ++ B)) := by
    simpa using (@List.perm_middle _ a (A ++ B) [])
  have h2 : (A ++ (B ++ [a])).Perm (a :: (A ++ B)) := by
    simpa [List.append_assoc] using h1
  exact h2.trans (h.append_right B)

/-- Helper for C9: in a mapping with unique keys, a key determines its
value. -/
theorem keys_nodup_unique {α : Type} :
    ∀ l : List (String × α), (l.map Prod.fst).Nodup →
      ∀ {k : String} {v1 v2 : α}, (k, v1) ∈ l → (k, v2) ∈ l → v1 = v2 := by
  intro l
  induction l with
  | nil =>
    intro _ k v1 v2 h1 _
    simp at h1
  | cons p rest ih =>
    intro hnd k v1 v2 h1 h2
    rcases p with ⟨k2, v⟩
    simp only [List.map_cons, List.nodup_cons] at hnd
    rcases List.mem_cons.1 h1 with h10 | h10 <;> rcases List.mem_cons.1 h2 with h20 | h20
    · injection h10 with ha hb
      injection h20 with hc hd
      rw [hb, hd]
    · have hmem : k ∈ rest.map Prod.fst := List.mem_map.2 ⟨(k, v2), h20, rfl⟩
      injection h10 with ha _
      rw [ha] at hmem
      exact absurd hmem hnd.1
    · have hmem : k ∈ rest.map Prod.fst := List.mem_map.2 ⟨(k, v1), h10, rfl⟩
      injection h20 with ha _
      rw [ha] at hmem
      exact absurd hmem hnd.1
    · exact ih hnd.2 h10 h20

/-- Helper for C9: a resolvable reference's registered identifier occurs
among the identifiers `_find_dep_ids` returns for any reference list
containing it. -/
theorem ResolveM.findDepIds_mem (defs : List (String × ResolveM.DepDef))
    (id2 : String) (d2 : ResolveM.DepDef) (hd2 : (id2, d2) ∈ defs) :
    ∀ (refs : List Nat) (depIds : List String),
      ResolveM.findDepIds defs refs = .ok depIds →
      d2.token ∈ refs → id2 ∈ depIds := by
  intro refs
  induction refs with
  | nil =>
    intro depIds _ h2
    simp at h2
  | cons r rest ih =>
    intro depIds h h2
    simp only [ResolveM.findDepIds] at h
    by_cases hemp : ((defs.filter (fun p => p.2.token = r)).map (·.1)).isEmpty = true
    · rw [if_pos hemp] at h
      exact absurd h (by simp)
    · rw [if_neg hemp] at h
      rcases hrest : ResolveM.findDepIds defs rest with e | tail
      · rw [hrest] at h
        exact absurd h (by simp)
      · rw [hrest] at h
        have h3 : (Except.ok
            (((defs.filter (fun p => p.2.token = r)).map (·.1)) ++ tail) :
            Except String (List String)) = .ok depIds := h
        injection h3 with h4
        rw [← h4]
        rcases List.mem_cons.1 h2 with h5 | h5
        · apply List.mem_append_left
          apply List.mem_map.2
          exact ⟨(id2, d2), List.mem_filter.2 ⟨hd2, by simp [h5]⟩, rfl⟩
        · exact List.mem_append_right _ (ih tail hrest h5)

/-- Helper for C9: one resolution pass moves each initialized key from
the uninitialized to the initialized side, preserving the multiset of
keys, and shrinks the uninitialized mapping to a sublist of itself. -/
theorem ResolveM.onePass_perm (defs : List (String × ResolveM.DepDef)) :
    ∀ (rest uninit : List (String × ResolveM.DepDef))
      (inited : List (String × ResolveM.RDep))
      (u1 : List (String × ResolveM.DepDef)) (i1 : List (String × ResolveM.RDep)),
      ResolveM.onePass defs rest uninit inited = .ok (u1, i1) →
      (rest.map Prod.fst).Nodup →
      (∀ k ∈ rest.map Prod.fst, k ∈ uninit.map Prod.fst) →
      u1.Sublist uninit ∧
      (u1.map Prod.fst ++ i1.map Prod.fst).Perm
        (uninit.map Prod.fst ++ inited.map Prod.fst) := by
  intro rest
  induction rest with
  | nil =>
    intro uninit inited u1 i1 h _ _
    simp only [ResolveM.onePass, Except.ok.injEq, Prod.mk.injEq] at h
    obtain ⟨h1, h2⟩ := h
    subst h1
    subst h2
    exact ⟨List.Sublist.refl _, List.Perm.refl _⟩
  | cons p rest ih =>
    intro uninit inited u1 i1 h hnd hsub
    rcases p with ⟨id, d⟩
    rcases hfd : ResolveM.findDepIds defs d.dependsOn with e | depIds <;>
      simp only [ResolveM.onePass, hfd] at h
    · exact absurd h (by simp)
    · simp only [List.map_cons, List.nodup_cons] at hnd
      by_cases hall : depIds.all (fun i => (lookupK i inited).isSome) = true
      · rw [if_pos hall] at h
        have hidU : id ∈ uninit.map Prod.fst := hsub id (by simp)
        have hsub2 : ∀ k ∈ rest.map Prod.fst,
            k ∈ (uninit.eraseP (fun q => q.1 = id)).map Prod.fst := by
          intro k hk
          exact keys_mem_eraseP k id uninit (hsub k (by simp [hk]))
            (fun hc => hnd.1 (hc ▸ hk))
        obtain ⟨hsl, hperm⟩ := ih (uninit.eraseP (fun q => q.1 = id))
          (inited ++ [(id, ⟨id, depIds⟩)]) u1 i1 h hnd.2 hsub2
        have hmap : ((inited ++ [(id, (⟨id, depIds⟩ : ResolveM.RDep))]).map Prod.fst)
            = inited.map Prod.fst ++ [id] := by simp
        rw [hmap] at hperm
        exact ⟨hsl.trans (List.eraseP_sublist _),
          hperm.trans (perm_shuffle _ _ _ id (keys_eraseP_perm id uninit hidU))⟩
      · rw [if_neg hall] at h
        exact ih uninit inited u1 i1 h hnd.2 (fun k hk => hsub k (by simp [hk]))

/-- Helper for C9: the `from_defs` loop with a budget of zero
iterations. -/
theorem ResolveM.fromDefsAux_zero (defs : List (String × ResolveM.DepDef))
    (uninit : List (String × ResolveM.DepDef))
    (inited : List (String × ResolveM.RDep)) :
    ResolveM.fromDefsAux defs 0 uninit inited =
      if uninit.isEmpty then .ok inited
      else .error "Could not resolve dependencies" := rfl

/-- Helper for C9: the `from_defs` loop with a budget of one
iteration (the decrement-then-check order means no pass runs). -/
theorem ResolveM.fromDefsAux_one (defs : List (String × ResolveM.DepDef))
    (uninit : List (String × ResolveM.DepDef))
    (inited : List (String × ResolveM.RDep)) :
    ResolveM.fromDefsAux defs 1 uninit inited =
      if uninit.isEmpty then .ok inited
      else .error "Could not resolve dependencies" := rfl

/-- Helper for C9: when the `from_defs` loop returns successfully, the
keys of the initialized mapping are a permutation of the keys of the
uninitialized and initialized mappings it started from. -/
theorem ResolveM.fromDefsAux_perm (defs : List (String × ResolveM.DepDef)) :
    ∀ (iters : Nat) (uninit : List (String × ResolveM.DepDef))
      (inited inited2 : List (String × ResolveM.RDep)),
      ResolveM.fromDefsAux defs iters uninit inited = .ok inited2 →
      (uninit.map Prod.fst).Nodup →
      (uninit.map Prod.fst ++ inited.map Prod.fst).Perm (defs.map Prod.fst) →
      (inited2.map Prod.fst).Perm (defs.map Prod.fst) := by
  intro iters
  induction iters using Nat.strong_induction_on with
  | _ iters ih =>
    intro uninit inited inited2 h hndU hperm
    rcases iters with _ | _ | n
    · rw [ResolveM.fromDefsAux_zero] at h
      by_cases hemp : uninit.isEmpty = true
      · rw [if_pos hemp] at h
        injection h with h1
        subst h1
        have h0 : uninit = [] := by simpa using hemp
        rw [h0] at hperm
        simpa using hperm
      · rw [if_neg hemp] at h
        exact absurd h (by simp)
    · rw [ResolveM.fromDefsAux_one] at h
      by_cases hemp : uninit.isEmpty = true
      · rw [if_pos hemp] at h
        injection h with h1
        subst h1
        have h0 : uninit = [] := by simpa using hemp
        rw [h0] at hperm
        simpa using hperm
      · rw [if_neg hemp] at h
        exact absurd h (by simp)
    · rw [ResolveM.fromDefsAux_step] at h
      by_cases hemp : uninit.isEmpty = true
      · rw [if_pos hemp] at h
        injection h with h1
        subst h1
        have h0 : uninit = [] := by simpa using hemp
        rw [h0] at hperm
        simpa using hperm
      · rw [if_neg hemp] at h
        rcases ho : ResolveM.onePass defs uninit uninit inited with e | st1 <;>
          rw [ho] at h
        · exact absurd h (by simp)
        · rcases st1 with ⟨u1, i1⟩
          have h2 : ResolveM.fromDefsAux defs (n + 1) u1 i1 = .ok inited2 := h
          obtain ⟨hsl, hp1⟩ := ResolveM.onePass_perm defs uninit uninit inited u1 i1
            ho hndU (fun k hk => hk)
          have hnd1 : (u1.map Prod.fst).Nodup :=
            List.Nodup.sublist (hsl.map Prod.fst) hndU
          exact ih (n + 1) (by omega) u1 i1 inited2 h2 hnd1 (hp1.trans hperm)

/-- Helper for C9: once the uninitialized side is exhausted, further
passes change nothing. -/
theorem ResolveM.iteratePasses_nil (defs : List (String × ResolveM.DepDef)) :
    ∀ (n : Nat) (inited : List (String × ResolveM.RDep)),
      ResolveM.iteratePasses defs n ([], inited) = .ok ([], inited) := by
  intro n
  induction n with
  | zero =>
    intro inited
    rfl
  | succ n ihn =>
    intro inited
    have h0 : ResolveM.onePass defs ([] : List (String × ResolveM.DepDef)) [] inited
        = .ok ([], inited) := rfl
    simp only [ResolveM.iteratePasses, h0]
    exact ihn inited

/-- Helper for C9: if the resolution state is still unresolved after `n`
error-free passes, a budget of `n + 1` iterations raises the cycle-guard
error (the decremented counter reaches its bound with work left). -/
theorem ResolveM.fromDefsAux_error_of_pending (defs : List (String × ResolveM.DepDef)) :
    ∀ (n : Nat) (uninit : List (String × ResolveM.DepDef))
      (inited : List (String × ResolveM.RDep))
      (u2 : List (String × ResolveM.DepDef)) (i2 : List (String × ResolveM.RDep)),
      ResolveM.iteratePasses defs n (uninit, inited) = .ok (u2, i2) → u2 ≠ [] →
      ResolveM.fromDefsAux defs (n + 1) uninit inited =
        .error "Could not resolve dependencies" := by
  intro n
  induction n with
  | zero =>
    intro uninit inited u2 i2 h hne
    simp only [ResolveM.iteratePasses, Except.ok.injEq, Prod.mk.injEq] at h
    obtain ⟨h1, _⟩ := h
    subst h1
    rw [ResolveM.fromDefsAux_one, if_neg (by simpa using hne)]
  | succ n ihn =>
    intro uninit inited u2 i2 h hne
    simp only [ResolveM.iteratePasses] at h
    rcases ho : ResolveM.onePass defs uninit uninit inited with e | st1 <;>
      rw [ho] at h
    · exact absurd h (by simp)
    · rcases st1 with ⟨u1, i1⟩
      have h2 : ResolveM.iteratePasses defs n (u1, i1) = .ok (u2, i2) := h
      by_cases hemp : uninit.isEmpty = true
      · have h0 : uninit = [] := by simpa using hemp
        subst h0
        have hop : ResolveM.onePass defs ([] : List (String × ResolveM.DepDef)) [] inited
            = .ok ([], inited) := rfl
        rw [hop] at ho
        injection ho with ho1
        injection ho1 with ho2 ho3
        rw [← ho2] at h2
        rw [ResolveM.iteratePasses_nil] at h2
        injection h2 with h3
        injection h3 with h4 h5
        exact absurd h4.symm hne
      · rw [ResolveM.fromDefsAux_step, if_neg hemp, ho]
        exact ihn u1 i1 u2 i2 h2 hne

/-- Helper for C9: one extra pass can be peeled off at the end of an
iterated resolution. -/
theorem ResolveM.iteratePasses_succ_back (defs : List (String × ResolveM.DepDef)) :
    ∀ (n : Nat) (st : List (String × ResolveM.DepDef) × List (String × ResolveM.RDep)),
      ResolveM.iteratePasses defs (n + 1) st =
        match ResolveM.iteratePasses defs n st with
        | .error e => .error e
        | .ok st1 => ResolveM.iteratePasses defs 1 st1 := by
  intro n
  induction n with
  | zero =>
    intro st
    rfl
  | succ n ihn =>
    intro st
    rcases st with ⟨u, i⟩
    rcases ho : ResolveM.onePass defs u u i with e | st1 <;>
      simp only [ResolveM.iteratePasses, ho]
    exact ihn st1

/-- Helper for C9: needing more than `n + 1` passes implies needing more
than `n`. -/
theorem ResolveM.needsMore_mono (defs : List (String × ResolveM.DepDef)) (n : Nat)
    (h : ResolveM.needsMorePassesThan defs (n + 1)) :
    ResolveM.needsMorePassesThan defs n := by
  obtain ⟨u, i, hit, hne⟩ := h
  rw [ResolveM.iteratePasses_succ_back defs n (defs, [])] at hit
  rcases h0 : ResolveM.iteratePasses defs n (defs, []) with e | st0 <;>
    rw [h0] at hit
  · exact absurd hit (by simp)
  · rcases st0 with ⟨u0, i0⟩
    have hit2 : ResolveM.iteratePasses defs 1 (u0, i0) = .ok (u, i) := hit
    refine ⟨u0, i0, h0, ?_⟩
    intro hu0
    subst hu0
    rw [ResolveM.iteratePasses_nil defs 1 i0] at hit2
    injection hit2 with h1
    injection h1 with h2 h3
    exact hne h2.symm

/-- Helper for C9: a resolution pass never initializes a member of a
dependency cycle — the cycle member it references is never among the
initialized identifiers — and never removes one from the uninitialized
side. -/
theorem ResolveM.onePass_cycle (defs : List (String × ResolveM.DepDef))
    (cyc : List String)
    (hnd : (defs.map Prod.fst).Nodup)
    (hcyc : ∀ id ∈ cyc, ∃ d, (id, d) ∈ defs ∧
      ∃ id2 d2, id2 ∈ cyc ∧ (id2, d2) ∈ defs ∧ d2.token ∈ d.dependsOn) :
    ∀ (rest uninit : List (String × ResolveM.DepDef))
      (inited : List (String × ResolveM.RDep))
      (u1 : List (String × ResolveM.DepDef)) (i1 : List (String × ResolveM.RDep)),
      ResolveM.onePass defs rest uninit inited = .ok (u1, i1) →
      (∀ p ∈ rest, p ∈ defs) →
      (∀ id ∈ cyc, id ∈ uninit.map Prod.fst) →
      (∀ id ∈ cyc, lookupK id inited = none) →
      (∀ p ∈ u1, p ∈ uninit) ∧
      (∀ id ∈ cyc, id ∈ u1.map Prod.fst) ∧
      (∀ id ∈ cyc, lookupK id i1 = none) := by
  intro rest
  induction rest with
  | nil =>
    intro uninit inited u1 i1 h _ hU hI
    simp only [ResolveM.onePass, Except.ok.injEq, Prod.mk.injEq] at h
    obtain ⟨h1, h2⟩ := h
    subst h1
    subst h2
    exact ⟨fun p hp => hp, hU, hI⟩
  | cons p rest ih =>
    intro uninit inited u1 i1 h hrest hU hI
    rcases p with ⟨id, d⟩
    rcases hfd : ResolveM.findDepIds defs d.dependsOn with e | depIds <;>
      simp only [ResolveM.onePass, hfd] at h
    · exact absurd h (by simp)
    · by_cases hid : id ∈ cyc
      · obtain ⟨d2, hd2defs, id2, d3, hid2cyc, hd3defs, htok⟩ := hcyc id hid
        have hdd : d = d2 :=
          keys_nodup_unique defs hnd (hrest (id, d) (List.mem_cons_self _ _)) hd2defs
        rw [← hdd] at htok
        have hid2mem : id2 ∈ depIds :=
          ResolveM.findDepIds_mem defs id2 d3 hd3defs d.dependsOn depIds hfd htok
        have hcond : ¬ depIds.all (fun i => (lookupK i inited).isSome) = true := by
          intro hall
          have hsome := List.all_eq_true.1 hall id2 hid2mem
          simp [hI id2 hid2cyc] at hsome
        rw [if_neg hcond] at h
        exact ih uninit inited u1 i1 h
          (fun q hq => hrest q (List.mem_cons_of_mem _ hq)) hU hI
      · by_cases hall : depIds.all (fun i => (lookupK i inited).isSome) = true
        · rw [if_pos hall] at h
          obtain ⟨hmem, hU1, hI1⟩ := ih (uninit.eraseP (fun q => q.1 = id))
            (inited ++ [(id, ⟨id, depIds⟩)]) u1 i1 h
            (fun q hq => hrest q (List.mem_cons_of_mem _ hq))
            (fun idc hidc => keys_mem_eraseP idc id uninit (hU idc hidc)
              (fun hc => hid (hc ▸ hidc)))
            (fun idc hidc => lookupK_append_none idc id _ inited (hI idc hidc)
              (fun hc => hid (hc.symm ▸ hidc)))
          exact ⟨fun q hq => List.mem_of_mem_eraseP (hmem q hq), hU1, hI1⟩
        · rw [if_neg hall] at h
          exact ih uninit inited u1 i1 h
            (fun q hq => hrest q (List.mem_cons_of_mem _ hq)) hU hI

/-- Helper for C9: with a dependency cycle among the definitions, the
`from_defs` loop raises (either resolution error), whatever iteration
budget it is given: the cycle members can never all be initialized. -/
theorem ResolveM.fromDefsAux_cycle (defs : List (String × ResolveM.DepDef))
    (cyc : List String)
    (hnd : (defs.map Prod.fst).Nodup)
    (hcyc : ∀ id ∈ cyc, ∃ d, (id, d) ∈ defs ∧
      ∃ id2 d2, id2 ∈ cyc ∧ (id2, d2) ∈ defs ∧ d2.token ∈ d.dependsOn)
    (hcne : cyc ≠ []) :
    ∀ (iters : Nat) (uninit : List (String × ResolveM.DepDef))
      (inited : List (String × ResolveM.RDep)),
      (∀ p ∈ uninit, p ∈ defs) →
      (∀ id ∈ cyc, id ∈ uninit.map Prod.fst) →
      (∀ id ∈ cyc, lookupK id inited = none) →
      ∃ e, ResolveM.fromDefsAux defs iters uninit inited = .error e := by
  intro iters
  induction iters using Nat.strong_induction_on with
  | _ iters ih =>
    intro uninit inited hudefs hU hI
    have hne : ¬ uninit.isEmpty = true := by
      obtain ⟨id0, hid0⟩ := List.exists_mem_of_ne_nil cyc hcne
      have hm := hU id0 hid0
      intro hemp
      have h0 : uninit = [] := by simpa using hemp
      rw [h0] at hm
      simp at hm
    rcases iters with _ | _ | n
    · exact ⟨"Could not resolve dependencies", by
        rw [ResolveM.fromDefsAux_zero, if_neg hne]⟩
    · exact ⟨"Could not resolve dependencies", by
        rw [ResolveM.fromDefsAux_one, if_neg hne]⟩
    · rcases ho : ResolveM.onePass defs uninit uninit inited with e | st1
      · exact ⟨e, by rw [ResolveM.fromDefsAux_step, if_neg hne, ho]⟩
      · rcases st1 with ⟨u1, i1⟩
        obtain ⟨hmem, hU1, hI1⟩ := ResolveM.onePass_cycle defs cyc hnd hcyc
          uninit uninit inited u1 i1 ho hudefs hU hI
        obtain ⟨e, he⟩ := ih (n + 1) (by omega) u1 i1
          (fun q hq => hudefs q (hmem q hq)) hU1 hI1
        refine ⟨e, ?_⟩
        rw [ResolveM.fromDefsAux_step, if_neg hne, ho]
        exact he

/-- **C9** (confirmed): resolution termination and cycle guard for
`DependencyManager.from_defs` over a definitions mapping with unique
keys (a Python `dict`).  `from_defs` is a total function of its inputs
(the loop counter bounds the recursion), and: (1) if it returns a
manager, every definition has been initialized exactly once — the
initialized identifiers are a permutation of the definition
identifiers; (2) if more than 1000 resolution passes would be needed
(the state is still unresolved after 1000 error-free passes), it raises
the resolution error; (3) any definition set containing a dependency
cycle raises rather than looping forever. -/
theorem c9_resolution_termination (defs : List (String × ResolveM.DepDef))
    (hnd : (defs.map Prod.fst).Nodup) :
    (∀ inited, ResolveM.fromDefs defs = .ok inited →
      (inited.map Prod.fst).Perm (defs.map Prod.fst))
    ∧ (ResolveM.needsMorePassesThan defs 1000 →
      ResolveM.fromDefs defs = .error "Could not resolve dependencies")
    ∧ (ResolveM.HasCycle defs → ∃ e, ResolveM.fromDefs defs = .error e) := by
  refine ⟨?_, ?_, ?_⟩
  · intro inited h
    exact ResolveM.fromDefsAux_perm defs 1000 defs [] inited h hnd (by simp)
  · intro hneeds
    have h999 : ResolveM.needsMorePassesThan defs (999 + 1) := by
      rw [show (999 + 1 : Nat) = 1000 from by norm_num]
      exact hneeds
    obtain ⟨u, i, hit, hne⟩ := ResolveM.needsMore_mono defs 999 h999
    show ResolveM.fromDefsAux defs 1000 defs [] = _
    rw [show (1000 : Nat) = 999 + 1 from by norm_num]
    exact ResolveM.fromDefsAux_error_of_pending defs 999 defs [] u i hit hne
  · rintro ⟨cyc, hcne, hcyc⟩
    have hcycU : ∀ id ∈ cyc, id ∈ defs.map Prod.fst := by
      intro id hidc
      obtain ⟨d, hd, _⟩ := hcyc id hidc
      exact List.mem_map.2 ⟨(id, d), hd, rfl⟩
    obtain ⟨e, he⟩ := ResolveM.fromDefsAux_cycle defs cyc hnd hcyc hcne 1000 defs []
      (fun p hp => hp) hcycU (fun id _ => rfl)
    exact ⟨e, he⟩

/-- Witness for C9: the acyclic two-definition set (`a` depending on
`b`) resolves with both identifiers initialized once, and the
two-definition cyclic set (`a` and `b` referencing each other) raises. -/
theorem c9_resolution_termination_witness :
    (([("b", (⟨"b", []⟩ : ResolveM.RDep)), ("a", ⟨"a", ["b"]⟩)].map Prod.fst).Perm
      ([("a", (⟨0, [1]⟩ : ResolveM.DepDef)), ("b", ⟨1, []⟩)].map Prod.fst))
    ∧ (∃ e, ResolveM.fromDefs [("a", (⟨0, [1]⟩ : ResolveM.DepDef)), ("b", ⟨1, [0]⟩)]
        = .error e) :=
  ⟨(c9_resolution_termination [("a", ⟨0, [1]⟩), ("b", ⟨1, []⟩)] (by decide)).1
      [("b", ⟨"b", []⟩), ("a", ⟨"a", ["b"]⟩)] rfl,
   (c9_resolution_termination [("a", ⟨0, [1]⟩), ("b", ⟨1, [0]⟩)] (by decide)).2.2
      ⟨["a", "b"], by decide, fun id hid => by
        rcases List.mem_cons.1 hid with rfl | hid2
        · exact ⟨⟨0, [1]⟩, by decide, "b", ⟨1, [0]⟩, by decide, by decide, by decide⟩
        · rcases List.mem_cons.1 hid2 with rfl | h3
          · exact ⟨⟨1, [0]⟩, by decide, "a", ⟨0, [1]⟩, by decide, by decide, by decide⟩
          · exact absurd h3 (List.not_mem_nil _)⟩⟩

namespace DepmanI

/-!
## depman.py under the asyncio event loop: interleaving semantics

`DepmanM.runDep` above fixes one particular schedule (every awaited
task runs to completion before its awaiter resumes).  The machine in
this namespace models the event loop itself: a configuration holds the
states of all `run_dep` coroutines, the shared `deps_running` table and
the event trace, and one step runs the next maximal await-free segment
of any runnable coroutine, chosen nondeterministically.  The suspension
points are the awaits of the source: the `asyncio.gather` of
`_run_recursive_deps` (depman.py line 66) and the awaits of handles and
fresh `dep.run()` tasks in `_run_dep` (lines 47-52).  A coroutine
suspended awaiting a handle or its own `dep.run()` task touches no
shared state before returning the awaited value, so those final awaits
are folded into the segment that reaches them; this removes no
observable interleaving of the shared-state accesses. -/

/-- A gather entry of `_run_recursive_deps` (depman.py lines 57-64):
either the registered shared handle picked up from `deps_running` at
creation time (with the value its task produces), or the index of a
freshly created `run_dep` child task. -/
inductive WaitSrc where
  | handle (id : String) (b : Bool)
  | task (i : Nat) (id : String)
  deriving DecidableEq, Repr

/-- The identifier a gather entry awaits. -/
def WaitSrc.wid : WaitSrc → String
  | .handle id _ => id
  | .task _ id => id

/-- The state of one `run_dep` coroutine between suspension points:
scheduled but not yet started; suspended on the `asyncio.gather` of its
dependency entries; or finished with its result. -/
inductive TaskSt where
  | start (d : DepmanM.Dep)
  | gather (d : DepmanM.Dep) (waits : List WaitSrc)
  | done (d : DepmanM.Dep) (r : Bool)

/-- The dependency a task is for. -/
def TaskSt.depOf : TaskSt → DepmanM.Dep
  | .start d => d
  | .gather d _ => d
  | .done d _ => d

/-- The thunk-creation loop of `_run_recursive_deps` (lines 57-64),
executed atomically (it contains no await): one entry per direct
dependency — the registered handle if `deps_running` has one, otherwise
a fresh `run_dep` task; `base` is the index the first fresh task
receives on the task list. -/
def mkWaits (σ : DepmanM.Tbl) (base : Nat) :
    List DepmanM.Dep → List WaitSrc × List TaskSt
  | [] => ([], [])
  | dd :: rest =>
    match lookupK dd.depId σ with
    | some b =>
      let (ws, ts) := mkWaits σ base rest
      (.handle dd.depId b :: ws, ts)
    | none =>
      let (ws, ts) := mkWaits σ (base + 1) rest
      (.task base dd.depId :: ws, .start dd :: ts)

/-- What a gather entry currently offers: a handle offers its task's
value, a child task offers its result once it has finished. -/
def waitVal (tasks : List TaskSt) : WaitSrc → Option Bool
  | .handle _ b => some b
  | .task j _ =>
    match tasks[j]? with
    | some (.done _ r) => some r
    | _ => none

/-- The results of a finished gather, in entry order; `none` while some
entry is still pending (`asyncio.gather` has not resumed the parent). -/
def waitVals (tasks : List TaskSt) : List WaitSrc → Option (List Bool)
  | [] => some []
  | w :: ws =>
    match waitVal tasks w, waitVals tasks ws with
    | some b, some bs => some (b :: bs)
    | _, _ => none

/-- The completion observations a finished gather adds to the trace:
the parent observed each entry's result. -/
def obsEvents (waits : List WaitSrc) (results : List Bool) : List DepmanM.DEv :=
  List.zipWith (fun w r => DepmanM.DEv.obsDep w.wid r) waits results

/-- A configuration of the event loop: the states of all `run_dep`
tasks (new tasks are appended, so indices are stable), the shared
`deps_running` table, and the trace. -/
abbrev Cfg := List TaskSt × DepmanM.Tbl × List DepmanM.DEv

/-- One step of the event loop: run the next await-free segment of any
runnable task.

* `skip`: `run_dep` starts and its last-modified comparison holds
  (depman.py lines 28-33); it returns `True` with the dependencies
  never awaited.
* `leafHit`/`leafMiss`: `run_dep` starts for a dependency without
  dependencies: `_run_recursive_deps` returns `None` with no await, so
  the same segment runs `_run_dep`'s membership check and — atomically,
  there is no await between the check and the registration — either
  picks up the registered handle or creates, registers and awaits a
  fresh `dep.run()` task (the one `run()` invocation).
* `spawn`: `run_dep` starts with dependencies and no skip; the same
  segment creates all gather entries (handles looked up now, fresh
  `run_dep` tasks appended now) and suspends on the gather.
* `gatherFail`: the gather completed with a falsy result; the walrus
  guard of `_run_dep` (line 44) turns the `False` of
  `_run_recursive_deps` into a returned `True`.
* `gatherHit`/`gatherMiss`: the gather completed all-truthy; the same
  resumed segment runs the membership check and registration exactly as
  in the leaf case. -/
inductive Step : Cfg → Cfg → Prop where
  | skip (tasks : List TaskSt) (σ : DepmanM.Tbl) (tr : List DepmanM.DEv)
      (i : Nat) (d : DepmanM.Dep) :
      tasks[i]? = some (.start d) →
      d.dependsOn.isEmpty = false →
      d.dependsOn.all (fun dd => decide (dd.lastModified < d.lastModified)) = true →
      Step (tasks, σ, tr)
        (tasks.set i (.done d true), σ,
          tr ++ [DepmanM.DEv.lmEval d.depId, DepmanM.DEv.skipHeader d.depId])
  | leafHit (tasks : List TaskSt) (σ : DepmanM.Tbl) (tr : List DepmanM.DEv)
      (i : Nat) (d : DepmanM.Dep) (b : Bool) :
      tasks[i]? = some (.start d) →
      d.dependsOn.isEmpty = true →
      lookupK d.depId σ = some b →
      Step (tasks, σ, tr)
        (tasks.set i (.done d b), σ, tr ++ [DepmanM.DEv.startHeader d.depId])
  | leafMiss (tasks : List TaskSt) (σ : DepmanM.Tbl) (tr : List DepmanM.DEv)
      (i : Nat) (d : DepmanM.Dep) :
      tasks[i]? = some (.start d) →
      d.dependsOn.isEmpty = true →
      lookupK d.depId σ = none →
      Step (tasks, σ, tr)
        (tasks.set i (.done d d.runResult), setK d.depId d.runResult σ,
          tr ++ [DepmanM.DEv.startHeader d.depId,
            DepmanM.DEv.runInvoke d.depId d.runResult])
  | spawn (tasks : List TaskSt) (σ : DepmanM.Tbl) (tr : List DepmanM.DEv)
      (i : Nat) (d : DepmanM.Dep) :
      tasks[i]? = some (.start d) →
      d.dependsOn.isEmpty = false →
      d.dependsOn.all (fun dd => decide (dd.lastModified < d.lastModified)) = false →
      Step (tasks, σ, tr)
        (tasks.set i (.gather d (mkWaits σ tasks.length d.dependsOn).1)
            ++ (mkWaits σ tasks.length d.dependsOn).2,
          σ, tr ++ [DepmanM.DEv.lmEval d.depId, DepmanM.DEv.startHeader d.depId])
  | gatherFail (tasks : List TaskSt) (σ : DepmanM.Tbl) (tr : List DepmanM.DEv)
      (i : Nat) (d : DepmanM.Dep) (waits : List WaitSrc) (results : List Bool) :
      tasks[i]? = some (.gather d waits) →
      waitVals tasks waits = some results →
      results.all (· = true) = false →
      Step (tasks, σ, tr)
        (tasks.set i (.done d true), σ,
          tr ++ obsEvents waits results ++ [DepmanM.DEv.depFailed d.depId])
  | gatherHit (tasks : List TaskSt) (σ : DepmanM.Tbl) (tr : List DepmanM.DEv)
      (i : Nat) (d : DepmanM.Dep) (waits : List WaitSrc) (results : List Bool)
      (b : Bool) :
      tasks[i]? = some (.gather d waits) →
      waitVals tasks waits = some results →
      results.all (· = true) = true →
      lookupK d.depId σ = some b →
      Step (tasks, σ, tr)
        (tasks.set i (.done d b), σ, tr ++ obsEvents waits results)
  | gatherMiss (tasks : List TaskSt) (σ : DepmanM.Tbl) (tr : List DepmanM.DEv)
      (i : Nat) (d : DepmanM.Dep) (waits : List WaitSrc) (results : List Bool) :
      tasks[i]? = some (.gather d waits) →
      waitVals tasks waits = some results →
      results.all (· = true) = true →
      lookupK d.depId σ = none →
      Step (tasks, σ, tr)
        (tasks.set i (.done d d.runResult), setK d.depId d.runResult σ,
          tr ++ obsEvents waits results ++
            [DepmanM.DEv.runInvoke d.depId d.runResult])

/-- Finitely many event-loop steps. -/
inductive Steps : Cfg → Cfg → Prop where
  | refl (c : Cfg) : Steps c c
  | tail {a b c : Cfg} : Steps a b → Step b c → Steps a c

/-- Initial configuration of a batch of concurrently requested
dependencies: one scheduled `run_dep` task per request, empty
`deps_running`, empty trace. -/
def init (ds : List DepmanM.Dep) : Cfg := (ds.map .start, [], [])

end DepmanI

/-- Helper for C2: well-formedness of one gather entry for the
dependency it was created for — a handle carries the dependency's
deterministic value, a task entry points at a task for that
dependency. -/
def DepmanI.WaitOk (tasks : List DepmanI.TaskSt) (dd : DepmanM.Dep) :
    DepmanI.WaitSrc → Prop
  | .handle id b => id = dd.depId ∧ b = DepmanM.depVal dd
  | .task j id => id = dd.depId ∧
      ∃ t, tasks[j]? = some t ∧ DepmanI.TaskSt.depOf t = dd

/-- Helper for C2: pointwise well-formedness of a gather list against
the dependency list it was created from. -/
def DepmanI.WaitsOk (tasks : List DepmanI.TaskSt) :
    List DepmanM.Dep → List DepmanI.WaitSrc → Prop
  | [], [] => True
  | dd :: ds, w :: ws => DepmanI.WaitOk tasks dd w ∧ DepmanI.WaitsOk tasks ds ws
  | _, _ => False

/-- Helper for C2: well-formedness of one task state over the universe
`U` of reachable dependencies: a finished task carries its dependency's
deterministic value. -/
def DepmanI.TaskOk (U : List DepmanM.Dep) (tasks : List DepmanI.TaskSt) :
    DepmanI.TaskSt → Prop
  | .start d => DepmanM.nodesOf d ⊆ U
  | .gather d waits => DepmanM.nodesOf d ⊆ U
      ∧ d.dependsOn.isEmpty = false
      ∧ d.dependsOn.all (fun dd => decide (dd.lastModified < d.lastModified)) = false
      ∧ DepmanI.WaitsOk tasks d.dependsOn waits
  | .done d r => r = DepmanM.depVal d

/-- Helper for C2: the machine invariant — the shared-handle table is
sound, every observation is sound, each identifier has been invoked at
most once and only once registered, and every task is well formed. -/
def DepmanI.Inv (U : List DepmanM.Dep) (c : DepmanI.Cfg) : Prop :=
  DepmanM.GoodTbl U c.2.1
  ∧ DepmanM.ObsOk U c.2.2
  ∧ (∀ id, DepmanM.invokeCount id c.2.2 ≤ 1)
  ∧ (∀ id, lookupK id c.2.1 = none → DepmanM.invokeCount id c.2.2 = 0)
  ∧ (∀ t ∈ c.1, DepmanI.TaskOk U c.1 t)

/-- Helper for C2: a task-list update that keeps every existing index a
task for the same dependency. -/
def DepmanI.SameDeps (tasks tasks2 : List DepmanI.TaskSt) : Prop :=
  ∀ (j : Nat) (t : DepmanI.TaskSt), tasks[j]? = some t →
    ∃ t2, tasks2[j]? = some t2 ∧ DepmanI.TaskSt.depOf t2 = DepmanI.TaskSt.depOf t

/-- Helper for C2: replacing one task by a task for the same dependency
and appending fresh tasks preserves what every index is for. -/
theorem DepmanI.sameDeps_set_append (tasks : List DepmanI.TaskSt) (i : Nat)
    (t0 t2 : DepmanI.TaskSt) (ts : List DepmanI.TaskSt)
    (h : tasks[i]? = some t0)
    (hdep : DepmanI.TaskSt.depOf t2 = DepmanI.TaskSt.depOf t0) :
    DepmanI.SameDeps tasks ((tasks.set i t2) ++ ts) := by
  intro j t hj
  have hjlt : j < tasks.length := by
    rcases List.getElem?_eq_some.1 hj with ⟨hl, _⟩
    exact hl
  have hjlt2 : j < (tasks.set i t2).length := by
    rw [List.length_set]
    exact hjlt
  by_cases hij : i = j
  · subst hij
    refine ⟨t2, ?_, ?_⟩
    · rw [List.getElem?_append, if_pos hjlt2, List.getElem?_set_self hjlt]
    · rw [h] at hj
      injection hj with hj2
      rw [hdep, hj2]
  · refine ⟨t, ?_, rfl⟩
    rw [List.getElem?_append, if_pos hjlt2, List.getElem?_set_ne hij]
    exact hj

/-- Helper for C2: gather-entry well-formedness only depends on what
every index is for. -/
theorem DepmanI.WaitOk_mono {tasks tasks2 : List DepmanI.TaskSt}
    (hsd : DepmanI.SameDeps tasks tasks2) (dd : DepmanM.Dep) :
    ∀ w, DepmanI.WaitOk tasks dd w → DepmanI.WaitOk tasks2 dd w := by
  intro w h
  cases w with
  | handle id b => exact h
  | task j id =>
    obtain ⟨hid, t, hj, hd⟩ := h
    obtain ⟨t2, hj2, hd2⟩ := hsd j t hj
    exact ⟨hid, t2, hj2, hd2.trans hd⟩

/-- Helper for C2: gather-list well-formedness only depends on what
every index is for. -/
theorem DepmanI.WaitsOk_mono {tasks tasks2 : List DepmanI.TaskSt}
    (hsd : DepmanI.SameDeps tasks tasks2) :
    ∀ (ds : List DepmanM.Dep) (ws : List DepmanI.WaitSrc),
      DepmanI.WaitsOk tasks ds ws → DepmanI.WaitsOk tasks2 ds ws := by
  intro ds
  induction ds with
  | nil =>
    intro ws h
    cases ws with
    | nil => trivial
    | cons w ws => exact h.elim
  | cons dd rest ih =>
    intro ws h
    cases ws with
    | nil => exact h.elim
    | cons w ws => exact ⟨DepmanI.WaitOk_mono hsd dd w h.1, ih ws h.2⟩

/-- Helper for C2: task well-formedness only depends on what every
index is for. -/
theorem DepmanI.TaskOk_mono (U : List DepmanM.Dep)
    {tasks tasks2 : List DepmanI.TaskSt} (hsd : DepmanI.SameDeps tasks tasks2) :
    ∀ t, DepmanI.TaskOk U tasks t → DepmanI.TaskOk U tasks2 t := by
  intro t h
  cases t with
  | start d => exact h
  | gather d waits =>
    exact ⟨h.1, h.2.1, h.2.2.1, DepmanI.WaitsOk_mono hsd d.dependsOn waits h.2.2.2⟩
  | done d r => exact h

/-- Helper for C2: the deterministic value under the last-modified
skip. -/
theorem DepmanI.depVal_skip (d : DepmanM.Dep)
    (hall : d.dependsOn.all
      (fun dd => decide (dd.lastModified < d.lastModified)) = true)
    (hne : d.dependsOn.isEmpty = false) :
    DepmanM.depVal d = true := by
  rw [DepmanM.depVal_eq, if_pos ⟨by simp [hne], hall⟩]

/-- Helper for C2: the deterministic value of a dependency without
dependencies is its own `run()` result. -/
theorem DepmanI.depVal_leaf (d : DepmanM.Dep)
    (hemp : d.dependsOn.isEmpty = true) :
    DepmanM.depVal d = d.runResult := by
  rw [DepmanM.depVal_eq, if_neg (by simp [hemp])]
  simp only [DepmanM.depValAux]
  rw [if_neg (by simp [hemp])]

/-- Helper for C2: the deterministic value when a dependency fails is
`True` (the walrus-bound return of `_run_dep`). -/
theorem DepmanI.depVal_depFail (d : DepmanM.Dep)
    (hne : d.dependsOn.isEmpty = false)
    (hallF : d.dependsOn.all
      (fun dd => decide (dd.lastModified < d.lastModified)) = false)
    (hdvl : DepmanM.depValL d.dependsOn = false) :
    DepmanM.depVal d = true := by
  rw [DepmanM.depVal_eq, if_neg (by simp [hallF])]
  simp only [DepmanM.depValAux]
  rw [if_pos ⟨by simp [hne], hdvl⟩]

/-- Helper for C2: the deterministic value when no skip applies and all
dependencies succeed is the own `run()` result. -/
theorem DepmanI.depVal_depOk (d : DepmanM.Dep)
    (hallF : d.dependsOn.all
      (fun dd => decide (dd.lastModified < d.lastModified)) = false)
    (hdvl : DepmanM.depValL d.dependsOn = true) :
    DepmanM.depVal d = d.runResult := by
  rw [DepmanM.depVal_eq, if_neg (by simp [hallF])]
  simp only [DepmanM.depValAux]
  rw [if_neg (by simp [hdvl])]

/-- Helper for C2: registering a reachable dependency's `run()` result
keeps the shared-handle table sound when that result is its
deterministic value. -/
theorem DepmanI.GoodTbl_set (U : List DepmanM.Dep) (σ : DepmanM.Tbl)
    (hG : DepmanM.GoodTbl U σ) (d : DepmanM.Dep) (hdU : d ∈ U)
    (hval : DepmanM.depVal d = d.runResult) :
    DepmanM.GoodTbl U (setK d.depId d.runResult σ) := by
  intro id b hb
  by_cases hid : id = d.depId
  · subst hid
    rw [lookupK_setK_self] at hb
    injection hb with h1
    exact ⟨d, hdU, rfl, h1, by rw [hval, h1]⟩
  · rw [lookupK_setK_ne _ _ _ _ hid] at hb
    exact hG id b hb

/-- Helper for C2: gather observations contain no `run()` invocation. -/
theorem DepmanI.invokeCount_obsEvents (id : String) :
    ∀ (waits : List DepmanI.WaitSrc) (results : List Bool),
      DepmanM.invokeCount id (DepmanI.obsEvents waits results) = 0 := by
  intro waits
  induction waits with
  | nil =>
    intro results
    rfl
  | cons w ws ih =>
    intro results
    cases results with
    | nil => rfl
    | cons r rs =>
      simp only [DepmanI.obsEvents, List.zipWith_cons_cons, DepmanM.invokeCount,
        List.countP_cons]
      have h0 := ih rs
      simp only [DepmanM.invokeCount, DepmanI.obsEvents] at h0
      simp [h0, DepmanM.DEv.isInvokeOf]

/-- Helper for C2: the atomically created gather entries are well
formed — handles carry deterministic values (by table soundness and
coherence), fresh entries point at the tasks appended behind any prefix
of the right length — and every appended task is a fresh `run_dep` task
for one of the dependencies. -/
theorem DepmanI.mkWaits_spec (U : List DepmanM.Dep)
    (hcoh : ∀ d1 ∈ U, ∀ d2 ∈ U, d1.depId = d2.depId → d1 = d2)
    (σ : DepmanM.Tbl) (hG : DepmanM.GoodTbl U σ) :
    ∀ (ds : List DepmanM.Dep) (A : List DepmanI.TaskSt),
      (∀ dd ∈ ds, dd ∈ U) →
      (∀ t ∈ (DepmanI.mkWaits σ A.length ds).2, ∃ dd ∈ ds, t = .start dd)
      ∧ DepmanI.WaitsOk (A ++ (DepmanI.mkWaits σ A.length ds).2) ds
          (DepmanI.mkWaits σ A.length ds).1 := by
  intro ds
  induction ds with
  | nil =>
    intro A _
    constructor
    · intro t ht
      simp [DepmanI.mkWaits] at ht
    · trivial
  | cons dd rest ih =>
    intro A hU
    rcases hlk : lookupK dd.depId σ with _ | b
    · rcases hrec : DepmanI.mkWaits σ (A.length + 1) rest with ⟨ws, ts⟩
      have hmk : DepmanI.mkWaits σ A.length (dd :: rest) =
          (.task A.length dd.depId :: ws, .start dd :: ts) := by
        simp [DepmanI.mkWaits, hlk, hrec]
      have hlen : (A ++ [DepmanI.TaskSt.start dd]).length = A.length + 1 := by simp
      have ihr := ih (A ++ [.start dd])
        (fun x hx => hU x (List.mem_cons_of_mem _ hx))
      rw [hlen, hrec] at ihr
      dsimp only at ihr
      obtain ⟨ihspawn, ihok⟩ := ihr
      rw [hmk]
      dsimp only
      constructor
      · intro t ht
        rcases List.mem_cons.1 ht with h0 | h0
        · exact ⟨dd, List.mem_cons_self _ _, h0⟩
        · obtain ⟨dd2, hdd2, ht2⟩ := ihspawn t h0
          exact ⟨dd2, List.mem_cons_of_mem _ hdd2, ht2⟩
      · refine ⟨⟨rfl, ?_⟩, ?_⟩
        · refine ⟨.start dd, ?_, rfl⟩
          rw [List.getElem?_append_right (le_refl _)]
          simp
        · have hassoc : (A ++ [DepmanI.TaskSt.start dd]) ++ ts
              = A ++ (DepmanI.TaskSt.start dd :: ts) := by
            simp
          rw [hassoc] at ihok
          exact ihok
    · rcases hrec : DepmanI.mkWaits σ A.length rest with ⟨ws, ts⟩
      have hmk : DepmanI.mkWaits σ A.length (dd :: rest) =
          (.handle dd.depId b :: ws, ts) := by
        simp [DepmanI.mkWaits, hlk, hrec]
      have ihr := ih A (fun x hx => hU x (List.mem_cons_of_mem _ hx))
      rw [hrec] at ihr
      dsimp only at ihr
      obtain ⟨ihspawn, ihok⟩ := ihr
      rw [hmk]
      dsimp only
      constructor
      · intro t ht
        obtain ⟨dd2, hdd2, ht2⟩ := ihspawn t ht
        exact ⟨dd2, List.mem_cons_of_mem _ hdd2, ht2⟩
      · refine ⟨⟨rfl, ?_⟩, ihok⟩
        obtain ⟨d2, hd2U, hid2, _, hdv2⟩ := hG dd.depId b hlk
        have he : d2 = dd := hcoh d2 hd2U dd (hU dd (List.mem_cons_self _ _)) hid2
        rw [← hdv2, he]

/-- Helper for C2: when a gather resumes, the results it gathered are
exactly the deterministic values of its dependencies, and each
observation it records carries that value. -/
theorem DepmanI.waitVals_spec (U : List DepmanM.Dep) (tasks : List DepmanI.TaskSt)
    (hts : ∀ t ∈ tasks, DepmanI.TaskOk U tasks t) :
    ∀ (ds : List DepmanM.Dep) (waits : List DepmanI.WaitSrc) (results : List Bool),
      DepmanI.WaitsOk tasks ds waits →
      DepmanI.waitVals tasks waits = some results →
      results = ds.map DepmanM.depVal
      ∧ ∀ ev ∈ DepmanI.obsEvents waits results, ∃ dd ∈ ds,
          ev = DepmanM.DEv.obsDep dd.depId (DepmanM.depVal dd) := by
  intro ds
  induction ds with
  | nil =>
    intro waits results hok hvals
    cases waits with
    | nil =>
      have h0 : (some [] : Option (List Bool)) = some results := hvals
      injection h0 with h1
      subst h1
      exact ⟨rfl, by intro ev hev; simp [DepmanI.obsEvents] at hev⟩
    | cons w ws => exact hok.elim
  | cons dd rest ih =>
    intro waits results hok hvals
    cases waits with
    | nil => exact hok.elim
    | cons w ws =>
      obtain ⟨hw, hws⟩ := hok
      rcases hv : DepmanI.waitVal tasks w with _ | b
      · rw [DepmanI.waitVals, hv] at hvals
        exact absurd hvals (by simp)
      · rcases hrest : DepmanI.waitVals tasks ws with _ | bs
        · rw [DepmanI.waitVals, hv, hrest] at hvals
          exact absurd hvals (by simp)
        · rw [DepmanI.waitVals, hv, hrest] at hvals
          have h0 : (some (b :: bs) : Option (List Bool)) = some results := hvals
          injection h0 with h1
          subst h1
          have hb : b = DepmanM.depVal dd := by
            cases w with
            | handle id b0 =>
              have h2 : (some b0 : Option Bool) = some b := hv
              injection h2 with h3
              rw [← h3]
              exact hw.2
            | task j id =>
              obtain ⟨_, t, hj, hdep⟩ := hw
              cases t with
              | start d2 =>
                simp only [DepmanI.waitVal, hj] at hv
                exact absurd hv (by simp)
              | gather d2 w2 =>
                simp only [DepmanI.waitVal, hj] at hv
                exact absurd hv (by simp)
              | done d2 r =>
                simp only [DepmanI.waitVal, hj] at hv
                injection hv with h3
                have hok2 : DepmanI.TaskOk U tasks (.done d2 r) :=
                  hts _ (List.getElem?_mem hj)
                have hd2 : d2 = dd := hdep
                rw [← h3, hok2, hd2]
          have hwid : DepmanI.WaitSrc.wid w = dd.depId := by
            cases w with
            | handle id b0 => exact hw.1
            | task j id => exact hw.1
          obtain ⟨ihres, ihobs⟩ := ih ws bs hws hrest
          constructor
          · rw [List.map_cons, ← ihres, hb]
          · intro ev hev
            simp only [DepmanI.obsEvents, List.zipWith_cons_cons] at hev
            rcases List.mem_cons.1 hev with h0 | h0
            · exact ⟨dd, List.mem_cons_self _ _, by rw [h0, hwid, hb]⟩
            · obtain ⟨dd2, hdd2, hev2⟩ := ihobs ev h0
              exact ⟨dd2, List.mem_cons_of_mem _ hdd2, hev2⟩

/-- Helper for C2: every event-loop step preserves the machine
invariant — in particular an invocation step requires the identifier to
be unregistered, registers it atomically in the same segment, and no
other step invokes anything. -/
theorem DepmanI.step_inv (U : List DepmanM.Dep)
    (hcoh : ∀ d1 ∈ U, ∀ d2 ∈ U, d1.depId = d2.depId → d1 = d2)
    {c c2 : DepmanI.Cfg} (hstep : DepmanI.Step c c2) (hinv : DepmanI.Inv U c) :
    DepmanI.Inv U c2 := by
  cases hstep with
  | skip tasks σ tr i d hi hne hall =>
    obtain ⟨hG, hObs, hC1, hC0, hT⟩ := hinv
    have hsd : DepmanI.SameDeps tasks (tasks.set i (.done d true) ++ []) :=
      DepmanI.sameDeps_set_append tasks i _ _ [] hi rfl
    rw [List.append_nil] at hsd
    refine ⟨hG, ?_, ?_, ?_, ?_⟩
    · exact DepmanM.ObsOk_append U tr _ hObs
        (DepmanM.ObsOk_of_no_obs U _ (by intro id0 b0; simp))
    · intro id0
      rw [DepmanM.invokeCount_append]
      have h0 : DepmanM.invokeCount id0
          [DepmanM.DEv.lmEval d.depId, DepmanM.DEv.skipHeader d.depId] = 0 := by
        simp [DepmanM.invokeCount, DepmanM.DEv.isInvokeOf]
      rw [h0]
      simpa using hC1 id0
    · intro id0 hid0
      rw [DepmanM.invokeCount_append]
      have h0 : DepmanM.invokeCount id0
          [DepmanM.DEv.lmEval d.depId, DepmanM.DEv.skipHeader d.depId] = 0 := by
        simp [DepmanM.invokeCount, DepmanM.DEv.isInvokeOf]
      rw [h0, hC0 id0 hid0]
    · intro t ht
      rcases List.mem_or_eq_of_mem_set ht with h0 | h0
      · exact DepmanI.TaskOk_mono U hsd t (hT t h0)
      · subst h0
        exact (DepmanI.depVal_skip d hall hne).symm
  | leafHit tasks σ tr i d b hi hemp hlk =>
    obtain ⟨hG, hObs, hC1, hC0, hT⟩ := hinv
    have hsd : DepmanI.SameDeps tasks (tasks.set i (.done d b) ++ []) :=
      DepmanI.sameDeps_set_append tasks i _ _ [] hi rfl
    rw [List.append_nil] at hsd
    have hstart : DepmanI.TaskOk U tasks (.start d) := hT _ (List.getElem?_mem hi)
    have hdU : d ∈ U := hstart (DepmanM.self_mem_nodesOf d)
    obtain ⟨d2, hd2U, hid2, _, hdv2⟩ := hG d.depId b hlk
    have he : d2 = d := hcoh d2 hd2U d hdU hid2
    refine ⟨hG, ?_, ?_, ?_, ?_⟩
    · exact DepmanM.ObsOk_append U tr _ hObs
        (DepmanM.ObsOk_of_no_obs U _ (by intro id0 b0; simp))
    · intro id0
      rw [DepmanM.invokeCount_append]
      have h0 : DepmanM.invokeCount id0 [DepmanM.DEv.startHeader d.depId] = 0 := by
        simp [DepmanM.invokeCount, DepmanM.DEv.isInvokeOf]
      rw [h0]
      simpa using hC1 id0
    · intro id0 hid0
      rw [DepmanM.invokeCount_append]
      have h0 : DepmanM.invokeCount id0 [DepmanM.DEv.startHeader d.depId] = 0 := by
        simp [DepmanM.invokeCount, DepmanM.DEv.isInvokeOf]
      rw [h0, hC0 id0 hid0]
    · intro t ht
      rcases List.mem_or_eq_of_mem_set ht with h0 | h0
      · exact DepmanI.TaskOk_mono U hsd t (hT t h0)
      · subst h0
        show b = DepmanM.depVal d
        rw [← hdv2, he]
  | leafMiss tasks σ tr i d hi hemp hlk =>
    obtain ⟨hG, hObs, hC1, hC0, hT⟩ := hinv
    have hsd : DepmanI.SameDeps tasks (tasks.set i (.done d d.runResult) ++ []) :=
      DepmanI.sameDeps_set_append tasks i _ _ [] hi rfl
    rw [List.append_nil] at hsd
    have hstart : DepmanI.TaskOk U tasks (.start d) := hT _ (List.getElem?_mem hi)
    have hdU : d ∈ U := hstart (DepmanM.self_mem_nodesOf d)
    have hval : DepmanM.depVal d = d.runResult := DepmanI.depVal_leaf d hemp
    refine ⟨?_, ?_, ?_, ?_, ?_⟩
    · exact DepmanI.GoodTbl_set U σ hG d hdU hval
    · exact DepmanM.ObsOk_append U tr _ hObs
        (DepmanM.ObsOk_of_no_obs U _ (by intro id0 b0; simp))
    · intro id0
      rw [DepmanM.invokeCount_append]
      by_cases hid : id0 = d.depId
      · subst hid
        have h0 : DepmanM.invokeCount d.depId tr = 0 := hC0 d.depId hlk
        have h1 : DepmanM.invokeCount d.depId
            [DepmanM.DEv.startHeader d.depId,
             DepmanM.DEv.runInvoke d.depId d.runResult] = 1 := by
          simp [DepmanM.invokeCount, DepmanM.DEv.isInvokeOf]
        rw [h0, h1]
      · have h1 : DepmanM.invokeCount id0
            [DepmanM.DEv.startHeader d.depId,
             DepmanM.DEv.runInvoke d.depId d.runResult] = 0 := by
          simp [DepmanM.invokeCount, DepmanM.DEv.isInvokeOf, Ne.symm hid]
        rw [h1]
        simpa using hC1 id0
    · intro id0 hid0
      by_cases hid : id0 = d.depId
      · subst hid
        rw [lookupK_setK_self] at hid0
        exact absurd hid0 (by simp)
      · rw [lookupK_setK_ne _ _ _ _ hid] at hid0
        rw [DepmanM.invokeCount_append]
        have h1 : DepmanM.invokeCount id0
            [DepmanM.DEv.startHeader d.depId,
             DepmanM.DEv.runInvoke d.depId d.runResult] = 0 := by
          simp [DepmanM.invokeCount, DepmanM.DEv.isInvokeOf, Ne.symm hid]
        rw [h1, hC0 id0 hid0]
    · intro t ht
      rcases List.mem_or_eq_of_mem_set ht with h0 | h0
      · exact DepmanI.TaskOk_mono U hsd t (hT t h0)
      · subst h0
        exact hval.symm
  | spawn tasks σ tr i d hi hne hallF =>
    obtain ⟨hG, hObs, hC1, hC0, hT⟩ := hinv
    have hstart : DepmanI.TaskOk U tasks (.start d) := hT _ (List.getElem?_mem hi)
    have hchildU : ∀ dd ∈ d.dependsOn, dd ∈ U := by
      intro dd hdd
      exact hstart (DepmanM.child_nodes_subset d dd hdd (DepmanM.self_mem_nodesOf dd))
    have hspec := DepmanI.mkWaits_spec U hcoh σ hG d.dependsOn
      (tasks.set i (.gather d (DepmanI.mkWaits σ tasks.length d.dependsOn).1))
      hchildU
    rw [List.length_set] at hspec
    obtain ⟨hspawn, hwok⟩ := hspec
    have hsd : DepmanI.SameDeps tasks
        (tasks.set i (.gather d (DepmanI.mkWaits σ tasks.length d.dependsOn).1)
          ++ (DepmanI.mkWaits σ tasks.length d.dependsOn).2) :=
      DepmanI.sameDeps_set_append tasks i _ _ _ hi rfl
    refine ⟨hG, ?_, ?_, ?_, ?_⟩
    · exact DepmanM.ObsOk_append U tr _ hObs
        (DepmanM.ObsOk_of_no_obs U _ (by intro id0 b0; simp))
    · intro id0
      rw [DepmanM.invokeCount_append]
      have h0 : DepmanM.invokeCount id0
          [DepmanM.DEv.lmEval d.depId, DepmanM.DEv.startHeader d.depId] = 0 := by
        simp [DepmanM.invokeCount, DepmanM.DEv.isInvokeOf]
      rw [h0]
      simpa using hC1 id0
    · intro id0 hid0
      rw [DepmanM.invokeCount_append]
      have h0 : DepmanM.invokeCount id0
          [DepmanM.DEv.lmEval d.depId, DepmanM.DEv.startHeader d.depId] = 0 := by
        simp [DepmanM.invokeCount, DepmanM.DEv.isInvokeOf]
      rw [h0, hC0 id0 hid0]
    · intro t ht
      rcases List.mem_append.1 ht with h0 | h0
      · rcases List.mem_or_eq_of_mem_set h0 with h1 | h1
        · exact DepmanI.TaskOk_mono U hsd t (hT t h1)
        · subst h1
          exact ⟨hstart, hne, hallF, hwok⟩
      · obtain ⟨dd, hdd, h1⟩ := hspawn t h0
        subst h1
        intro x hx
        exact hstart (DepmanM.child_nodes_subset d dd hdd hx)
  | gatherFail tasks σ tr i d waits results hi hvals hres =>
    obtain ⟨hG, hObs, hC1, hC0, hT⟩ := hinv
    have hgok : DepmanI.TaskOk U tasks (.gather d waits) :=
      hT _ (List.getElem?_mem hi)
    obtain ⟨hsub, hne, hallF, hwok⟩ := hgok
    obtain ⟨hresEq, hobs⟩ :=
      DepmanI.waitVals_spec U tasks hT d.dependsOn waits results hwok hvals
    have hdvl : DepmanM.depValL d.dependsOn = false := by
      rw [← DepmanM.depValL_eq_all, ← hresEq]
      exact hres
    have hsd : DepmanI.SameDeps tasks (tasks.set i (.done d true) ++ []) :=
      DepmanI.sameDeps_set_append tasks i _ _ [] hi rfl
    rw [List.append_nil] at hsd
    have hObsNew : DepmanM.ObsOk U (DepmanI.obsEvents waits results) := by
      intro id0 b0 hmem
      obtain ⟨dd, hdd, hev⟩ := hobs _ hmem
      injection hev with h1 h2
      exact ⟨dd,
        hsub (DepmanM.child_nodes_subset d dd hdd (DepmanM.self_mem_nodesOf dd)),
        h1.symm, h2.symm⟩
    refine ⟨hG, ?_, ?_, ?_, ?_⟩
    · exact DepmanM.ObsOk_append U _ _
        (DepmanM.ObsOk_append U _ _ hObs hObsNew)
        (DepmanM.ObsOk_of_no_obs U _ (by intro id0 b0; simp))
    · intro id0
      rw [DepmanM.invokeCount_append, DepmanM.invokeCount_append,
        DepmanI.invokeCount_obsEvents]
      have h0 : DepmanM.invokeCount id0 [DepmanM.DEv.depFailed d.depId] = 0 := by
        simp [DepmanM.invokeCount, DepmanM.DEv.isInvokeOf]
      rw [h0]
      simpa using hC1 id0
    · intro id0 hid0
      rw [DepmanM.invokeCount_append, DepmanM.invokeCount_append,
        DepmanI.invokeCount_obsEvents]
      have h0 : DepmanM.invokeCount id0 [DepmanM.DEv.depFailed d.depId] = 0 := by
        simp [DepmanM.invokeCount, DepmanM.DEv.isInvokeOf]
      rw [h0, hC0 id0 hid0]
    · intro t ht
      rcases List.mem_or_eq_of_mem_set ht with h0 | h0
      · exact DepmanI.TaskOk_mono U hsd t (hT t h0)
      · subst h0
        exact (DepmanI.depVal_depFail d hne hallF hdvl).symm
  | gatherHit tasks σ tr i d waits results b hi hvals hres hlk =>
    obtain ⟨hG, hObs, hC1, hC0, hT⟩ := hinv
    have hgok : DepmanI.TaskOk U tasks (.gather d waits) :=
      hT _ (List.getElem?_mem hi)
    obtain ⟨hsub, hne, hallF, hwok⟩ := hgok
    obtain ⟨hresEq, hobs⟩ :=
      DepmanI.waitVals_spec U tasks hT d.dependsOn waits results hwok hvals
    have hdU : d ∈ U := hsub (DepmanM.self_mem_nodesOf d)
    obtain ⟨d2, hd2U, hid2, _, hdv2⟩ := hG d.depId b hlk
    have he : d2 = d := hcoh d2 hd2U d hdU hid2
    have hsd : DepmanI.SameDeps tasks (tasks.set i (.done d b) ++ []) :=
      DepmanI.sameDeps_set_append tasks i _ _ [] hi rfl
    rw [List.append_nil] at hsd
    have hObsNew : DepmanM.ObsOk U (DepmanI.obsEvents waits results) := by
      intro id0 b0 hmem
      obtain ⟨dd, hdd, hev⟩ := hobs _ hmem
      injection hev with h1 h2
      exact ⟨dd,
        hsub (DepmanM.child_nodes_subset d dd hdd (DepmanM.self_mem_nodesOf dd)),
        h1.symm, h2.symm⟩
    refine ⟨hG, ?_, ?_, ?_, ?_⟩
    · exact DepmanM.ObsOk_append U _ _ hObs hObsNew
    · intro id0
      rw [DepmanM.invokeCount_append, DepmanI.invokeCount_obsEvents]
      simpa using hC1 id0
    · intro id0 hid0
      rw [DepmanM.invokeCount_append, DepmanI.invokeCount_obsEvents,
        hC0 id0 hid0]
    · intro t ht
      rcases List.mem_or_eq_of_mem_set ht with h0 | h0
      · exact DepmanI.TaskOk_mono U hsd t (hT t h0)
      · subst h0
        show b = DepmanM.depVal d
        rw [← hdv2, he]
  | gatherMiss tasks σ tr i d waits results hi hvals hres hlk =>
    obtain ⟨hG, hObs, hC1, hC0, hT⟩ := hinv
    have hgok : DepmanI.TaskOk U tasks (.gather d waits) :=
      hT _ (List.getElem?_mem hi)
    obtain ⟨hsub, hne, hallF, hwok⟩ := hgok
    obtain ⟨hresEq, hobs⟩ :=
      DepmanI.waitVals_spec U tasks hT d.dependsOn waits results hwok hvals
    have hdvl : DepmanM.depValL d.dependsOn = true := by
      rw [← DepmanM.depValL_eq_all, ← hresEq]
      exact hres
    have hdU : d ∈ U := hsub (DepmanM.self_mem_nodesOf d)
    have hval : DepmanM.depVal d = d.runResult := DepmanI.depVal_depOk d hallF hdvl
    have hsd : DepmanI.SameDeps tasks (tasks.set i (.done d d.runResult) ++ []) :=
      DepmanI.sameDeps_set_append tasks i _ _ [] hi rfl
    rw [List.append_nil] at hsd
    have hObsNew : DepmanM.ObsOk U (DepmanI.obsEvents waits results) := by
      intro id0 b0 hmem
      obtain ⟨dd, hdd, hev⟩ := hobs _ hmem
      injection hev with h1 h2
      exact ⟨dd,
        hsub (DepmanM.child_nodes_subset d dd hdd (DepmanM.self_mem_nodesOf dd)),
        h1.symm, h2.symm⟩
    refine ⟨?_, ?_, ?_, ?_, ?_⟩
    · exact DepmanI.GoodTbl_set U σ hG d hdU hval
    · exact DepmanM.ObsOk_append U _ _
        (DepmanM.ObsOk_append U _ _ hObs hObsNew)
        (DepmanM.ObsOk_of_no_obs U _ (by intro id0 b0; simp))
    · intro id0
      rw [DepmanM.invokeCount_append, DepmanM.invokeCount_append,
        DepmanI.invokeCount_obsEvents]
      by_cases hid : id0 = d.depId
      · subst hid
        have h0 : DepmanM.invokeCount d.depId tr = 0 := hC0 d.depId hlk
        have h1 : DepmanM.invokeCount d.depId
            [DepmanM.DEv.runInvoke d.depId d.runResult] = 1 := by
          simp [DepmanM.invokeCount, DepmanM.DEv.isInvokeOf]
        rw [h0, h1]
      · have h1 : DepmanM.invokeCount id0
            [DepmanM.DEv.runInvoke d.depId d.runResult] = 0 := by
          simp [DepmanM.invokeCount, DepmanM.DEv.isInvokeOf, Ne.symm hid]
        rw [h1]
        simpa using hC1 id0
    · intro id0 hid0
      by_cases hid : id0 = d.depId
      · subst hid
        rw [lookupK_setK_self] at hid0
        exact absurd hid0 (by simp)
      · rw [lookupK_setK_ne _ _ _ _ hid] at hid0
        rw [DepmanM.invokeCount_append, DepmanM.invokeCount_append,
          DepmanI.invokeCount_obsEvents]
        have h1 : DepmanM.invokeCount id0
            [DepmanM.DEv.runInvoke d.depId d.runResult] = 0 := by
          simp [DepmanM.invokeCount, DepmanM.DEv.isInvokeOf, Ne.symm hid]
        rw [h1, hC0 id0 hid0]
    · intro t ht
      rcases List.mem_or_eq_of_mem_set ht with h0 | h0
      · exact DepmanI.TaskOk_mono U hsd t (hT t h0)
      · subst h0
        exact hval.symm

/-- Helper for C2: the invariant holds in every reachable
configuration. -/
theorem DepmanI.steps_inv (U : List DepmanM.Dep)
    (hcoh : ∀ d1 ∈ U, ∀ d2 ∈ U, d1.depId = d2.depId → d1 = d2)
    {c c2 : DepmanI.Cfg} (hs : DepmanI.Steps c c2) (hinv : DepmanI.Inv U c) :
    DepmanI.Inv U c2 := by
  induction hs with
  | refl => exact hinv
  | tail hab hbc ih => exact DepmanI.step_inv U hcoh hbc ih

/-- Helper for C2: the initial configuration satisfies the invariant
over the universe of dependencies reachable from the request list. -/
theorem DepmanI.init_inv (ds : List DepmanM.Dep) :
    DepmanI.Inv (DepmanM.nodesOfL ds) (DepmanI.init ds) := by
  refine ⟨?_, ?_, ?_, ?_, ?_⟩
  · intro id b hb
    simp [lookupK] at hb
  · intro id b hb
    simp [DepmanI.init] at hb
  · intro id
    simp [DepmanI.init, DepmanM.invokeCount]
  · intro id _
    simp [DepmanI.init, DepmanM.invokeCount]
  · intro t ht
    simp only [DepmanI.init] at ht
    obtain ⟨d, hd, hteq⟩ := List.mem_map.1 ht
    rw [← hteq]
    exact DepmanM.nodesOf_subset_of_mem ds d hd

/-- **C2** (amended, depman.py, all schedules): over *every* scheduling
of the asyncio event loop — any interleaving of the await-free segments
of the `run_dep` coroutines, with tasks created by `Gør`'s batch or
spawned by gathers — a coherent dependency batch satisfies at-most-once
memoization: each dependency's `run()` is invoked at most once in the
whole trace (the membership check and the registration of the shared
pending handle in `deps_running` are atomic, depman.py lines 47-52),
any two observations of the same identifier agree, and every finished
`run_dep` task — a sibling requester or a later request, after failure
as much as after success — carries its dependency's deterministic
value. -/
theorem c2_at_most_once_all_schedules (ds : List DepmanM.Dep)
    (hcoh : DepmanM.Coherent ds) :
    ∀ (tasks : List DepmanI.TaskSt) (σ : DepmanM.Tbl) (tr : List DepmanM.DEv),
      DepmanI.Steps (DepmanI.init ds) (tasks, σ, tr) →
      (∀ id, DepmanM.invokeCount id tr ≤ 1)
      ∧ (∀ id b1 b2, DepmanM.DEv.obsDep id b1 ∈ tr →
          DepmanM.DEv.obsDep id b2 ∈ tr → b1 = b2)
      ∧ (∀ d r, DepmanI.TaskSt.done d r ∈ tasks → r = DepmanM.depVal d) := by
  intro tasks σ tr hsteps
  have hcoh2 : ∀ d1 ∈ DepmanM.nodesOfL ds, ∀ d2 ∈ DepmanM.nodesOfL ds,
      d1.depId = d2.depId → d1 = d2 := fun d1 h1 d2 h2 => hcoh d1 d2 h1 h2
  have hinv := DepmanI.steps_inv (DepmanM.nodesOfL ds) hcoh2 hsteps
    (DepmanI.init_inv ds)
  obtain ⟨hG, hObs, hC1, _, hT⟩ := hinv
  refine ⟨hC1, ?_, ?_⟩
  · intro id b1 b2 h1 h2
    obtain ⟨d1, hd1, hi1, hv1⟩ := hObs id b1 h1
    obtain ⟨d2, hd2, hi2, hv2⟩ := hObs id b2 h2
    have he : d1 = d2 := hcoh2 d1 hd1 d2 hd2 (by rw [hi1, hi2])
    rw [← hv1, ← hv2, he]
  · intro d r hmem
    exact hT _ hmem

/-- Witness for C2 at a concrete adversarial schedule of the shared-leaf
batch `[m1, m2]`, both depending on the failing `leaf`: the event loop
starts both parents (each creates its gather entries) before `leaf`
ever runs, the first `leaf` task registers the handle and invokes
`run()`, the second finds the handle; `leaf` is invoked once and both
parents observe the same failing result. -/
theorem c2_at_most_once_all_schedules_witness :
    (∀ id, DepmanM.invokeCount id
        [DepmanM.DEv.lmEval "m1", DepmanM.DEv.startHeader "m1",
         DepmanM.DEv.lmEval "m2", DepmanM.DEv.startHeader "m2",
         DepmanM.DEv.startHeader "leaf", DepmanM.DEv.runInvoke "leaf" false,
         DepmanM.DEv.startHeader "leaf",
         DepmanM.DEv.obsDep "leaf" false, DepmanM.DEv.depFailed "m1",
         DepmanM.DEv.obsDep "leaf" false, DepmanM.DEv.depFailed "m2"] ≤ 1)
    ∧ (∀ id b1 b2,
        DepmanM.DEv.obsDep id b1 ∈
          [DepmanM.DEv.lmEval "m1", DepmanM.DEv.startHeader "m1",
           DepmanM.DEv.lmEval "m2", DepmanM.DEv.startHeader "m2",
           DepmanM.DEv.startHeader "leaf", DepmanM.DEv.runInvoke "leaf" false,
           DepmanM.DEv.startHeader "leaf",
           DepmanM.DEv.obsDep "leaf" false, DepmanM.DEv.depFailed "m1",
           DepmanM.DEv.obsDep "leaf" false, DepmanM.DEv.depFailed "m2"] →
        DepmanM.DEv.obsDep id b2 ∈
          [DepmanM.DEv.lmEval "m1", DepmanM.DEv.startHeader "m1",
           DepmanM.DEv.lmEval "m2", DepmanM.DEv.startHeader "m2",
           DepmanM.DEv.startHeader "leaf", DepmanM.DEv.runInvoke "leaf" false,
           DepmanM.DEv.startHeader "leaf",
           DepmanM.DEv.obsDep "leaf" false, DepmanM.DEv.depFailed "m1",
           DepmanM.DEv.obsDep "leaf" false, DepmanM.DEv.depFailed "m2"] →
        b1 = b2)
    ∧ (∀ d r, DepmanI.TaskSt.done d r ∈
        [DepmanI.TaskSt.done
            (DepmanM.Dep.mk "m1" 0 true [DepmanM.Dep.mk "leaf" 0 false []]) true,
         DepmanI.TaskSt.done
            (DepmanM.Dep.mk "m2" 0 true [DepmanM.Dep.mk "leaf" 0 false []]) true,
         DepmanI.TaskSt.done (DepmanM.Dep.mk "leaf" 0 false []) false,
         DepmanI.TaskSt.done (DepmanM.Dep.mk "leaf" 0 false []) false] →
        r = DepmanM.depVal d) := by
  have hcoh : DepmanM.Coherent
      [DepmanM.Dep.mk "m1" 0 true [DepmanM.Dep.mk "leaf" 0 false []],
       DepmanM.Dep.mk "m2" 0 true [DepmanM.Dep.mk "leaf" 0 false []]] := by
    intro d1 d2 h1 h2 hid
    simp only [DepmanM.nodesOfL, DepmanM.nodesOf, List.append_nil,
      List.mem_cons, List.mem_append, List.not_mem_nil, or_false] at h1 h2
    rcases h1 with (rfl | rfl) | rfl | rfl <;>
      rcases h2 with (rfl | rfl) | rfl | rfl <;>
      simp_all [DepmanM.Dep.depId]
  have s1 : DepmanI.Step
      (DepmanI.init
        [DepmanM.Dep.mk "m1" 0 true [DepmanM.Dep.mk "leaf" 0 false []],
         DepmanM.Dep.mk "m2" 0 true [DepmanM.Dep.mk "leaf" 0 false []]])
      ([DepmanI.TaskSt.gather
          (DepmanM.Dep.mk "m1" 0 true [DepmanM.Dep.mk "leaf" 0 false []])
          [DepmanI.WaitSrc.task 2 "leaf"],
        DepmanI.TaskSt.start
          (DepmanM.Dep.mk "m2" 0 true [DepmanM.Dep.mk "leaf" 0 false []]),
        DepmanI.TaskSt.start (DepmanM.Dep.mk "leaf" 0 false [])], [],
       [DepmanM.DEv.lmEval "m1", DepmanM.DEv.startHeader "m1"]) :=
    DepmanI.Step.spawn _ _ _ 0 _ rfl rfl rfl
  have s2 : DepmanI.Step
      ([DepmanI.TaskSt.gather
          (DepmanM.Dep.mk "m1" 0 true [DepmanM.Dep.mk "leaf" 0 false []])
          [DepmanI.WaitSrc.task 2 "leaf"],
        DepmanI.TaskSt.start
          (DepmanM.Dep.mk "m2" 0 true [DepmanM.Dep.mk "leaf" 0 false []]),
        DepmanI.TaskSt.start (DepmanM.Dep.mk "leaf" 0 false [])], [],
       [DepmanM.DEv.lmEval "m1", DepmanM.DEv.startHeader "m1"])
      ([DepmanI.TaskSt.gather
          (DepmanM.Dep.mk "m1" 0 true [DepmanM.Dep.mk "leaf" 0 false []])
          [DepmanI.WaitSrc.task 2 "leaf"],
        DepmanI.TaskSt.gather
          (DepmanM.Dep.mk "m2" 0 true [DepmanM.Dep.mk "leaf" 0 false []])
          [DepmanI.WaitSrc.task 3 "leaf"],
        DepmanI.TaskSt.start (DepmanM.Dep.mk "leaf" 0 false []),
        DepmanI.TaskSt.start (DepmanM.Dep.mk "leaf" 0 false [])], [],
       [DepmanM.DEv.lmEval "m1", DepmanM.DEv.startHeader "m1",
        DepmanM.DEv.lmEval "m2", DepmanM.DEv.startHeader "m2"]) :=
    DepmanI.Step.spawn _ _ _ 1 _ rfl rfl rfl
  have s3 : DepmanI.Step
      ([DepmanI.TaskSt.gather
          (DepmanM.Dep.mk "m1" 0 true [DepmanM.Dep.mk "leaf" 0 false []])
          [DepmanI.WaitSrc.task 2 "leaf"],
        DepmanI.TaskSt.gather
          (DepmanM.Dep.mk "m2" 0 true [DepmanM.Dep.mk "leaf" 0 false []])
          [DepmanI.WaitSrc.task 3 "leaf"],
        DepmanI.TaskSt.start (DepmanM.Dep.mk "leaf" 0 false []),
        DepmanI.TaskSt.start (DepmanM.Dep.mk "leaf" 0 false [])], [],
       [DepmanM.DEv.lmEval "m1", DepmanM.DEv.startHeader "m1",
        DepmanM.DEv.lmEval "m2", DepmanM.DEv.startHeader "m2"])
      ([DepmanI.TaskSt.gather
          (DepmanM.Dep.mk "m1" 0 true [DepmanM.Dep.mk "leaf" 0 false []])
          [DepmanI.WaitSrc.task 2 "leaf"],
        DepmanI.TaskSt.gather
          (DepmanM.Dep.mk "m2" 0 true [DepmanM.Dep.mk "leaf" 0 false []])
          [DepmanI.WaitSrc.task 3 "leaf"],
        DepmanI.TaskSt.done (DepmanM.Dep.mk "leaf" 0 false []) false,
        DepmanI.TaskSt.start (DepmanM.Dep.mk "leaf" 0 false [])],
       [("leaf", false)],
       [DepmanM.DEv.lmEval "m1", DepmanM.DEv.startHeader "m1",
        DepmanM.DEv.lmEval "m2", DepmanM.DEv.startHeader "m2",
        DepmanM.DEv.startHeader "leaf", DepmanM.DEv.runInvoke "leaf" false]) :=
    DepmanI.Step.leafMiss _ _ _ 2 _ rfl rfl rfl
  have s4 : DepmanI.Step
      ([DepmanI.TaskSt.gather
          (DepmanM.Dep.mk "m1" 0 true [DepmanM.Dep.mk "leaf" 0 false []])
          [DepmanI.WaitSrc.task 2 "leaf"],
        DepmanI.TaskSt.gather
          (DepmanM.Dep.mk "m2" 0 true [DepmanM.Dep.mk "leaf" 0 false []])
          [DepmanI.WaitSrc.task 3 "leaf"],
        DepmanI.TaskSt.done (DepmanM.Dep.mk "leaf" 0 false []) false,
        DepmanI.TaskSt.start (DepmanM.Dep.mk "leaf" 0 false [])],
       [("leaf", false)],
       [DepmanM.DEv.lmEval "m1", DepmanM.DEv.startHeader "m1",
        DepmanM.DEv.lmEval "m2", DepmanM.DEv.startHeader "m2",
        DepmanM.DEv.startHeader "leaf", DepmanM.DEv.runInvoke "leaf" false])
      ([DepmanI.TaskSt.gather
          (DepmanM.Dep.mk "m1" 0 true [DepmanM.Dep.mk "leaf" 0 false []])
          [DepmanI.WaitSrc.task 2 "leaf"],
        DepmanI.TaskSt.gather
          (DepmanM.Dep.mk "m2" 0 true [DepmanM.Dep.mk "leaf" 0 false []])
          [DepmanI.WaitSrc.task 3 "leaf"],
        DepmanI.TaskSt.done (DepmanM.Dep.mk "leaf" 0 false []) false,
        DepmanI.TaskSt.done (DepmanM.Dep.mk "leaf" 0 false []) false],
       [("leaf", false)],
       [DepmanM.DEv.lmEval "m1", DepmanM.DEv.startHeader "m1",
        DepmanM.DEv.lmEval "m2", DepmanM.DEv.startHeader "m2",
        DepmanM.DEv.startHeader "leaf", DepmanM.DEv.runInvoke "leaf" false,
        DepmanM.DEv.startHeader "leaf"]) :=
    DepmanI.Step.leafHit _ _ _ 3 _ false rfl rfl rfl
  have s5 : DepmanI.Step
      ([DepmanI.TaskSt.gather
          (DepmanM.Dep.mk "m1" 0 true [DepmanM.Dep.mk "leaf" 0 false []])
          [DepmanI.WaitSrc.task 2 "leaf"],
        DepmanI.TaskSt.gather
          (DepmanM.Dep.mk "m2" 0 true [DepmanM.Dep.mk "leaf" 0 false []])
          [DepmanI.WaitSrc.task 3 "leaf"],
        DepmanI.TaskSt.done (DepmanM.Dep.mk "leaf" 0 false []) false,
        DepmanI.TaskSt.done (DepmanM.Dep.mk "leaf" 0 false []) false],
       [("leaf", false)],
       [DepmanM.DEv.lmEval "m1", DepmanM.DEv.startHeader "m1",
        DepmanM.DEv.lmEval "m2", DepmanM.DEv.startHeader "m2",
        DepmanM.DEv.startHeader "leaf", DepmanM.DEv.runInvoke "leaf" false,
        DepmanM.DEv.startHeader "leaf"])
      ([DepmanI.TaskSt.done
          (DepmanM.Dep.mk "m1" 0 true [DepmanM.Dep.mk "leaf" 0 false []]) true,
        DepmanI.TaskSt.gather
          (DepmanM.Dep.mk "m2" 0 true [DepmanM.Dep.mk "leaf" 0 false []])
          [DepmanI.WaitSrc.task 3 "leaf"],
        DepmanI.TaskSt.done (DepmanM.Dep.mk "leaf" 0 false []) false,
        DepmanI.TaskSt.done (DepmanM.Dep.mk "leaf" 0 false []) false],
       [("leaf", false)],
       [DepmanM.DEv.lmEval "m1", DepmanM.DEv.startHeader "m1",
        DepmanM.DEv.lmEval "m2", DepmanM.DEv.startHeader "m2",
        DepmanM.DEv.startHeader "leaf", DepmanM.DEv.runInvoke "leaf" false,
        DepmanM.DEv.startHeader "leaf",
        DepmanM.DEv.obsDep "leaf" false, DepmanM.DEv.depFailed "m1"]) :=
    DepmanI.Step.gatherFail _ _ _ 0 _ [DepmanI.WaitSrc.task 2 "leaf"] [false]
      rfl rfl rfl
  have s6 : DepmanI.Step
      ([DepmanI.TaskSt.done
          (DepmanM.Dep.mk "m1" 0 true [DepmanM.Dep.mk "leaf" 0 false []]) true,
        DepmanI.TaskSt.gather
          (DepmanM.Dep.mk "m2" 0 true [DepmanM.Dep.mk "leaf" 0 false []])
          [DepmanI.WaitSrc.task 3 "leaf"],
        DepmanI.TaskSt.done (DepmanM.Dep.mk "leaf" 0 false []) false,
        DepmanI.TaskSt.done (DepmanM.Dep.mk "leaf" 0 false []) false],
       [("leaf", false)],
       [DepmanM.DEv.lmEval "m1", DepmanM.DEv.startHeader "m1",
        DepmanM.DEv.lmEval "m2", DepmanM.DEv.startHeader "m2",
        DepmanM.DEv.startHeader "leaf", DepmanM.DEv.runInvoke "leaf" false,
        DepmanM.DEv.startHeader "leaf",
        DepmanM.DEv.obsDep "leaf" false, DepmanM.DEv.depFailed "m1"])
      ([DepmanI.TaskSt.done
          (DepmanM.Dep.mk "m1" 0 true [DepmanM.Dep.mk "leaf" 0 false []]) true,
        DepmanI.TaskSt.done
          (DepmanM.Dep.mk "m2" 0 true [DepmanM.Dep.mk "leaf" 0 false []]) true,
        DepmanI.TaskSt.done (DepmanM.Dep.mk "leaf" 0 false []) false,
        DepmanI.TaskSt.done (DepmanM.Dep.mk "leaf" 0 false []) false],
       [("leaf", false)],
       [DepmanM.DEv.lmEval "m1", DepmanM.DEv.startHeader "m1",
        DepmanM.DEv.lmEval "m2", DepmanM.DEv.startHeader "m2",
        DepmanM.DEv.startHeader "leaf", DepmanM.DEv.runInvoke "leaf" false,
        DepmanM.DEv.startHeader "leaf",
        DepmanM.DEv.obsDep "leaf" false, DepmanM.DEv.depFailed "m1",
        DepmanM.DEv.obsDep "leaf" false, DepmanM.DEv.depFailed "m2"]) :=
    DepmanI.Step.gatherFail _ _ _ 1 _ [DepmanI.WaitSrc.task 3 "leaf"] [false]
      rfl rfl rfl
  have hsteps := DepmanI.Steps.tail (DepmanI.Steps.tail (DepmanI.Steps.tail
    (DepmanI.Steps.tail (DepmanI.Steps.tail (DepmanI.Steps.tail
      (DepmanI.Steps.refl _) s1) s2) s3) s4) s5) s6
  exact c2_at_most_once_all_schedules _ hcoh _ _ _ hsteps

namespace JobI

/-!
## job.py under the asyncio event loop: interleaving semantics

The analogous machine for job.py's `DependencyManager`
(`run_job`/`_run_job`/`_check_dependencies_and_rules`, job.py lines
140-174).  Unlike depman.py there is no table of pending handles: the
only shared state is `jobs_done`, read at the top of `_run_job` (line
149) and written only after `job._run()` has completed (line 158), so
the read and the write are separated by every suspension point of the
job's own steps (each step suspends at its subprocess awaits, job.py
lines 75-84).  The gather of `_check_dependencies_and_rules` (line 166)
creates a fresh `run_job` task per dependency with no lookup of any
pending state.  The trace records step executions, returns, dependency
failures and skips; segments of one coroutine split by awaits that
touch no shared state are run consecutively, which every event-loop
schedule can do. -/

/-- The state of one `run_job` coroutine between suspension points:
scheduled; suspended on the dependency gather (children by task
index); suspended inside `run_steps` with the remaining steps; or
finished. -/
inductive TaskSt where
  | start (j : JobM.Job)
  | gather (j : JobM.Job) (waits : List Nat)
  | running (j : JobM.Job) (rem : List Int)
  | done (j : JobM.Job) (r : Bool)
  deriving DecidableEq, Repr

/-- A configuration: all `run_job` task states, `jobs_done`, and the
trace. -/
abbrev Cfg := List TaskSt × JobM.St × List JobM.JEv

/-- Fresh `run_job` tasks for the resolved dependencies, one per
dependency, appended starting at index `base`. -/
def spawnAll (base : Nat) : List JobM.Job → List Nat × List TaskSt
  | [] => ([], [])
  | j :: rest =>
    let (ws, ts) := spawnAll (base + 1) rest
    (base :: ws, .start j :: ts)

/-- The gathered results once every child task has finished. -/
def gatherVals (tasks : List TaskSt) : List Nat → Option (List Bool)
  | [] => some []
  | i :: rest =>
    match tasks[i]?, gatherVals tasks rest with
    | some (.done _ r), some bs => some (r :: bs)
    | _, _ => none

/-- One step of the event loop over job.py's scheduler, parameterized
by the job registry (`self.jobs`).

* `memoHit`: `_run_job` starts and finds `jobs_done` set — it returns
  `True` regardless of the recorded job's actual result.
* `spawnDeps`: `_run_job` starts, `jobs_done` is unset and there are
  dependencies: the same segment resolves them (missing ones reported
  and dropped) and creates one fresh `run_job` task each — no pending
  handle is consulted or registered — then suspends on the gather.
* `gatherFail`: a dependency result was falsy; the walrus guard (line
  152) turns the helper's `False` into a returned `True`.
* `gatherSkip`/`startSkip`: all rules pass (non-empty rules), return
  `True` without running steps and without writing `jobs_done`.
* `gatherRun`/`startRun`: no skip and there are steps: the segment
  enters `run_steps` and suspends at the first step's subprocess await,
  `jobs_done` still unwritten.
* `gatherNoSteps`/`startNoSteps`: no skip, no steps: `_run` returns
  `True` and the same segment writes `jobs_done`.
* `stepOk`/`stepFail`/`stepsDone`: one step of `run_steps` per
  suspension: the step's process runs (recorded in the trace); on a
  non-zero exit code the job returns `False` yet `jobs_done` records
  `True`; after the last step the job returns `True`. -/
inductive Step (reg : JobM.Reg) : Cfg → Cfg → Prop where
  | memoHit (tasks : List TaskSt) (σ : JobM.St) (tr : List JobM.JEv)
      (i : Nat) (j : JobM.Job) :
      tasks[i]? = some (.start j) →
      (lookupK j.jobId σ).getD false = true →
      Step reg (tasks, σ, tr)
        (tasks.set i (.done j true), σ, tr ++ [JobM.JEv.jobReturn j.jobId true])
  | spawnDeps (tasks : List TaskSt) (σ : JobM.St) (tr : List JobM.JEv)
      (i : Nat) (j : JobM.Job) :
      tasks[i]? = some (.start j) →
      (lookupK j.jobId σ).getD false = false →
      j.dependsOn.isEmpty = false →
      Step reg (tasks, σ, tr)
        (tasks.set i (.gather j
            (spawnAll tasks.length
              (JobM.resolveJobDeps reg j.jobId j.dependsOn).2).1)
          ++ (spawnAll tasks.length
              (JobM.resolveJobDeps reg j.jobId j.dependsOn).2).2,
          σ, tr ++ (JobM.resolveJobDeps reg j.jobId j.dependsOn).1)
  | gatherFail (tasks : List TaskSt) (σ : JobM.St) (tr : List JobM.JEv)
      (i : Nat) (j : JobM.Job) (waits : List Nat) (results : List Bool) :
      tasks[i]? = some (.gather j waits) →
      gatherVals tasks waits = some results →
      results.all (· = true) = false →
      Step reg (tasks, σ, tr)
        (tasks.set i (.done j true), σ,
          tr ++ [JobM.JEv.depFailed j.jobId, JobM.JEv.jobReturn j.jobId true])
  | gatherSkip (tasks : List TaskSt) (σ : JobM.St) (tr : List JobM.JEv)
      (i : Nat) (j : JobM.Job) (waits : List Nat) (results : List Bool) :
      tasks[i]? = some (.gather j waits) →
      gatherVals tasks waits = some results →
      results.all (· = true) = true →
      j.rules.isEmpty = false →
      j.rules.all (· = true) = true →
      Step reg (tasks, σ, tr)
        (tasks.set i (.done j true), σ,
          tr ++ [JobM.JEv.skipped j.jobId, JobM.JEv.jobReturn j.jobId true])
  | gatherRun (tasks : List TaskSt) (σ : JobM.St) (tr : List JobM.JEv)
      (i : Nat) (j : JobM.Job) (waits : List Nat) (results : List Bool) :
      tasks[i]? = some (.gather j waits) →
      gatherVals tasks waits = some results →
      results.all (· = true) = true →
      (j.rules.isEmpty = true ∨ j.rules.all (· = true) = false) →
      j.steps.isEmpty = false →
      Step reg (tasks, σ, tr) (tasks.set i (.running j j.steps), σ, tr)
  | gatherNoSteps (tasks : List TaskSt) (σ : JobM.St) (tr : List JobM.JEv)
      (i : Nat) (j : JobM.Job) (waits : List Nat) (results : List Bool) :
      tasks[i]? = some (.gather j waits) →
      gatherVals tasks waits = some results →
      results.all (· = true) = true →
      (j.rules.isEmpty = true ∨ j.rules.all (· = true) = false) →
      j.steps.isEmpty = true →
      Step reg (tasks, σ, tr)
        (tasks.set i (.done j true), setK j.jobId true σ,
          tr ++ [JobM.JEv.jobReturn j.jobId true])
  | startSkip (tasks : List TaskSt) (σ : JobM.St) (tr : List JobM.JEv)
      (i : Nat) (j : JobM.Job) :
      tasks[i]? = some (.start j) →
      (lookupK j.jobId σ).getD false = false →
      j.dependsOn.isEmpty = true →
      j.rules.isEmpty = false →
      j.rules.all (· = true) = true →
      Step reg (tasks, σ, tr)
        (tasks.set i (.done j true), σ,
          tr ++ [JobM.JEv.skipped j.jobId, JobM.JEv.jobReturn j.jobId true])
  | startRun (tasks : List TaskSt) (σ : JobM.St) (tr : List JobM.JEv)
      (i : Nat) (j : JobM.Job) :
      tasks[i]? = some (.start j) →
      (lookupK j.jobId σ).getD false = false →
      j.dependsOn.isEmpty = true →
      (j.rules.isEmpty = true ∨ j.rules.all (· = true) = false) →
      j.steps.isEmpty = false →
      Step reg (tasks, σ, tr) (tasks.set i (.running j j.steps), σ, tr)
  | startNoSteps (tasks : List TaskSt) (σ : JobM.St) (tr : List JobM.JEv)
      (i : Nat) (j : JobM.Job) :
      tasks[i]? = some (.start j) →
      (lookupK j.jobId σ).getD false = false →
      j.dependsOn.isEmpty = true →
      (j.rules.isEmpty = true ∨ j.rules.all (· = true) = false) →
      j.steps.isEmpty = true →
      Step reg (tasks, σ, tr)
        (tasks.set i (.done j true), setK j.jobId true σ,
          tr ++ [JobM.JEv.jobReturn j.jobId true])
  | stepOk (tasks : List TaskSt) (σ : JobM.St) (tr : List JobM.JEv)
      (i : Nat) (j : JobM.Job) (code : Int) (rest : List Int) :
      tasks[i]? = some (.running j (code :: rest)) →
      code = 0 →
      Step reg (tasks, σ, tr)
        (tasks.set i (.running j rest), σ,
          tr ++ [JobM.JEv.stepExec j.jobId code])
  | stepFail (tasks : List TaskSt) (σ : JobM.St) (tr : List JobM.JEv)
      (i : Nat) (j : JobM.Job) (code : Int) (rest : List Int) :
      tasks[i]? = some (.running j (code :: rest)) →
      ¬ code = 0 →
      Step reg (tasks, σ, tr)
        (tasks.set i (.done j false), setK j.jobId true σ,
          tr ++ [JobM.JEv.stepExec j.jobId code,
            JobM.JEv.jobReturn j.jobId false])
  | stepsDone (tasks : List TaskSt) (σ : JobM.St) (tr : List JobM.JEv)
      (i : Nat) (j : JobM.Job) :
      tasks[i]? = some (.running j []) →
      Step reg (tasks, σ, tr)
        (tasks.set i (.done j true), setK j.jobId true σ,
          tr ++ [JobM.JEv.jobReturn j.jobId true])

/-- Finitely many event-loop steps. -/
inductive Steps (reg : JobM.Reg) : Cfg → Cfg → Prop where
  | refl (c : Cfg) : Steps reg c c
  | tail {a b c : Cfg} : Steps reg a b → Step reg b c → Steps reg a c

/-- Initial configuration of a batch of concurrently requested jobs. -/
def init (js : List JobM.Job) : Cfg := (js.map .start, [], [])

end JobI

/-- **C2** (supporting, job.py): the handle-free job.py scheduler
double-executes a shared step-bearing dependency under a real event-loop
schedule.  Both parents' gathers create fresh `run_job` tasks for
`leaf`; both tasks read `jobs_done` before either has written it (the
write happens only after the job's own steps complete), so both enter
`run_steps` and `leaf`'s step runs twice; afterwards `jobs_done`
records `True` although `leaf` failed.  The same adversarial schedule
against depman.py (the witness above) invokes `leaf` exactly once. -/
theorem c2_jobpy_double_execution :
    JobI.Steps
      [("m1", ⟨"m1", [], ["leaf"], []⟩), ("m2", ⟨"m2", [], ["leaf"], []⟩),
       ("leaf", ⟨"leaf", [7], [], []⟩)]
      (JobI.init [⟨"m1", [], ["leaf"], []⟩, ⟨"m2", [], ["leaf"], []⟩])
      ([JobI.TaskSt.gather ⟨"m1", [], ["leaf"], []⟩ [2],
        JobI.TaskSt.gather ⟨"m2", [], ["leaf"], []⟩ [3],
        JobI.TaskSt.done ⟨"leaf", [7], [], []⟩ false,
        JobI.TaskSt.done ⟨"leaf", [7], [], []⟩ false],
       [("leaf", true)],
       [JobM.JEv.stepExec "leaf" 7, JobM.JEv.jobReturn "leaf" false,
        JobM.JEv.stepExec "leaf" 7, JobM.JEv.jobReturn "leaf" false])
    ∧ [JobM.JEv.stepExec "leaf" 7, JobM.JEv.jobReturn "leaf" false,
       JobM.JEv.stepExec "leaf" 7, JobM.JEv.jobReturn "leaf" false].countP
        (JobM.JEv.isStepOf "leaf") = 2
    ∧ lookupK "leaf" [("leaf", true)] = some true := by
  refine ⟨?_, by decide, rfl⟩
  have s1 : JobI.Step
      [("m1", ⟨"m1", [], ["leaf"], []⟩), ("m2", ⟨"m2", [], ["leaf"], []⟩),
       ("leaf", ⟨"leaf", [7], [], []⟩)]
      (JobI.init [⟨"m1", [], ["leaf"], []⟩, ⟨"m2", [], ["leaf"], []⟩])
      ([JobI.TaskSt.gather ⟨"m1", [], ["leaf"], []⟩ [2],
        JobI.TaskSt.start ⟨"m2", [], ["leaf"], []⟩,
        JobI.TaskSt.start ⟨"leaf", [7], [], []⟩], [], []) :=
    JobI.Step.spawnDeps _ _ _ 0 _ rfl rfl rfl
  have s2 : JobI.Step
      [("m1", ⟨"m1", [], ["leaf"], []⟩), ("m2", ⟨"m2", [], ["leaf"], []⟩),
       ("leaf", ⟨"leaf", [7], [], []⟩)]
      ([JobI.TaskSt.gather ⟨"m1", [], ["leaf"], []⟩ [2],
        JobI.TaskSt.start ⟨"m2", [], ["leaf"], []⟩,
        JobI.TaskSt.start ⟨"leaf", [7], [], []⟩], [], [])
      ([JobI.TaskSt.gather ⟨"m1", [], ["leaf"], []⟩ [2],
        JobI.TaskSt.gather ⟨"m2", [], ["leaf"], []⟩ [3],
        JobI.TaskSt.start ⟨"leaf", [7], [], []⟩,
        JobI.TaskSt.start ⟨"leaf", [7], [], []⟩], [], []) :=
    JobI.Step.spawnDeps _ _ _ 1 _ rfl rfl rfl
  have s3 : JobI.Step
      [("m1", ⟨"m1", [], ["leaf"], []⟩), ("m2", ⟨"m2", [], ["leaf"], []⟩),
       ("leaf", ⟨"leaf", [7], [], []⟩)]
      ([JobI.TaskSt.gather ⟨"m1", [], ["leaf"], []⟩ [2],
        JobI.TaskSt.gather ⟨"m2", [], ["leaf"], []⟩ [3],
        JobI.TaskSt.start ⟨"leaf", [7], [], []⟩,
        JobI.TaskSt.start ⟨"leaf", [7], [], []⟩], [], [])
      ([JobI.TaskSt.gather ⟨"m1", [], ["leaf"], []⟩ [2],
        JobI.TaskSt.gather ⟨"m2", [], ["leaf"], []⟩ [3],
        JobI.TaskSt.running ⟨"leaf", [7], [], []⟩ [7],
        JobI.TaskSt.start ⟨"leaf", [7], [], []⟩], [], []) :=
    JobI.Step.startRun _ _ _ 2 _ rfl rfl rfl (Or.inl rfl) rfl
  have s4 : JobI.Step
      [("m1", ⟨"m1", [], ["leaf"], []⟩), ("m2", ⟨"m2", [], ["leaf"], []⟩),
       ("leaf", ⟨"leaf", [7], [], []⟩)]
      ([JobI.TaskSt.gather ⟨"m1", [], ["leaf"], []⟩ [2],
        JobI.TaskSt.gather ⟨"m2", [], ["leaf"], []⟩ [3],
        JobI.TaskSt.running ⟨"leaf", [7], [], []⟩ [7],
        JobI.TaskSt.start ⟨"leaf", [7], [], []⟩], [], [])
      ([JobI.TaskSt.gather ⟨"m1", [], ["leaf"], []⟩ [2],
        JobI.TaskSt.gather ⟨"m2", [], ["leaf"], []⟩ [3],
        JobI.TaskSt.running ⟨"leaf", [7], [], []⟩ [7],
        JobI.TaskSt.running ⟨"leaf", [7], [], []⟩ [7]], [], []) :=
    JobI.Step.startRun _ _ _ 3 _ rfl rfl rfl (Or.inl rfl) rfl
  have s5 : JobI.Step
      [("m1", ⟨"m1", [], ["leaf"], []⟩), ("m2", ⟨"m2", [], ["leaf"], []⟩),
       ("leaf", ⟨"leaf", [7], [], []⟩)]
      ([JobI.TaskSt.gather ⟨"m1", [], ["leaf"], []⟩ [2],
        JobI.TaskSt.gather ⟨"m2", [], ["leaf"], []⟩ [3],
        JobI.TaskSt.running ⟨"leaf", [7], [], []⟩ [7],
        JobI.TaskSt.running ⟨"leaf", [7], [], []⟩ [7]], [], [])
      ([JobI.TaskSt.gather ⟨"m1", [], ["leaf"], []⟩ [2],
        JobI.TaskSt.gather ⟨"m2", [], ["leaf"], []⟩ [3],
        JobI.TaskSt.done ⟨"leaf", [7], [], []⟩ false,
        JobI.TaskSt.running ⟨"leaf", [7], [], []⟩ [7]],
       [("leaf", true)],
       [JobM.JEv.stepExec "leaf" 7, JobM.JEv.jobReturn "leaf" false]) :=
    JobI.Step.stepFail _ _ _ 2 _ 7 [] rfl (by decide)
  have s6 : JobI.Step
      [("m1", ⟨"m1", [], ["leaf"], []⟩), ("m2", ⟨"m2", [], ["leaf"], []⟩),
       ("leaf", ⟨"leaf", [7], [], []⟩)]
      ([JobI.TaskSt.gather ⟨"m1", [], ["leaf"], []⟩ [2],
        JobI.TaskSt.gather ⟨"m2", [], ["leaf"], []⟩ [3],
        JobI.TaskSt.done ⟨"leaf", [7], [], []⟩ false,
        JobI.TaskSt.running ⟨"leaf", [7], [], []⟩ [7]],
       [("leaf", true)],
       [JobM.JEv.stepExec "leaf" 7, JobM.JEv.jobReturn "leaf" false])
      ([JobI.TaskSt.gather ⟨"m1", [], ["leaf"], []⟩ [2],
        JobI.TaskSt.gather ⟨"m2", [], ["leaf"], []⟩ [3],
        JobI.TaskSt.done ⟨"leaf", [7], [], []⟩ false,
        JobI.TaskSt.done ⟨"leaf", [7], [], []⟩ false],
       [("leaf", true)],
       [JobM.JEv.stepExec "leaf" 7, JobM.JEv.jobReturn "leaf" false,
        JobM.JEv.stepExec "leaf" 7, JobM.JEv.jobReturn "leaf" false]) :=
    JobI.Step.stepFail _ _ _ 3 _ 7 [] rfl (by decide)
  exact JobI.Steps.tail (JobI.Steps.tail (JobI.Steps.tail (JobI.Steps.tail
    (JobI.Steps.tail (JobI.Steps.tail (JobI.Steps.refl _) s1) s2) s3) s4) s5) s6
